import Mathlib

/-!
Verification development for the `orderbook-rs` limit order book engine.

The definitions below are a shallow embedding of the Rust sources:
  * `src/types.rs`    — `Side`, `OrderType`, `Execution`, `Order`, `PriceLevel`
  * `src/memory.rs`   — `OrderPool`
  * `src/orderbook.rs`— `OrderBook` (here `Book`) with `add_order`, `cancel_order`,
                         the limit/market matchers, depth and introspection.

Machine integers (`u64`, `usize`) are modelled as `Nat`; all subtractions in the
source act on quantities that the book's invariants keep in range, so truncated
`Nat` subtraction coincides with the source arithmetic there.  The monotonic
clock (`precise_time_ns`) is an external collaborator used only to stamp
executions; it is modelled as the constant `0`.  `Vec` stacks are modelled as
`List`s with the top of the stack at the head.  String error messages in the
source are modelled by the error-kind inductive `OBError` (spec §7 lists the
kinds).  Out-of-range `Vec` writes, which would panic in Rust, are modelled by
`List.set`'s out-of-range no-op; no reachable state performs such a write.
-/

set_option maxRecDepth 100000

namespace OB

/-- `Side` from src/types.rs. -/
inductive Side where
  | Buy
  | Sell
deriving DecidableEq

/-- `OrderType` from src/types.rs. -/
inductive OrderType where
  | Limit
  | Market
deriving DecidableEq

/-- `Execution` from src/types.rs.  `timestamp` is stamped from the external
monotonic clock, modelled as the constant 0. -/
structure Execution where
  order_id : Nat
  price : Nat
  quantity : Nat
  timestamp : Nat
  side : Side
deriving DecidableEq

/-- `Order` from src/types.rs.  The source packs `side` and `order_type` into a
`flags` byte via `Order::new` and exposes them through the accessors `side()`
and `order_type()`; they are modelled as plain fields.  `timestamp` is the
clock stamp taken at construction (modelled 0). -/
structure Order where
  order_id : Nat
  price : Nat
  quantity : Nat
  timestamp : Nat
  side : Side
  order_type : OrderType
deriving DecidableEq

/-- `PriceLevel` from src/types.rs. -/
structure PriceLevel where
  price : Nat
  total_quantity : Nat
  order_indices : List Nat
deriving DecidableEq

/-- `PriceLevel::new` (the `capacity` argument is only a `Vec` capacity hint). -/
def PriceLevel.new (price : Nat) : PriceLevel :=
  ⟨price, 0, []⟩

/-- `PriceLevel::add_order`: pushes the handle at the tail and always returns
`true`. -/
def PriceLevel.addOrder (lvl : PriceLevel) (order_index quantity : Nat) :
    PriceLevel × Bool :=
  ({ lvl with
      order_indices := lvl.order_indices ++ [order_index],
      total_quantity := lvl.total_quantity + quantity }, true)

/-- `Vec::swap_remove pos`: overwrite position `pos` with the last element and
pop the last element. -/
def swapRemoveAt (l : List Nat) (pos : Nat) : List Nat :=
  (l.set pos (l.getLastD 0)).dropLast

/-- `PriceLevel::remove_order`: locate the handle with `position` (first
occurrence) and `swap_remove` it, subtracting the order's quantity. -/
def PriceLevel.removeOrder (lvl : PriceLevel) (order_index quantity : Nat) :
    PriceLevel × Bool :=
  match lvl.order_indices.findIdx? (fun x => x = order_index) with
  | some pos =>
      ({ lvl with
          order_indices := swapRemoveAt lvl.order_indices pos,
          total_quantity := lvl.total_quantity - quantity }, true)
  | none => (lvl, false)

/-- `PriceLevel::is_empty`. -/
def PriceLevel.isEmptyLevel (lvl : PriceLevel) : Bool :=
  lvl.order_indices.isEmpty

/-- The `MaybeUninit::uninit` placeholder content of an unallocated pool slot. -/
def dummyOrder : Order :=
  ⟨0, 0, 0, 0, Side.Buy, OrderType.Limit⟩

/-- `OrderPool` from src/memory.rs.  The source keeps the free stack in a `Vec`
pushed as `cap-1, …, 1, 0` and popped from the tail; it is modelled with the
top of the stack at the head, so the same pop order `0, 1, 2, …` results. -/
structure OrderPool where
  pool : List Order
  free_indices : List Nat
deriving DecidableEq

/-- `OrderPool::new`. -/
def OrderPool.new (capacity : Nat) : OrderPool :=
  ⟨List.replicate capacity dummyOrder, List.range capacity⟩

/-- `OrderPool::allocate`: pop a free slot and store the order there. -/
def OrderPool.allocate (p : OrderPool) (o : Order) : Option (Nat × OrderPool) :=
  match p.free_indices with
  | [] => none
  | i :: rest => some (i, ⟨p.pool.set i o, rest⟩)

/-- `OrderPool::deallocate`: push the slot back on the free stack (the slot's
contents are left in place, as with `MaybeUninit`). -/
def OrderPool.deallocate (p : OrderPool) (i : Nat) : OrderPool :=
  { p with free_indices := i :: p.free_indices }

/-- `OrderPool::get` / `get_mut` target: read a pool slot. -/
def OrderPool.get (p : OrderPool) (i : Nat) : Order :=
  p.pool.getD i dummyOrder

/-- `PRICE_LEVELS` constant from src/orderbook.rs. -/
def PRICE_LEVELS : Nat := 1024

/-- The `OrderBook` struct from src/orderbook.rs (perf-feature fields omitted;
they are compiled out by default). -/
structure Book where
  symbol : String
  order_pool : OrderPool
  order_id_to_index : List (Option Nat)
  max_order_id : Nat
  buy_levels : List (Option PriceLevel)
  sell_levels : List (Option PriceLevel)
  base_price : Nat
  tick_size : Nat
  best_bid_idx : Option Nat
  best_ask_idx : Option Nat
  total_orders_processed : Nat
  total_quantity_matched : Nat
deriving DecidableEq

/-- `OrderBook::new`. -/
def Book.new (symbol : String) (capacity : Nat) : Book :=
  { symbol := symbol
    order_pool := OrderPool.new capacity
    order_id_to_index := List.replicate capacity none
    max_order_id := 0
    buy_levels := List.replicate PRICE_LEVELS none
    sell_levels := List.replicate PRICE_LEVELS none
    base_price := 10000
    tick_size := 1
    best_bid_idx := none
    best_ask_idx := none
    total_orders_processed := 0
    total_quantity_matched := 0 }

/-- `OrderBook::buy_price_to_idx`. -/
def Book.buyPriceToIdx (b : Book) (price : Nat) : Option Nat :=
  if b.base_price ≤ price then none
  else
    let idx := (b.base_price - price) / b.tick_size
    if idx < PRICE_LEVELS then some idx else none

/-- `OrderBook::sell_price_to_idx`. -/
def Book.sellPriceToIdx (b : Book) (price : Nat) : Option Nat :=
  if price < b.base_price then none
  else
    let idx := (price - b.base_price) / b.tick_size
    if idx < PRICE_LEVELS then some idx else none

/-- `OrderBook::buy_idx_to_price`. -/
def Book.buyIdxToPrice (b : Book) (idx : Nat) : Nat :=
  b.base_price - idx * b.tick_size

/-- `OrderBook::sell_idx_to_price`. -/
def Book.sellIdxToPrice (b : Book) (idx : Nat) : Nat :=
  b.base_price + idx * b.tick_size

/-- The scan `for i in start..PRICE_LEVELS { if levels[i].is_some() { return i } }`
used by `find_best_bid_idx` / `find_best_ask_idx` and by the matcher's
next-level search, written structurally on the list suffix. -/
def findFirstSomeAux : List (Option PriceLevel) → Nat → Option Nat
  | [], _ => none
  | some _ :: _, i => some i
  | none :: rest, i => findFirstSomeAux rest (i + 1)

/-- First occupied slot index at position `start` or later. -/
def findFirstSome (levels : List (Option PriceLevel)) (start : Nat) : Option Nat :=
  findFirstSomeAux (levels.drop start) start

/-- `OrderBook::find_best_bid_idx`. -/
def Book.findBestBidIdx (b : Book) : Option Nat :=
  findFirstSome b.buy_levels 0

/-- `OrderBook::find_best_ask_idx`. -/
def Book.findBestAskIdx (b : Book) : Option Nat :=
  findFirstSome b.sell_levels 0

/-- Error kinds of the engine (spec §7); the source reports them as formatted
`String`s. -/
inductive OBError where
  | duplicateId
  | priceOutOfRange
  | poolFull
  | levelFull
  | orderNotFound
  | levelNotFound
  | removeFailed
deriving DecidableEq

/-- State threaded through the per-level matching loop in
`match_limit_order` / `match_market_order`: the pool, the id index, the price
level being consumed, the matched-quantity counter, the aggressor's remaining
quantity and the executions produced so far. -/
structure InnerState where
  pool : OrderPool
  id_index : List (Option Nat)
  lvl : PriceLevel
  tqm : Nat
  qty : Nat
  execs : List Execution
deriving DecidableEq

/-- One step of the `for resting_idx in resting_indices` body shared by the
four matcher loops in src/orderbook.rs, in the case where the resting order is
fully consumed (`resting_order.quantity == 0` after the fill): fill, emit the
execution, then remove the handle from the level (`retain`), clear its id and
deallocate it. -/
def innerRemoved (price h : Nat) (s : InnerState) : InnerState :=
  let r := s.pool.get h
  let m := min r.quantity s.qty
  { pool := OrderPool.deallocate
      { s.pool with pool := s.pool.pool.set h { r with quantity := r.quantity - m } } h
    id_index := s.id_index.set r.order_id none
    lvl := { s.lvl with
              total_quantity := s.lvl.total_quantity - m
              order_indices := s.lvl.order_indices.filter (· ≠ h) }
    tqm := s.tqm + m
    qty := s.qty - m
    execs := s.execs ++ [⟨r.order_id, price, m, 0, r.side⟩] }

/-- The same loop step in the case where the resting order survives with a
positive remaining quantity: fill and emit, leaving the FIFO unchanged. -/
def innerKept (price h : Nat) (s : InnerState) : InnerState :=
  let r := s.pool.get h
  let m := min r.quantity s.qty
  { pool := { s.pool with pool := s.pool.pool.set h { r with quantity := r.quantity - m } }
    id_index := s.id_index
    lvl := { s.lvl with total_quantity := s.lvl.total_quantity - m }
    tqm := s.tqm + m
    qty := s.qty - m
    execs := s.execs ++ [⟨r.order_id, price, m, 0, r.side⟩] }

/-- One full iteration of the matcher's per-handle loop body: the branch on
`resting_order.quantity == 0` after the fill. -/
def innerStep (price h : Nat) (s : InnerState) : InnerState :=
  if (s.pool.get h).quantity - min (s.pool.get h).quantity s.qty = 0 then
    innerRemoved price h s
  else innerKept price h s

/-- The `for resting_idx in resting_indices` loop: process the snapshot of the
FIFO of the level in order, breaking once the aggressor is exhausted. -/
def matchAtLevel (price : Nat) : List Nat → InnerState → InnerState
  | [], s => s
  | h :: rest, s =>
    if s.qty = 0 then s
    else matchAtLevel price rest (innerStep price h s)

/-- State threaded through the outer `while let Some(idx) = current_idx` matcher
loop: the consumed side's level array and its best-price cache on top of the
inner state components. -/
structure MatchState where
  pool : OrderPool
  id_index : List (Option Nat)
  levels : List (Option PriceLevel)
  best : Option Nat
  tqm : Nat
  qty : Nat
  execs : List Execution
deriving DecidableEq

/-- The level-emptied epilogue of one outer matcher iteration: clear the slot,
scan for the next occupied slot above it, and redirect the best cache if it
pointed at the emptied slot.  Returns the new loop state and the new
`current_idx`. -/
def levelDone (idx : Nat) (st : MatchState) (s : InnerState) :
    MatchState × Option Nat :=
  let levels1 := st.levels.set idx none
  let next := findFirstSome levels1 (idx + 1)
  (⟨s.pool, s.id_index, levels1, if st.best = some idx then next else st.best,
    s.tqm, s.qty, s.execs⟩, next)

/-- The level-not-emptied epilogue: write the updated level back in place. -/
def levelStay (idx : Nat) (st : MatchState) (s : InnerState) : MatchState :=
  ⟨s.pool, s.id_index, st.levels.set idx (some s.lvl), st.best, s.tqm, s.qty,
    s.execs⟩

/-- The outer matcher loop of `match_limit_order` / `match_market_order`,
parameterised by the consumed side's index-to-price map and by the price-bound
test (`fun _ => false` for market orders).  The source's `while` loop makes
progress at every iteration — a processed level is either emptied (the scan
then advances past it) or the aggressor is exhausted — so the explicit fuel
`2 * PRICE_LEVELS + 2` used at every call site is never exhausted. -/
def matchLoop (priceOf : Nat → Nat) (stopAt : Nat → Bool) :
    Nat → Option Nat → MatchState → MatchState
  | 0, _, st => st
  | _ + 1, none, st => st
  | fuel + 1, some idx, st =>
    if st.qty = 0 then st
    else if stopAt (priceOf idx) then st
    else
      match st.levels.getD idx none with
      | some lvl =>
        let s := matchAtLevel (priceOf idx) lvl.order_indices
          ⟨st.pool, st.id_index, lvl, st.tqm, st.qty, st.execs⟩
        if s.lvl.isEmptyLevel then
          let r := levelDone idx st s
          matchLoop priceOf stopAt fuel r.2 r.1
        else
          matchLoop priceOf stopAt fuel (some idx) (levelStay idx st s)
      | none =>
        matchLoop priceOf stopAt fuel (findFirstSome st.levels (idx + 1)) st

/-- Fuel bound for the matcher loops; see `matchLoop`. -/
def FUEL : Nat := 2 * PRICE_LEVELS + 2

/-- `OrderBook::match_limit_order`.  The source duplicates the loop body for
the two sides; both are instances of `matchLoop` on the opposite side's level
array with the aggressor's limit price as bound.  Returns the updated book,
the aggressor with its decremented quantity, and the executions. -/
def Book.matchLimitOrder (b : Book) (o : Order) :
    Book × Order × List Execution :=
  match o.side with
  | Side.Buy =>
    let st := matchLoop b.sellIdxToPrice (fun p => o.price < p) FUEL b.best_ask_idx
      ⟨b.order_pool, b.order_id_to_index, b.sell_levels, b.best_ask_idx,
        b.total_quantity_matched, o.quantity, []⟩
    ({ b with
        order_pool := st.pool
        order_id_to_index := st.id_index
        sell_levels := st.levels
        best_ask_idx := st.best
        total_quantity_matched := st.tqm },
      { o with quantity := st.qty }, st.execs)
  | Side.Sell =>
    let st := matchLoop b.buyIdxToPrice (fun p => p < o.price) FUEL b.best_bid_idx
      ⟨b.order_pool, b.order_id_to_index, b.buy_levels, b.best_bid_idx,
        b.total_quantity_matched, o.quantity, []⟩
    ({ b with
        order_pool := st.pool
        order_id_to_index := st.id_index
        buy_levels := st.levels
        best_bid_idx := st.best
        total_quantity_matched := st.tqm },
      { o with quantity := st.qty }, st.execs)

/-- `OrderBook::match_market_order`: the same loops without a price bound; the
residual quantity is discarded with the by-value order. -/
def Book.matchMarketOrder (b : Book) (o : Order) : Book × List Execution :=
  match o.side with
  | Side.Buy =>
    let st := matchLoop b.sellIdxToPrice (fun _ => false) FUEL b.best_ask_idx
      ⟨b.order_pool, b.order_id_to_index, b.sell_levels, b.best_ask_idx,
        b.total_quantity_matched, o.quantity, []⟩
    ({ b with
        order_pool := st.pool
        order_id_to_index := st.id_index
        sell_levels := st.levels
        best_ask_idx := st.best
        total_quantity_matched := st.tqm }, st.execs)
  | Side.Sell =>
    let st := matchLoop b.buyIdxToPrice (fun _ => false) FUEL b.best_bid_idx
      ⟨b.order_pool, b.order_id_to_index, b.buy_levels, b.best_bid_idx,
        b.total_quantity_matched, o.quantity, []⟩
    ({ b with
        order_pool := st.pool
        order_id_to_index := st.id_index
        buy_levels := st.levels
        best_bid_idx := st.best
        total_quantity_matched := st.tqm }, st.execs)

/-- The id-index growth prologue of `add_order` (`while len <= id push None`,
guarded by `id >= len` and `id > max_order_id`). -/
def Book.growForId (b : Book) (id : Nat) : Book :=
  if b.order_id_to_index.length ≤ id then
    if b.max_order_id < id then
      { b with
          max_order_id := id
          order_id_to_index :=
            b.order_id_to_index ++
              List.replicate (id + 1 - b.order_id_to_index.length) none }
    else b
  else b

/-- The `for exec in &executions { total_quantity_matched += exec.quantity }`
epilogue of `add_order` (note: the matcher has already counted each fill once,
so successful limit admits count matched quantity twice). -/
def sumExecQty (es : List Execution) : Nat :=
  (es.map (fun e => e.quantity)).sum

/-- The rest step 3b of `add_order`: append the residual order's handle to its
price level (creating the level if the slot is empty), update the best cache,
and count the executions. -/
def Book.restAt (b : Book) (side : Side) (pidx i : Nat) (remaining : Order)
    (execs : List Execution) : Book × Except OBError (List Execution) :=
  match side with
  | Side.Buy =>
    let lvl := (b.buy_levels.getD pidx none).getD (PriceLevel.new remaining.price)
    let res := lvl.addOrder i remaining.quantity
    if res.2 then
      let b := { b with buy_levels := b.buy_levels.set pidx (some res.1) }
      let b :=
        match b.best_bid_idx with
        | none => { b with best_bid_idx := some pidx }
        | some cur => if pidx < cur then { b with best_bid_idx := some pidx } else b
      ({ b with total_quantity_matched := b.total_quantity_matched + sumExecQty execs },
        Except.ok execs)
    else (b, Except.error OBError.levelFull)
  | Side.Sell =>
    let lvl := (b.sell_levels.getD pidx none).getD (PriceLevel.new remaining.price)
    let res := lvl.addOrder i remaining.quantity
    if res.2 then
      let b := { b with sell_levels := b.sell_levels.set pidx (some res.1) }
      let b :=
        match b.best_ask_idx with
        | none => { b with best_ask_idx := some pidx }
        | some cur => if pidx < cur then { b with best_ask_idx := some pidx } else b
      ({ b with total_quantity_matched := b.total_quantity_matched + sumExecQty execs },
        Except.ok execs)
    else (b, Except.error OBError.levelFull)

/-- `OrderBook::add_order`.  Returns the mutated book together with the
result; error returns carry the book as mutated so far, mirroring `&mut self`.
Note that on the `PriceOutOfRange` / `PoolFull` error paths the executions
already produced by the matcher are dropped from the return value. -/
def Book.addOrder (b0 : Book) (o : Order) : Book × Except OBError (List Execution) :=
  let b := b0.growForId o.order_id
  if (b.order_id_to_index.getD o.order_id none).isSome then
    (b, Except.error OBError.duplicateId)
  else
    let b := { b with total_orders_processed := b.total_orders_processed + 1 }
    if o.order_type = OrderType.Market then
      let r := b.matchMarketOrder o
      (r.1, Except.ok r.2)
    else
      let m : Book × Order × List Execution :=
        match o.side with
        | Side.Buy =>
          match b.best_ask_idx with
          | some ai =>
            if b.sellIdxToPrice ai ≤ o.price then b.matchLimitOrder o else (b, o, [])
          | none => (b, o, [])
        | Side.Sell =>
          match b.best_bid_idx with
          | some bi =>
            if o.price ≤ b.buyIdxToPrice bi then b.matchLimitOrder o else (b, o, [])
          | none => (b, o, [])
      let b := m.1
      let remaining := m.2.1
      let execs := m.2.2
      if 0 < remaining.quantity then
        match
          (match o.side with
            | Side.Buy => b.buyPriceToIdx o.price
            | Side.Sell => b.sellPriceToIdx o.price) with
        | none => (b, Except.error OBError.priceOutOfRange)
        | some pidx =>
          match b.order_pool.allocate remaining with
          | none => (b, Except.error OBError.poolFull)
          | some (i, pool1) =>
            let b :=
              { b with
                  order_pool := pool1
                  order_id_to_index := b.order_id_to_index.set o.order_id (some i) }
            b.restAt o.side pidx i remaining execs
      else
        ({ b with total_quantity_matched := b.total_quantity_matched + sumExecQty execs },
          Except.ok execs)

/-- The level-surgery core of `cancel_order` (shared here between the two
symmetric side branches of the source): locate the level, `remove_order` the
handle, drop the level if it emptied and rescan the best cache if the emptied
slot was the cached best. -/
def cancelFromLevels (levels : List (Option PriceLevel)) (best : Option Nat)
    (pidx h q : Nat) :
    Except OBError (List (Option PriceLevel) × Option Nat) :=
  match levels.getD pidx none with
  | none => Except.error OBError.levelNotFound
  | some lvl =>
    let r := lvl.removeOrder h q
    if r.2 then
      if r.1.isEmptyLevel then
        let levels1 := levels.set pidx none
        Except.ok (levels1, if best = some pidx then findFirstSome levels1 0 else best)
      else Except.ok (levels.set pidx (some r.1), best)
    else Except.error OBError.removeFailed

/-- `OrderBook::cancel_order`. -/
def Book.cancelOrder (b : Book) (order_id : Nat) : Book × Except OBError Unit :=
  if b.order_id_to_index.length ≤ order_id then
    (b, Except.error OBError.orderNotFound)
  else
    match b.order_id_to_index.getD order_id none with
    | none => (b, Except.error OBError.orderNotFound)
    | some h =>
      let ord := b.order_pool.get h
      match ord.side with
      | Side.Buy =>
        match b.buyPriceToIdx ord.price with
        | none => (b, Except.error OBError.priceOutOfRange)
        | some pidx =>
          match cancelFromLevels b.buy_levels b.best_bid_idx pidx h ord.quantity with
          | Except.error e => (b, Except.error e)
          | Except.ok (levels1, best1) =>
            ({ b with
                buy_levels := levels1
                best_bid_idx := best1
                order_pool := b.order_pool.deallocate h
                order_id_to_index := b.order_id_to_index.set order_id none },
              Except.ok ())
      | Side.Sell =>
        match b.sellPriceToIdx ord.price with
        | none => (b, Except.error OBError.priceOutOfRange)
        | some pidx =>
          match cancelFromLevels b.sell_levels b.best_ask_idx pidx h ord.quantity with
          | Except.error e => (b, Except.error e)
          | Except.ok (levels1, best1) =>
            ({ b with
                sell_levels := levels1
                best_ask_idx := best1
                order_pool := b.order_pool.deallocate h
                order_id_to_index := b.order_id_to_index.set order_id none },
              Except.ok ())

/-- The depth scan of `market_depth` over one side's dense array (break once
`k` occupied levels were emitted). -/
def depthScanAux (priceOf : Nat → Nat) (k : Nat) :
    List (Option PriceLevel) → Nat → Nat → List (Nat × Nat)
  | [], _, _ => []
  | s :: rest, i, count =>
    if k ≤ count then []
    else
      match s with
      | some lvl => (priceOf i, lvl.total_quantity) :: depthScanAux priceOf k rest (i + 1) (count + 1)
      | none => depthScanAux priceOf k rest (i + 1) count

/-- `OrderBook::market_depth`. -/
def Book.marketDepth (b : Book) (k : Nat) :
    List (Nat × Nat) × List (Nat × Nat) :=
  (depthScanAux b.buyIdxToPrice k b.buy_levels 0 0,
    depthScanAux b.sellIdxToPrice k b.sell_levels 0 0)

/-- `OrderBook::best_bid`. -/
def Book.bestBid (b : Book) : Option Nat :=
  b.best_bid_idx.map b.buyIdxToPrice

/-- `OrderBook::best_ask`. -/
def Book.bestAsk (b : Book) : Option Nat :=
  b.best_ask_idx.map b.sellIdxToPrice

/-- `OrderBook::is_crossed`. -/
def Book.isCrossed (b : Book) : Bool :=
  match b.bestBid, b.bestAsk with
  | some bid, some ask => ask ≤ bid
  | _, _ => false

/-- `OrderBook::spread`. -/
def Book.spread (b : Book) : Option Nat :=
  match b.bestBid, b.bestAsk with
  | some bid, some ask => some (ask - bid)
  | _, _ => none

/-! ### Derived definitions used by the statements and proofs -/

deriving instance DecidableEq for Except

/-- Order constructor convenience mirroring `Order::new` (timestamp 0). -/
def mkOrder (id price qty : Nat) (side : Side) (t : OrderType) : Order :=
  ⟨id, price, qty, 0, side, t⟩

/-- Scenario book with a single resting ask of 5 at the base price 10000. -/
def bookAskAtBase : Book :=
  ((Book.new "CEX" 8).addOrder (mkOrder 1 10000 5 Side.Sell OrderType.Limit)).1

/-- Scenario book for the swap-remove bug: three bids of 10 at 9900 admitted
as ids 1, 2, 3, then id 1 cancelled. -/
def bookSwapRemoved : Book :=
  (((((Book.new "SWR" 16).addOrder (mkOrder 1 9900 10 Side.Buy OrderType.Limit)).1.addOrder
        (mkOrder 2 9900 10 Side.Buy OrderType.Limit)).1.addOrder
      (mkOrder 3 9900 10 Side.Buy OrderType.Limit)).1.cancelOrder 1).1

/-- Scenario book with resting bids (1, 9900, 10) and (2, 9920, 10). -/
def bookTwoBids : Book :=
  (((Book.new "PTP" 16).addOrder (mkOrder 1 9900 10 Side.Buy OrderType.Limit)).1.addOrder
      (mkOrder 2 9920 10 Side.Buy OrderType.Limit)).1

/-- Sum over a handle list of the pool-stored quantities (spec I2's
"Σ pool[h].quantity over the FIFO"). -/
def sumQ (p : OrderPool) (hs : List Nat) : Nat :=
  (hs.map (fun h => (p.get h).quantity)).sum

/-- The handles of one optional price-level slot. -/
def handlesOfOpt : Option PriceLevel → List Nat
  | some lvl => lvl.order_indices
  | none => []

/-- All handles resting in one side's level array, in slot-then-FIFO order. -/
def handlesOf (levels : List (Option PriceLevel)) : List Nat :=
  (levels.map handlesOfOpt).flatten

/-- All handles resting anywhere in the book. -/
def restingAll (b : Book) : List Nat :=
  handlesOf b.buy_levels ++ handlesOf b.sell_levels

/-- Per-level well-formedness: a stored level is non-empty, its handles are in
pool range, and spec I2's quantity-sum equation holds. -/
structure LevelInv (p : OrderPool) (lvl : PriceLevel) : Prop where
  ne : lvl.order_indices ≠ []
  bounds : ∀ h ∈ lvl.order_indices, h < p.pool.length
  sumEq : sumQ p lvl.order_indices = lvl.total_quantity

/-- Per-side well-formedness: the dense array has its fixed length, the cached
best is the first occupied slot (spec I3), and every stored level satisfies
`LevelInv`. -/
structure SideInv (p : OrderPool) (levels : List (Option PriceLevel))
    (best : Option Nat) : Prop where
  len : levels.length = PRICE_LEVELS
  cache : best = findFirstSome levels 0
  level_ok : ∀ i lvl, levels.getD i none = some lvl → LevelInv p lvl

/-- The book well-formedness invariant maintained by every admit and cancel. -/
structure Inv (b : Book) : Prop where
  base : b.base_price = 10000
  tick : b.tick_size = 1
  bid : SideInv b.order_pool b.buy_levels b.best_bid_idx
  ask : SideInv b.order_pool b.sell_levels b.best_ask_idx
  buy0 : b.buy_levels.getD 0 none = none
  freeNodup : b.order_pool.free_indices.Nodup
  freeLt : ∀ h ∈ b.order_pool.free_indices, h < b.order_pool.pool.length
  freeDisj : ∀ h ∈ b.order_pool.free_indices, h ∉ restingAll b
  restNodup : (restingAll b).Nodup
  idLen : b.order_id_to_index.length = 0 ∨ b.max_order_id < b.order_id_to_index.length
  poolLe : b.order_pool.pool.length ≤ b.order_id_to_index.length

/-- Book states reachable from a fresh book by admits and cancels. -/
inductive Reachable : Book → Prop where
  | init (symbol : String) (capacity : Nat) : Reachable (Book.new symbol capacity)
  | add {b : Book} (o : Order) : Reachable b → Reachable (b.addOrder o).1
  | cancel {b : Book} (id : Nat) : Reachable b → Reachable (b.cancelOrder id).1

/-- Claim-side reading of spec I3: the option value is the minimum occupied
index of the dense level array (or absent when no slot is occupied). -/
def IsMinOccupied (o : Option Nat) (levels : List (Option PriceLevel)) : Prop :=
  match o with
  | some i => (levels.getD i none).isSome ∧ ∀ j < i, levels.getD j none = none
  | none => ∀ j < levels.length, levels.getD j none = none

/-- Claim-side reading of spec I2 for one slot: an occupied level's stored
total equals the sum of its orders' pool quantities. -/
def levelSumOkB (p : OrderPool) : Option PriceLevel → Bool
  | some lvl => sumQ p lvl.order_indices == lvl.total_quantity
  | none => true

/-- Claim-side reading of spec I2 for the whole book. -/
def levelsSumConsistent (b : Book) : Bool :=
  b.buy_levels.all (levelSumOkB b.order_pool) && b.sell_levels.all (levelSumOkB b.order_pool)

/-- Well-formedness of the matcher loop state relative to the (untouched)
other side's level array. -/
structure LoopInv (other : List (Option PriceLevel)) (st : MatchState) : Prop where
  side_ok : SideInv st.pool st.levels st.best
  freeNodup : st.pool.free_indices.Nodup
  freeLt : ∀ h ∈ st.pool.free_indices, h < st.pool.pool.length
  freeDisj : ∀ h ∈ st.pool.free_indices, h ∉ handlesOf st.levels ++ handlesOf other
  allNodup : (handlesOf st.levels ++ handlesOf other).Nodup
  other_ok : ∀ i lvl, other.getD i none = some lvl → LevelInv st.pool lvl

/-- Facts relating an inner-loop (`matchAtLevel`) output state to its input
state; `kept` are the already-processed surviving handles, `rest` the
snapshot suffix still to process. -/
structure InnerFacts (rest kept : List Nat) (s s1 : InnerState) : Prop where
  surv : ∃ rem, s1.lvl.order_indices = kept ++ rem ∧ rem.Sublist rest
  price : s1.lvl.price = s.lvl.price
  sumEq : sumQ s1.pool s1.lvl.order_indices = s1.lvl.total_quantity
  poolLen : s1.pool.pool.length = s.pool.pool.length
  poolFrame : ∀ x, x ∉ rest → s1.pool.get x = s.pool.get x
  free : ∃ fr, s1.pool.free_indices = fr ++ s.pool.free_indices ∧ fr.Nodup ∧
    ∀ x ∈ fr, x ∈ rest ∧ x ∉ s1.lvl.order_indices
  idLen : s1.id_index.length = s.id_index.length
  idFrame : ∀ id, s1.id_index.getD id none = s.id_index.getD id none ∨
    s1.id_index.getD id none = none
  execsApp : ∃ es, s1.execs = s.execs ++ es ∧ (es = [] → s1 = s)

/-- Facts relating an outer matcher loop (`matchLoop`) output state to its
input state, under `LoopInv`. -/
structure LoopFacts (other : List (Option PriceLevel)) (st st1 : MatchState) : Prop where
  inv : LoopInv other st1
  poolLen : st1.pool.pool.length = st.pool.pool.length
  idLen : st1.id_index.length = st.id_index.length
  idFrame : ∀ id, st1.id_index.getD id none = st.id_index.getD id none ∨
    st1.id_index.getD id none = none
  noneKeep : ∀ i, st.levels.getD i none = none → st1.levels.getD i none = none
  free : ∃ fr, st1.pool.free_indices = fr ++ st.pool.free_indices
  execsApp : ∃ es, st1.execs = st.execs ++ es ∧ (es = [] → st1 = st)


/-! ### List access helpers -/

theorem getD_set_self {α : Type} (l : List α) (i : Nat) (x d : α) (h : i < l.length) :
    (l.set i x).getD i d = x := by
  simp [List.getD, List.getElem?_set_self', h]

theorem getD_set_ne {α : Type} (l : List α) {i j : Nat} (x d : α) (h : i ≠ j) :
    (l.set i x).getD j d = l.getD j d := by
  simp [List.getD, List.getElem?_set_ne h]

theorem set_getD_self {α : Type} (l : List α) (i : Nat) (d : α) (h : i < l.length) :
    l.set i (l.getD i d) = l := by
  have hv : l.getD i d = l[i] := by simp [List.getD, List.getElem?_eq_getElem h]
  rw [hv]
  apply List.ext_getElem
  · simp
  · intro n h1 h2
    by_cases hn : i = n
    · subst hn; simp
    · rw [List.getElem_set_ne hn]

theorem getD_append_left {α : Type} (l1 l2 : List α) (j : Nat) (d : α) (h : j < l1.length) :
    (l1 ++ l2).getD j d = l1.getD j d := by
  simp [List.getD, List.getElem?_append_left h]

theorem getD_of_le_length {α : Type} (l : List α) (j : Nat) (d : α) (h : l.length ≤ j) :
    l.getD j d = d := by
  simp [List.getD, List.getElem?_eq_none h]

theorem getD_lt_length {α : Type} {l : List α} {j : Nat} {x d : α}
    (h : l.getD j d = x) (hne : x ≠ d) : j < l.length := by
  by_contra hc
  rw [getD_of_le_length l j d (Nat.le_of_not_lt hc)] at h
  exact hne h.symm

/-! ### `findFirstSome` characterization -/

theorem ffs_unfold (levels : List (Option PriceLevel)) (s : Nat) :
    findFirstSome levels s =
      if s < levels.length then
        match levels.getD s none with
        | some _ => some s
        | none => findFirstSome levels (s + 1)
      else none := by
  by_cases hs : s < levels.length
  · rw [if_pos hs]
    have hdrop : levels.drop s = levels[s] :: levels.drop (s + 1) :=
      List.drop_eq_getElem_cons hs
    have hget : levels.getD s none = levels[s] := by
      simp [List.getD, List.getElem?_eq_getElem hs]
    rw [hget]
    unfold findFirstSome
    rw [hdrop]
    cases h : levels[s] with
    | some lvl => simp [findFirstSomeAux, h]
    | none => simp [findFirstSomeAux, h]
  · rw [if_neg hs]
    unfold findFirstSome
    rw [List.drop_eq_nil_of_le (Nat.le_of_not_lt hs)]
    rfl

theorem ffs_some {levels : List (Option PriceLevel)} {s j : Nat}
    (h : findFirstSome levels s = some j) :
    s ≤ j ∧ j < levels.length ∧ (levels.getD j none).isSome ∧
      ∀ m, s ≤ m → m < j → levels.getD m none = none := by
  suffices H : ∀ n s, levels.length - s ≤ n → findFirstSome levels s = some j →
      s ≤ j ∧ j < levels.length ∧ (levels.getD j none).isSome ∧
        ∀ m, s ≤ m → m < j → levels.getD m none = none by
    exact H (levels.length - s) s le_rfl h
  intro n
  induction n with
  | zero =>
    intro s hn h
    rw [ffs_unfold] at h
    have hs : ¬ s < levels.length := by omega
    rw [if_neg hs] at h
    exact absurd h (by simp)
  | succ n ih =>
    intro s hn h
    rw [ffs_unfold] at h
    by_cases hs : s < levels.length
    · rw [if_pos hs] at h
      cases hg : levels.getD s none with
      | some lvl =>
        rw [hg] at h
        simp only [Option.some.injEq] at h
        subst h
        refine ⟨le_rfl, hs, ?_, fun m h1 h2 => absurd h1 (by omega)⟩
        rw [hg]
        rfl
      | none =>
        rw [hg] at h
        obtain ⟨h1, h2, h3, h4⟩ := ih (s + 1) (by omega) h
        refine ⟨by omega, h2, h3, fun m hm1 hm2 => ?_⟩
        rcases Nat.eq_or_lt_of_le hm1 with heq | hlt
        · rw [← heq]; exact hg
        · exact h4 m hlt hm2
    · rw [if_neg hs] at h
      exact absurd h (by simp)

theorem ffs_none {levels : List (Option PriceLevel)} {s : Nat}
    (h : findFirstSome levels s = none) :
    ∀ m, s ≤ m → levels.getD m none = none := by
  suffices H : ∀ n s, levels.length - s ≤ n → findFirstSome levels s = none →
      ∀ m, s ≤ m → levels.getD m none = none by
    exact H (levels.length - s) s le_rfl h
  intro n
  induction n with
  | zero =>
    intro s hn _ m hm
    exact getD_of_le_length _ _ _ (by omega)
  | succ n ih =>
    intro s hn h m hm
    rw [ffs_unfold] at h
    by_cases hs : s < levels.length
    · rw [if_pos hs] at h
      cases hg : levels.getD s none with
      | some lvl => rw [hg] at h; exact absurd h (by simp)
      | none =>
        rw [hg] at h
        rcases Nat.eq_or_lt_of_le hm with heq | hlt
        · rw [← heq]; exact hg
        · exact ih (s + 1) (by omega) h m hlt
    · exact getD_of_le_length _ _ _ (by omega)

theorem ffs_eq_some {levels : List (Option PriceLevel)} {s j : Nat}
    (h1 : s ≤ j) (h2 : (levels.getD j none).isSome)
    (h3 : ∀ m, s ≤ m → m < j → levels.getD m none = none) :
    findFirstSome levels s = some j := by
  have hj : j < levels.length := by
    by_contra hc
    rw [getD_of_le_length _ _ _ (Nat.le_of_not_lt hc)] at h2
    exact absurd h2 (by simp)
  suffices H : ∀ n s, levels.length - s ≤ n → s ≤ j →
      (∀ m, s ≤ m → m < j → levels.getD m none = none) →
      findFirstSome levels s = some j by
    exact H (levels.length - s) s le_rfl h1 h3
  intro n
  induction n with
  | zero => intro s hn hsj _; omega
  | succ n ih =>
    intro s hn hsj hbelow
    rw [ffs_unfold, if_pos (by omega)]
    rcases Nat.eq_or_lt_of_le hsj with heq | hlt
    · subst heq
      cases hg : levels.getD s none with
      | some lvl => rfl
      | none => rw [hg] at h2; exact absurd h2 (by simp)
    · rw [hbelow s le_rfl hlt]
      exact ih (s + 1) (by omega) hlt (fun m hm1 hm2 => hbelow m (by omega) hm2)

theorem ffs_eq_none {levels : List (Option PriceLevel)} {s : Nat}
    (h : ∀ m, s ≤ m → levels.getD m none = none) :
    findFirstSome levels s = none := by
  suffices H : ∀ n s, levels.length - s ≤ n →
      (∀ m, s ≤ m → levels.getD m none = none) → findFirstSome levels s = none by
    exact H (levels.length - s) s le_rfl h
  intro n
  induction n with
  | zero =>
    intro s hn _
    rw [ffs_unfold, if_neg (by omega)]
  | succ n ih =>
    intro s hn hnone
    rw [ffs_unfold]
    by_cases hs : s < levels.length
    · rw [if_pos hs, hnone s le_rfl]
      exact ih (s + 1) (by omega) (fun m hm => hnone m (by omega))
    · rw [if_neg hs]

theorem ffs_skip {levels : List (Option PriceLevel)} {k : Nat}
    (h : ∀ m, m < k → levels.getD m none = none) :
    findFirstSome levels 0 = findFirstSome levels k := by
  cases hk : findFirstSome levels k with
  | some j =>
    obtain ⟨h1, h2, h3, h4⟩ := ffs_some hk
    exact ffs_eq_some (Nat.zero_le j) h3 (fun m _ hm => by
      by_cases hmk : m < k
      · exact h m hmk
      · exact h4 m (Nat.le_of_not_lt hmk) hm)
  | none =>
    exact ffs_eq_none (fun m _ => by
      by_cases hmk : m < k
      · exact h m hmk
      · exact ffs_none hk m (Nat.le_of_not_lt hmk))


/-! ### `handlesOf`, `sumQ` and pool-slot helpers -/

theorem handlesOf_append (l1 l2 : List (Option PriceLevel)) :
    handlesOf (l1 ++ l2) = handlesOf l1 ++ handlesOf l2 := by
  simp [handlesOf]

theorem handlesOf_cons (x : Option PriceLevel) (l : List (Option PriceLevel)) :
    handlesOf (x :: l) = handlesOfOpt x ++ handlesOf l := by
  simp [handlesOf]

theorem handlesOf_decomp (levels : List (Option PriceLevel)) (i : Nat)
    (hi : i < levels.length) :
    handlesOf levels =
      handlesOf (levels.take i) ++ handlesOfOpt (levels.getD i none) ++
        handlesOf (levels.drop (i + 1)) := by
  have hd : levels.drop i = levels[i] :: levels.drop (i + 1) :=
    List.drop_eq_getElem_cons hi
  have hg : levels.getD i none = levels[i] := by
    simp [List.getD, List.getElem?_eq_getElem hi]
  conv_lhs => rw [← List.take_append_drop i levels, hd]
  rw [handlesOf_append, handlesOf_cons, hg, List.append_assoc]

theorem handlesOf_set (levels : List (Option PriceLevel)) (i : Nat)
    (x : Option PriceLevel) (hi : i < levels.length) :
    handlesOf (levels.set i x) =
      handlesOf (levels.take i) ++ handlesOfOpt x ++
        handlesOf (levels.drop (i + 1)) := by
  rw [List.set_eq_take_cons_drop x hi, handlesOf_append, handlesOf_cons,
    List.append_assoc]

theorem sumQ_nil (p : OrderPool) : sumQ p [] = 0 := rfl

theorem sumQ_cons (p : OrderPool) (x : Nat) (hs : List Nat) :
    sumQ p (x :: hs) = (p.get x).quantity + sumQ p hs := by
  simp [sumQ]

theorem sumQ_append (p : OrderPool) (l1 l2 : List Nat) :
    sumQ p (l1 ++ l2) = sumQ p l1 + sumQ p l2 := by
  simp [sumQ]

theorem sumQ_congr {p1 p2 : OrderPool} {hs : List Nat}
    (h : ∀ x ∈ hs, p1.get x = p2.get x) : sumQ p1 hs = sumQ p2 hs := by
  induction hs with
  | nil => rfl
  | cons x t ih =>
    rw [sumQ_cons, sumQ_cons, h x (by simp), ih (fun y hy => h y (by simp [hy]))]

theorem sumQ_perm (p : OrderPool) {l1 l2 : List Nat} (h : l1.Perm l2) :
    sumQ p l1 = sumQ p l2 :=
  (h.map _).sum_eq

theorem sumQ_le_of_mem {p : OrderPool} {hs : List Nat} {x : Nat} (h : x ∈ hs) :
    (p.get x).quantity ≤ sumQ p hs :=
  List.single_le_sum (fun _ _ => Nat.zero_le _) _ (List.mem_map_of_mem _ h)

theorem poolGet_set_self (p : OrderPool) (o : Order) (h : Nat)
    (hh : h < p.pool.length) :
    (OrderPool.mk (p.pool.set h o) fr).get h = o := by
  exact getD_set_self _ _ _ _ hh

theorem poolGet_set_ne (p : OrderPool) (o : Order) {h x : Nat} (fr : List Nat)
    (hne : h ≠ x) :
    (OrderPool.mk (p.pool.set h o) fr).get x = p.get x := by
  exact getD_set_ne _ _ _ hne

/-! ### `swapRemoveAt` and `findIdx?` facts -/

theorem swapRemoveAt_cons_perm : ∀ (pos : Nat) (l : List Nat) (hv : Nat),
    pos < l.length → l.getD pos 0 = hv → (hv :: swapRemoveAt l pos).Perm l := by
  intro pos
  induction pos with
  | zero =>
    intro l hv hpos hval
    cases l with
    | nil => simp at hpos
    | cons a t =>
      have ha : hv = a := by simpa [List.getD] using hval.symm
      subst ha
      cases t with
      | nil => simp [swapRemoveAt]
      | cons b t1 =>
        have hne : b :: t1 ≠ [] := by simp
        have hlast : (hv :: b :: t1).getLastD 0 = (b :: t1).getLast hne := by
          rw [List.getLastD_cons]
          simp [List.getLastD_eq_getLast?, List.getLast?_eq_getLast _ hne]
        unfold swapRemoveAt
        rw [hlast]
        simp only [List.set_cons_zero]
        rw [List.dropLast_cons₂]
        apply List.Perm.cons
        have h1 : ((b :: t1).getLast hne :: (b :: t1).dropLast).Perm
            ((b :: t1).dropLast ++ [(b :: t1).getLast hne]) :=
          (List.perm_append_singleton _ _).symm
        have h2 : (b :: t1).dropLast ++ [(b :: t1).getLast hne] = b :: t1 :=
          List.dropLast_append_getLast hne
        rw [h2] at h1
        exact h1
  | succ pos ih =>
    intro l hv hpos hval
    cases l with
    | nil => simp at hpos
    | cons a t =>
      have hpos1 : pos < t.length := by simpa using hpos
      have htne : t ≠ [] := by
        cases t with
        | nil => simp at hpos1
        | cons x y => simp
      have hval1 : t.getD pos 0 = hv := by simpa [List.getD] using hval
      have hlast : (a :: t).getLastD 0 = t.getLastD 0 := by
        rw [List.getLastD_cons]
        simp [List.getLastD_eq_getLast?, List.getLast?_eq_getLast _ htne]
      have hsrne : t.set pos (t.getLastD 0) ≠ [] := by
        apply List.ne_nil_of_length_pos
        simp only [List.length_set]
        omega
      have hstep : swapRemoveAt (a :: t) (pos + 1) = a :: swapRemoveAt t pos := by
        unfold swapRemoveAt
        rw [hlast, List.set_cons_succ, List.dropLast_cons_of_ne_nil hsrne]
      rw [hstep]
      exact (List.Perm.swap a hv _).trans ((ih t hv hpos1 hval1).cons a)

theorem findIdxQ_some {t : Nat} : ∀ (l : List Nat) (pos i : Nat),
    l.findIdx? (fun x => x = t) i = some pos →
      i ≤ pos ∧ pos - i < l.length ∧ l.getD (pos - i) 0 = t := by
  intro l
  induction l with
  | nil => intro pos i h; simp [List.findIdx?] at h
  | cons a l ih =>
    intro pos i h
    rw [List.findIdx?_cons] at h
    by_cases ha : a = t
    · rw [if_pos (by simp [ha])] at h
      simp only [Option.some.injEq] at h
      subst h
      refine ⟨le_rfl, by simp, ?_⟩
      simpa [List.getD] using ha
    · rw [if_neg (by simp [ha])] at h
      obtain ⟨h1, h2, h3⟩ := ih pos (i + 1) h
      refine ⟨by omega, ?_, ?_⟩
      · simp only [List.length_cons]; omega
      · have hpi : pos - i = (pos - (i + 1)) + 1 := by omega
        rw [hpi]
        simpa [List.getD] using h3

theorem findIdxQ_some0 {t : Nat} {l : List Nat} {pos : Nat}
    (h : l.findIdx? (fun x => x = t) = some pos) :
    pos < l.length ∧ l.getD pos 0 = t := by
  obtain ⟨h1, h2, h3⟩ := findIdxQ_some l pos 0 h
  rw [Nat.sub_zero] at h2 h3
  exact ⟨h2, h3⟩

theorem findIdxQ_append_last (xs : List Nat) (t : Nat) (hni : t ∉ xs) :
    (xs ++ [t]).findIdx? (fun x => x = t) = some xs.length := by
  induction xs with
  | nil =>
    rw [List.nil_append, List.findIdx?_cons]
    simp
  | cons a l ih =>
    have hat : ¬ a = t := fun hc => hni (by simp [hc])
    rw [List.cons_append, List.findIdx?_cons, if_neg (by simp [hat]),
      List.findIdx?_succ, ih (fun hc => hni (by simp [hc]))]
    rfl

/-! ### Concrete claim theorems -/

/-- C1: admitting a crossing buy limit at 10000 for quantity 10 against the
resting ask of 5 produces one execution (the matched-quantity counter moves to
5 and the ask side empties) and then fails to rest, yet the call returns only
`PriceOutOfRange`: the execution is not returned to the caller. -/
theorem addOrder_drops_executions_on_rest_failure :
    (bookAskAtBase.addOrder (mkOrder 2 10000 10 Side.Buy OrderType.Limit)).2 =
        Except.error OBError.priceOutOfRange ∧
      (bookAskAtBase.addOrder (mkOrder 2 10000 10 Side.Buy OrderType.Limit)).1.total_quantity_matched = 5 ∧
      (bookAskAtBase.addOrder (mkOrder 2 10000 10 Side.Buy OrderType.Limit)).1.best_ask_idx = none := by
  decide

/-- C2: after cancelling id 1, the 9900 bid level's FIFO has been reordered by
`swap_remove` to "3 before 2"; a crossing sell for 15 therefore consumes id 3
before the earlier-admitted id 2, violating FIFO time priority. -/
theorem cancel_breaks_fifo_order :
    (bookSwapRemoved.addOrder (mkOrder 4 9900 15 Side.Sell OrderType.Limit)).2 =
      Except.ok [⟨3, 9900, 10, 0, Side.Buy⟩, ⟨2, 9900, 5, 0, Side.Buy⟩] := by
  decide

/-- C3 counterexample: a buy limit at exactly `base_price` 10000 that fully
fills against the resting ask is admitted successfully, not rejected with
`PriceOutOfRange`. -/
theorem buy_at_base_price_can_succeed :
    (mkOrder 2 10000 5 Side.Buy OrderType.Limit).price = bookAskAtBase.base_price ∧
      (bookAskAtBase.addOrder (mkOrder 2 10000 5 Side.Buy OrderType.Limit)).2 =
        Except.ok [⟨1, 10000, 5, 0, Side.Sell⟩] := by
  decide

/-- C7: the crossing sell (3, 9900, 15) executes {id 2 @ 9920 × 10} then
{id 1 @ 9900 × 5}; afterwards the only bid level is (9900, 5), the ask side is
empty and `total_quantity_matched` is 30. -/
theorem price_time_priority_scenario :
    (bookTwoBids.addOrder (mkOrder 3 9900 15 Side.Sell OrderType.Limit)).2 =
        Except.ok [⟨2, 9920, 10, 0, Side.Buy⟩, ⟨1, 9900, 5, 0, Side.Buy⟩] ∧
      ((bookTwoBids.addOrder (mkOrder 3 9900 15 Side.Sell OrderType.Limit)).1.marketDepth 10).1 =
        [(9900, 5)] ∧
      ((bookTwoBids.addOrder (mkOrder 3 9900 15 Side.Sell OrderType.Limit)).1.marketDepth 10).2 =
        [] ∧
      (bookTwoBids.addOrder (mkOrder 3 9900 15 Side.Sell OrderType.Limit)).1.total_quantity_matched =
        30 := by
  decide

/-- C9 counterexample: a market sell against an empty opposite side returns no
executions and rests nothing, but the book is not literally unchanged: the
`total_orders_processed` counter increments. -/
theorem market_on_empty_book_bumps_counter :
    ((Book.new "MKT" 4).addOrder (mkOrder 1 0 5 Side.Sell OrderType.Market)).2 =
        Except.ok [] ∧
      ((Book.new "MKT" 4).addOrder (mkOrder 1 0 5 Side.Sell OrderType.Market)).1.total_orders_processed =
        1 ∧
      ¬ ((Book.new "MKT" 4).addOrder (mkOrder 1 0 5 Side.Sell OrderType.Market)).1 =
        Book.new "MKT" 4 := by
  decide


/-! ### Inner matcher loop preservation -/

theorem innerStep_eq_removed {price h : Nat} {s : InnerState}
    (hc : (s.pool.get h).quantity - min (s.pool.get h).quantity s.qty = 0) :
    innerStep price h s = innerRemoved price h s := by
  unfold innerStep
  rw [if_pos hc]

theorem innerStep_eq_kept {price h : Nat} {s : InnerState}
    (hc : ¬ (s.pool.get h).quantity - min (s.pool.get h).quantity s.qty = 0) :
    innerStep price h s = innerKept price h s := by
  unfold innerStep
  rw [if_neg hc]

theorem innerRemoved_pool_pool (price h : Nat) (s : InnerState) :
    (innerRemoved price h s).pool.pool =
      s.pool.pool.set h
        { s.pool.get h with
            quantity := (s.pool.get h).quantity - min (s.pool.get h).quantity s.qty } := rfl

theorem innerRemoved_free (price h : Nat) (s : InnerState) :
    (innerRemoved price h s).pool.free_indices = h :: s.pool.free_indices := rfl

theorem innerRemoved_id (price h : Nat) (s : InnerState) :
    (innerRemoved price h s).id_index = s.id_index.set (s.pool.get h).order_id none := rfl

theorem innerRemoved_lvl (price h : Nat) (s : InnerState) :
    (innerRemoved price h s).lvl =
      ⟨s.lvl.price, s.lvl.total_quantity - min (s.pool.get h).quantity s.qty,
        s.lvl.order_indices.filter (· ≠ h)⟩ := rfl

theorem innerRemoved_execs (price h : Nat) (s : InnerState) :
    (innerRemoved price h s).execs =
      s.execs ++ [⟨(s.pool.get h).order_id, price, min (s.pool.get h).quantity s.qty, 0,
        (s.pool.get h).side⟩] := rfl

theorem innerKept_pool_pool (price h : Nat) (s : InnerState) :
    (innerKept price h s).pool.pool =
      s.pool.pool.set h
        { s.pool.get h with
            quantity := (s.pool.get h).quantity - min (s.pool.get h).quantity s.qty } := rfl

theorem innerKept_free (price h : Nat) (s : InnerState) :
    (innerKept price h s).pool.free_indices = s.pool.free_indices := rfl

theorem innerKept_id (price h : Nat) (s : InnerState) :
    (innerKept price h s).id_index = s.id_index := rfl

theorem innerKept_lvl (price h : Nat) (s : InnerState) :
    (innerKept price h s).lvl =
      ⟨s.lvl.price, s.lvl.total_quantity - min (s.pool.get h).quantity s.qty,
        s.lvl.order_indices⟩ := rfl

theorem innerKept_execs (price h : Nat) (s : InnerState) :
    (innerKept price h s).execs =
      s.execs ++ [⟨(s.pool.get h).order_id, price, min (s.pool.get h).quantity s.qty, 0,
        (s.pool.get h).side⟩] := rfl

theorem matchAtLevel_facts (price : Nat) :
    ∀ (rest kept : List Nat) (s : InnerState),
      s.lvl.order_indices = kept ++ rest →
      (kept ++ rest).Nodup →
      (∀ x ∈ kept ++ rest, x < s.pool.pool.length) →
      sumQ s.pool (kept ++ rest) = s.lvl.total_quantity →
      InnerFacts rest kept s (matchAtLevel price rest s) := by
  intro rest
  induction rest with
  | nil =>
    intro kept s hsplit hnd hb hsum
    refine ⟨⟨[], by simpa using hsplit, List.Sublist.refl _⟩, rfl, ?_, rfl,
      fun x _ => rfl, ⟨[], rfl, List.nodup_nil, by simp⟩, rfl,
      fun id => Or.inl rfl, ⟨[], by simp [matchAtLevel], fun _ => rfl⟩⟩
    show sumQ s.pool s.lvl.order_indices = s.lvl.total_quantity
    rw [hsplit]
    simpa using hsum
  | cons h rest ih =>
    intro kept s hsplit hnd hb hsum
    by_cases hq : s.qty = 0
    · rw [show matchAtLevel price (h :: rest) s = s by rw [matchAtLevel, if_pos hq]]
      refine ⟨⟨h :: rest, hsplit, List.Sublist.refl _⟩, rfl, ?_, rfl,
        fun x _ => rfl, ⟨[], rfl, List.nodup_nil, by simp⟩, rfl,
        fun id => Or.inl rfl, ⟨[], by simp, fun _ => rfl⟩⟩
      show sumQ s.pool s.lvl.order_indices = s.lvl.total_quantity
      rw [hsplit]
      exact hsum
    · have hmain : matchAtLevel price (h :: rest) s =
          matchAtLevel price rest (innerStep price h s) := by
        rw [matchAtLevel, if_neg hq]
      have hknotin : h ∉ kept := fun hc =>
        List.disjoint_of_nodup_append hnd hc (by simp)
      have hrnotin : h ∉ rest := (List.nodup_cons.mp hnd.of_append_right).1
      have hbh : h < s.pool.pool.length := hb h (by simp)
      have hmle : min (s.pool.get h).quantity s.qty ≤ (s.pool.get h).quantity :=
        Nat.min_le_left _ _
      have hsum3 : sumQ s.pool kept + ((s.pool.get h).quantity + sumQ s.pool rest) =
          s.lvl.total_quantity := by
        rw [← sumQ_cons, ← sumQ_append]
        exact hsum
      have hE2 : (kept ++ rest).Nodup :=
        hnd.sublist ((List.Sublist.refl kept).append (List.sublist_cons_self h rest))
      have hxne : ∀ x ∈ kept ++ rest, x ≠ h := by
        intro x hx hc
        subst hc
        rcases List.mem_append.mp hx with hx | hx
        · exact hknotin hx
        · exact hrnotin hx
      rw [hmain]
      by_cases hcond : (s.pool.get h).quantity - min (s.pool.get h).quantity s.qty = 0
      · -- the resting order is fully consumed and removed from the level
        rw [innerStep_eq_removed hcond]
        have hm : min (s.pool.get h).quantity s.qty = (s.pool.get h).quantity := by
          omega
        have hs1get : ∀ x, x ≠ h → (innerRemoved price h s).pool.get x = s.pool.get x := by
          intro x hx
          unfold OrderPool.get
          rw [innerRemoved_pool_pool]
          exact getD_set_ne _ _ _ (fun hc => hx hc.symm)
        have hs1len : (innerRemoved price h s).pool.pool.length = s.pool.pool.length := by
          rw [innerRemoved_pool_pool]
          simp
        have hs1lvl : (innerRemoved price h s).lvl.order_indices = kept ++ rest := by
          rw [innerRemoved_lvl]
          show s.lvl.order_indices.filter (· ≠ h) = kept ++ rest
          rw [hsplit, List.filter_append, List.filter_cons_of_neg (by simp),
            List.filter_eq_self.mpr (fun x hx => by
              simpa using fun hc : x = h => hknotin (hc ▸ hx)),
            List.filter_eq_self.mpr (fun x hx => by
              simpa using fun hc : x = h => hrnotin (hc ▸ hx))]
        have hE3 : ∀ x ∈ kept ++ rest, x < (innerRemoved price h s).pool.pool.length := by
          intro x hx
          rw [hs1len]
          rcases List.mem_append.mp hx with hx | hx
          · exact hb x (List.mem_append.mpr (Or.inl hx))
          · exact hb x (by simp [hx])
        have hE4 : sumQ (innerRemoved price h s).pool (kept ++ rest) =
            (innerRemoved price h s).lvl.total_quantity := by
          rw [sumQ_congr (fun x hx => hs1get x (hxne x hx)), innerRemoved_lvl]
          show sumQ s.pool (kept ++ rest) =
            s.lvl.total_quantity - min (s.pool.get h).quantity s.qty
          rw [hm, sumQ_append]
          omega
        obtain ⟨IFsurv, IFprice, IFsum, IFpoolLen, IFpoolFrame, IFfree, IFidLen,
          IFidFrame, IFexecs⟩ := ih kept (innerRemoved price h s) hs1lvl hE2 hE3 hE4
        obtain ⟨rem, hrem1, hrem2⟩ := IFsurv
        refine ⟨⟨rem, hrem1, hrem2.trans (List.sublist_cons_self h rest)⟩, ?_, IFsum, ?_,
          ?_, ?_, ?_, ?_, ?_⟩
        · rw [IFprice, innerRemoved_lvl]
        · rw [IFpoolLen, hs1len]
        · intro x hx
          have hxh : x ≠ h := fun hc => hx (hc ▸ List.mem_cons_self h rest)
          have hxr : x ∉ rest := fun hc => hx (List.mem_cons_of_mem h hc)
          rw [IFpoolFrame x hxr, hs1get x hxh]
        · obtain ⟨fr, hf1, hf2, hf3⟩ := IFfree
          refine ⟨fr ++ [h], ?_, ?_, ?_⟩
          · rw [hf1, innerRemoved_free, List.append_assoc, List.singleton_append]
          · have hhf : h ∉ fr := fun hc => hrnotin ((hf3 h hc).1)
            rw [List.nodup_append]
            exact ⟨hf2, List.nodup_singleton h, by simpa using hhf⟩
          · intro x hx
            rcases List.mem_append.mp hx with hx | hx
            · obtain ⟨hx1, hx2⟩ := hf3 x hx
              exact ⟨List.mem_cons_of_mem h hx1, hx2⟩
            · have hx' : x = h := by simpa using hx
              subst hx'
              refine ⟨List.mem_cons_self _ _, ?_⟩
              rw [hrem1]
              intro hc
              rcases List.mem_append.mp hc with hc | hc
              · exact hknotin hc
              · exact hrnotin (hrem2.subset hc)
        · rw [IFidLen, innerRemoved_id]
          simp
        · intro id
          rcases IFidFrame id with heq | hnone
          · rw [heq, innerRemoved_id]
            by_cases hido : (s.pool.get h).order_id = id
            · subst hido
              by_cases hlen : (s.pool.get h).order_id < s.id_index.length
              · exact Or.inr (getD_set_self _ _ _ _ hlen)
              · exact Or.inr (getD_of_le_length _ _ _ (by
                  simpa using Nat.le_of_not_lt hlen))
            · exact Or.inl (getD_set_ne _ _ _ hido)
          · exact Or.inr hnone
        · obtain ⟨es, he1, he2⟩ := IFexecs
          refine ⟨⟨(s.pool.get h).order_id, price, min (s.pool.get h).quantity s.qty, 0,
            (s.pool.get h).side⟩ :: es, ?_, ?_⟩
          · rw [he1, innerRemoved_execs, List.append_assoc, List.singleton_append]
          · intro hc
            exact absurd hc (List.cons_ne_nil _ _)
      · -- the resting order survives with positive quantity
        rw [innerStep_eq_kept hcond]
        have hs1get : ∀ x, x ≠ h → (innerKept price h s).pool.get x = s.pool.get x := by
          intro x hx
          unfold OrderPool.get
          rw [innerKept_pool_pool]
          exact getD_set_ne _ _ _ (fun hc => hx hc.symm)
        have hs1geth : (innerKept price h s).pool.get h =
            { s.pool.get h with
                quantity := (s.pool.get h).quantity - min (s.pool.get h).quantity s.qty } := by
          unfold OrderPool.get
          rw [innerKept_pool_pool]
          exact getD_set_self _ _ _ _ hbh
        have hs1len : (innerKept price h s).pool.pool.length = s.pool.pool.length := by
          rw [innerKept_pool_pool]
          simp
        have hs1lvl : (innerKept price h s).lvl.order_indices = (kept ++ [h]) ++ rest := by
          rw [innerKept_lvl]
          show s.lvl.order_indices = (kept ++ [h]) ++ rest
          rw [hsplit, List.append_assoc, List.singleton_append]
        have hE2' : ((kept ++ [h]) ++ rest).Nodup := by
          rw [List.append_assoc, List.singleton_append]
          exact hnd
        have hE3' : ∀ x ∈ (kept ++ [h]) ++ rest,
            x < (innerKept price h s).pool.pool.length := by
          intro x hx
          rw [hs1len]
          apply hb
          rw [List.append_assoc, List.singleton_append] at hx
          exact hx
        have hE4' : sumQ (innerKept price h s).pool ((kept ++ [h]) ++ rest) =
            (innerKept price h s).lvl.total_quantity := by
          rw [innerKept_lvl]
          show _ = s.lvl.total_quantity - min (s.pool.get h).quantity s.qty
          rw [sumQ_append, sumQ_append, sumQ_cons, sumQ_nil]
          have hk : sumQ (innerKept price h s).pool kept = sumQ s.pool kept :=
            sumQ_congr (fun x hx => hs1get x (fun hc => hknotin (hc ▸ hx)))
          have hr : sumQ (innerKept price h s).pool rest = sumQ s.pool rest :=
            sumQ_congr (fun x hx => hs1get x (fun hc => hrnotin (hc ▸ hx)))
          rw [hk, hr, hs1geth]
          show sumQ s.pool kept +
              ((s.pool.get h).quantity - min (s.pool.get h).quantity s.qty + 0) +
              sumQ s.pool rest = _
          omega
        obtain ⟨IFsurv, IFprice, IFsum, IFpoolLen, IFpoolFrame, IFfree, IFidLen,
          IFidFrame, IFexecs⟩ := ih (kept ++ [h]) (innerKept price h s) hs1lvl hE2' hE3' hE4'
        obtain ⟨rem, hrem1, hrem2⟩ := IFsurv
        refine ⟨⟨h :: rem, ?_, hrem2.cons₂ h⟩, ?_, IFsum, ?_, ?_, ?_, ?_, ?_, ?_⟩
        · rw [hrem1, List.append_assoc, List.singleton_append]
        · rw [IFprice, innerKept_lvl]
        · rw [IFpoolLen, hs1len]
        · intro x hx
          have hxh : x ≠ h := fun hc => hx (hc ▸ List.mem_cons_self h rest)
          have hxr : x ∉ rest := fun hc => hx (List.mem_cons_of_mem h hc)
          rw [IFpoolFrame x hxr, hs1get x hxh]
        · obtain ⟨fr, hf1, hf2, hf3⟩ := IFfree
          refine ⟨fr, ?_, hf2, ?_⟩
          · rw [hf1, innerKept_free]
          · intro x hx
            obtain ⟨hx1, hx2⟩ := hf3 x hx
            exact ⟨List.mem_cons_of_mem h hx1, hx2⟩
        · rw [IFidLen, innerKept_id]
        · intro id
          rcases IFidFrame id with heq | hnone
          · rw [heq, innerKept_id]
            exact Or.inl rfl
          · exact Or.inr hnone
        · obtain ⟨es, he1, he2⟩ := IFexecs
          refine ⟨⟨(s.pool.get h).order_id, price, min (s.pool.get h).quantity s.qty, 0,
            (s.pool.get h).side⟩ :: es, ?_, ?_⟩
          · rw [he1, innerKept_execs, List.append_assoc, List.singleton_append]
          · intro hc
            exact absurd hc (List.cons_ne_nil _ _)


/-! ### Handle-occurrence helpers across the level arrays -/

theorem getD_drop' {α : Type} (l : List α) (m n : Nat) (d : α) :
    (l.drop m).getD n d = l.getD (m + n) d := by
  simp [List.getD, List.getElem?_drop]

theorem mem_handlesOf_slot {levels : List (Option PriceLevel)} {k x : Nat}
    (hx : x ∈ handlesOfOpt (levels.getD k none)) : x ∈ handlesOf levels := by
  cases hg : levels.getD k none with
  | none => rw [hg] at hx; exact absurd hx (by simp [handlesOfOpt])
  | some lvl =>
    have hk : k < levels.length := getD_lt_length hg (by simp)
    rw [handlesOf_decomp levels k hk, hg]
    rw [hg] at hx
    exact List.mem_append.mpr (Or.inl (List.mem_append.mpr (Or.inr hx)))

theorem handles_slots_disjoint_lt {levels : List (Option PriceLevel)}
    (hnd : (handlesOf levels).Nodup) {i j x : Nat} (hij : i < j)
    (hxi : x ∈ handlesOfOpt (levels.getD i none))
    (hxj : x ∈ handlesOfOpt (levels.getD j none)) : False := by
  cases hgi : levels.getD i none with
  | none => rw [hgi] at hxi; exact absurd hxi (by simp [handlesOfOpt])
  | some lvli =>
    have hi : i < levels.length := getD_lt_length hgi (by simp)
    have hdec := handlesOf_decomp levels i hi
    rw [hgi] at hdec hxi
    have hxdrop : x ∈ handlesOf (levels.drop (i + 1)) := by
      apply @mem_handlesOf_slot _ (j - (i + 1)) _
      rw [getD_drop']
      have : i + 1 + (j - (i + 1)) = j := by omega
      rw [this]
      exact hxj
    rw [hdec] at hnd
    have hnd2 : (handlesOfOpt (some lvli) ++ handlesOf (levels.drop (i + 1))).Nodup := by
      rw [List.append_assoc] at hnd
      exact hnd.of_append_right
    exact List.disjoint_of_nodup_append hnd2 hxi hxdrop

theorem handles_slots_disjoint {levels : List (Option PriceLevel)}
    (hnd : (handlesOf levels).Nodup) {i j x : Nat} (hij : i ≠ j)
    (hxi : x ∈ handlesOfOpt (levels.getD i none))
    (hxj : x ∈ handlesOfOpt (levels.getD j none)) : False := by
  rcases Nat.lt_or_ge i j with h | h
  · exact handles_slots_disjoint_lt hnd h hxi hxj
  · have : j < i := by omega
    exact handles_slots_disjoint_lt hnd this hxj hxi

theorem handles_set_sublist {levels : List (Option PriceLevel)} {idx : Nat}
    {lvl : PriceLevel} (hidx : idx < levels.length)
    (hlvl : levels.getD idx none = some lvl) {x1 : Option PriceLevel}
    (hsub : (handlesOfOpt x1).Sublist lvl.order_indices)
    (O : List Nat) :
    ((handlesOf (levels.set idx x1)) ++ O).Sublist (handlesOf levels ++ O) := by
  rw [handlesOf_set levels idx x1 hidx, handlesOf_decomp levels idx hidx, hlvl]
  exact (((List.Sublist.refl _).append hsub).append (List.Sublist.refl _)).append
    (List.Sublist.refl O)


/-! ### Outer matcher loop preservation -/

theorem loopFacts_of_eq {other : List (Option PriceLevel)} {st M : MatchState}
    (hinv : LoopInv other st) (heq : M = st) : LoopFacts other st M := by
  subst heq
  exact ⟨hinv, rfl, rfl, fun id => Or.inl rfl, fun i hi => hi, ⟨[], rfl⟩,
    ⟨[], (List.append_nil _).symm, fun _ => rfl⟩⟩

theorem matchLoop_facts (priceOf : Nat → Nat) (stopAt : Nat → Bool)
    (other : List (Option PriceLevel)) :
    ∀ (fuel : Nat) (cur : Option Nat) (st : MatchState),
      LoopInv other st → cur = st.best →
      LoopFacts other st (matchLoop priceOf stopAt fuel cur st) := by
  intro fuel
  induction fuel with
  | zero =>
    intro cur st hinv hcur
    exact loopFacts_of_eq hinv (by rw [matchLoop])
  | succ fuel ih =>
    intro cur st hinv hcur
    cases cur with
    | none =>
      exact loopFacts_of_eq hinv (by rw [matchLoop])
    | some idx =>
      have hbest : st.best = some idx := hcur.symm
      have hffs : findFirstSome st.levels 0 = some idx := by
        rw [← hinv.side_ok.cache]
        exact hbest
      obtain ⟨-, hidx_lt, hocc, hmin⟩ := ffs_some hffs
      obtain ⟨lvl, hlvlEq⟩ : ∃ lvl, st.levels.getD idx none = some lvl := by
        cases hg : st.levels.getD idx none with
        | none => rw [hg] at hocc; exact absurd hocc (by simp)
        | some lvl => exact ⟨lvl, rfl⟩
      have hLok := hinv.side_ok.level_ok idx lvl hlvlEq
      by_cases hq : st.qty = 0
      · exact loopFacts_of_eq hinv (by rw [matchLoop, if_pos hq])
      · by_cases hstop : stopAt (priceOf idx) = true
        · exact loopFacts_of_eq hinv (by rw [matchLoop, if_neg hq, if_pos hstop])
        · -- the level at `idx` is processed
          have hdec : handlesOf st.levels =
              handlesOf (st.levels.take idx) ++ lvl.order_indices ++
                handlesOf (st.levels.drop (idx + 1)) := by
            rw [handlesOf_decomp st.levels idx hidx_lt, hlvlEq]
            rfl
          set A := handlesOf (st.levels.take idx) with hA
          set B := lvl.order_indices with hB
          set C := handlesOf (st.levels.drop (idx + 1)) with hC
          set O := handlesOf other with hO
          have hndAll : (handlesOf st.levels).Nodup := hinv.allNodup.of_append_left
          have hnd4 : (A ++ (B ++ (C ++ O))).Nodup := by
            have hall := hinv.allNodup
            rw [hdec] at hall
            simpa [List.append_assoc] using hall
          have hndB : B.Nodup := (hnd4.of_append_right).of_append_left
          have hBA : ∀ x ∈ B, x ∉ A := fun x hx hxA =>
            List.disjoint_of_nodup_append hnd4 hxA (by simp [hx])
          have hBC : ∀ x ∈ B, x ∉ C := fun x hx hxC =>
            List.disjoint_of_nodup_append hnd4.of_append_right hx (by simp [hxC])
          have hBO : ∀ x ∈ B, x ∉ O := fun x hx hxO =>
            List.disjoint_of_nodup_append hnd4.of_append_right hx (by simp [hxO])
          have hOB : ∀ x ∈ O, x ∉ B := fun x hx hxB => hBO x hxB hx
          have hmemB_all : ∀ x ∈ B, x ∈ handlesOf st.levels := by
            intro x hx
            apply @mem_handlesOf_slot _ idx _
            rw [hlvlEq]
            exact hx
          have IF := matchAtLevel_facts (priceOf idx) lvl.order_indices []
            ⟨st.pool, st.id_index, lvl, st.tqm, st.qty, st.execs⟩ (by simp)
            (by simpa using hndB) (by simpa using hLok.bounds)
            (by simpa using hLok.sumEq)
          set s := matchAtLevel (priceOf idx) lvl.order_indices
            ⟨st.pool, st.id_index, lvl, st.tqm, st.qty, st.execs⟩ with hs
          obtain ⟨⟨rem, hrem1, hrem2⟩, IFprice, IFsum, IFpoolLen, IFpoolFrame,
            ⟨fr, hfr1, hfr2, hfr3⟩, IFidLen, IFidFrame, ⟨esI, hesI1, hesI2⟩⟩ := IF
          rw [List.nil_append] at hrem1
          have hslen : s.pool.pool.length = st.pool.pool.length := IFpoolLen
          have hsfree : s.pool.free_indices = fr ++ st.pool.free_indices := hfr1
          have hjneB : ∀ (j : Nat), j ≠ idx → ∀ (lvlj : PriceLevel),
              st.levels.getD j none = some lvlj → ∀ x ∈ lvlj.order_indices, x ∉ B := by
            intro j hjne lvlj hj x hx hxB
            exact handles_slots_disjoint hndAll hjne
              (by rw [hj]; exact hx) (by rw [hlvlEq]; exact hxB)
          have hOnotB : ∀ (j : Nat) (lvlj : PriceLevel),
              other.getD j none = some lvlj → ∀ x ∈ lvlj.order_indices, x ∉ B := by
            intro j lvlj hj x hx
            apply hOB
            rw [hO]
            apply @mem_handlesOf_slot _ j _
            rw [hj]
            exact hx
          have hmain : matchLoop priceOf stopAt (fuel + 1) (some idx) st =
              if s.lvl.isEmptyLevel then
                matchLoop priceOf stopAt fuel (levelDone idx st s).2 (levelDone idx st s).1
              else
                matchLoop priceOf stopAt fuel (some idx) (levelStay idx st s) := by
            rw [matchLoop, if_neg hq, if_neg hstop]
            rw [show (match st.levels.getD idx none with
              | some lvl =>
                let s := matchAtLevel (priceOf idx) lvl.order_indices
                  ⟨st.pool, st.id_index, lvl, st.tqm, st.qty, st.execs⟩
                if s.lvl.isEmptyLevel then
                  let r := levelDone idx st s
                  matchLoop priceOf stopAt fuel r.2 r.1
                else
                  matchLoop priceOf stopAt fuel (some idx) (levelStay idx st s)
              | none =>
                matchLoop priceOf stopAt fuel (findFirstSome st.levels (idx + 1)) st) =
              (let s := matchAtLevel (priceOf idx) lvl.order_indices
                  ⟨st.pool, st.id_index, lvl, st.tqm, st.qty, st.execs⟩
               if s.lvl.isEmptyLevel then
                 let r := levelDone idx st s
                 matchLoop priceOf stopAt fuel r.2 r.1
               else
                 matchLoop priceOf stopAt fuel (some idx) (levelStay idx st s))
              by rw [hlvlEq]]
          rw [hmain]
          by_cases hempty : s.lvl.isEmptyLevel = true
          · rw [if_pos hempty]
            have hBne : B ≠ [] := hLok.ne
            have hd1levels : (levelDone idx st s).1.levels = st.levels.set idx none := rfl
            have hd1pool : (levelDone idx st s).1.pool = s.pool := rfl
            have hd1id : (levelDone idx st s).1.id_index = s.id_index := rfl
            have hd1execs : (levelDone idx st s).1.execs = s.execs := rfl
            have hd1best : (levelDone idx st s).1.best =
                findFirstSome (st.levels.set idx none) (idx + 1) := by
              show (if st.best = some idx then _ else st.best) = _
              rw [if_pos hbest]
            have hd2 : (levelDone idx st s).2 =
                findFirstSome (st.levels.set idx none) (idx + 1) := rfl
            have hnewdec : handlesOf (st.levels.set idx none) = A ++ C := by
              rw [handlesOf_set st.levels idx none hidx_lt]
              simp [handlesOfOpt, hA, hC]
            have hsubALL : (handlesOf (st.levels.set idx none) ++ O).Sublist
                (handlesOf st.levels ++ O) :=
              @handles_set_sublist _ _ _ hidx_lt hlvlEq none
                (by simp [handlesOfOpt]) O
            have hprefix_none : ∀ m, m < idx + 1 →
                (st.levels.set idx none).getD m none = none := by
              intro m hm
              rcases Nat.eq_or_lt_of_le (Nat.le_of_lt_succ hm) with heq | hlt
              · subst heq
                exact getD_set_self _ _ _ _ hidx_lt
              · rw [getD_set_ne _ _ _ (by omega)]
                exact hmin m (Nat.zero_le m) hlt
            have hinv1 : LoopInv other (levelDone idx st s).1 := by
              refine ⟨⟨?_, ?_, ?_⟩, ?_, ?_, ?_, ?_, ?_⟩
              · rw [hd1levels]
                simp [hinv.side_ok.len]
              · rw [hd1best, hd1levels]
                exact (ffs_skip hprefix_none).symm
              · intro j lvlj hj
                rw [hd1levels] at hj
                have hjne : j ≠ idx := by
                  intro hc
                  subst hc
                  rw [getD_set_self _ _ _ _ hidx_lt] at hj
                  exact absurd hj (by simp)
                rw [getD_set_ne _ _ _ (fun hc => hjne hc.symm)] at hj
                have hLj := hinv.side_ok.level_ok j lvlj hj
                refine ⟨hLj.ne, ?_, ?_⟩
                · intro x hx
                  rw [hd1pool, hslen]
                  exact hLj.bounds x hx
                · rw [hd1pool,
                    sumQ_congr (fun x hx => IFpoolFrame x (hjneB j hjne lvlj hj x hx))]
                  exact hLj.sumEq
              · rw [hd1pool, hsfree]
                refine List.nodup_append.mpr ⟨hfr2, hinv.freeNodup, ?_⟩
                intro x hxf hxfree
                exact hinv.freeDisj x hxfree
                  (List.mem_append.mpr (Or.inl (hmemB_all x (hfr3 x hxf).1)))
              · intro x hx
                rw [hd1pool, hsfree] at hx
                rw [hd1pool, hslen]
                rcases List.mem_append.mp hx with hx | hx
                · exact hLok.bounds x (hfr3 x hx).1
                · exact hinv.freeLt x hx
              · intro x hx hmem
                rw [hd1pool, hsfree] at hx
                rw [hd1levels, hnewdec] at hmem
                rcases List.mem_append.mp hx with hx | hx
                · have hxB : x ∈ B := (hfr3 x hx).1
                  rcases List.mem_append.mp hmem with hm2 | hm2
                  · rcases List.mem_append.mp hm2 with hm3 | hm3
                    · exact hBA x hxB hm3
                    · exact hBC x hxB hm3
                  · exact hBO x hxB hm2
                · apply hinv.freeDisj x hx
                  apply hsubALL.subset
                  rw [hnewdec]
                  exact hmem
              · rw [hd1levels]
                exact hinv.allNodup.sublist hsubALL
              · intro j lvlj hj
                have hLj := hinv.other_ok j lvlj hj
                refine ⟨hLj.ne, ?_, ?_⟩
                · intro x hx
                  rw [hd1pool, hslen]
                  exact hLj.bounds x hx
                · rw [hd1pool,
                    sumQ_congr (fun x hx => IFpoolFrame x (hOnotB j lvlj hj x hx))]
                  exact hLj.sumEq
            have hcur1 : (levelDone idx st s).2 = (levelDone idx st s).1.best := by
              rw [hd2, hd1best]
            have ihF := ih (levelDone idx st s).2 (levelDone idx st s).1 hinv1 hcur1
            obtain ⟨Finv, FpoolLen, FidLen, FidFrame, FnoneKeep, ⟨fr2, hfr21⟩,
              ⟨es2, hes21, hes22⟩⟩ := ihF
            refine ⟨Finv, ?_, ?_, ?_, ?_, ?_, ?_⟩
            · rw [FpoolLen, hd1pool, hslen]
            · rw [FidLen, hd1id, IFidLen]
            · intro id
              rcases FidFrame id with h1 | h1
              · rw [h1, hd1id]
                rcases IFidFrame id with h2 | h2
                · exact Or.inl h2
                · exact Or.inr h2
              · exact Or.inr h1
            · intro i hi
              have hine : i ≠ idx ∨ i = idx := by omega
              apply FnoneKeep
              show (st.levels.set idx none).getD i none = none
              rcases hine with hine | hine
              · rw [getD_set_ne _ _ _ (fun hc => hine hc.symm)]
                exact hi
              · subst hine
                exact getD_set_self _ _ _ _ hidx_lt
            · refine ⟨fr2 ++ fr, ?_⟩
              rw [hfr21, hd1pool, hsfree, List.append_assoc]
            · refine ⟨esI ++ es2, ?_, ?_⟩
              · rw [hes21, hd1execs, hesI1, List.append_assoc]
              · intro hc
                obtain ⟨hcI, hc2⟩ := List.append_eq_nil.mp hc
                exfalso
                have hse : s = ⟨st.pool, st.id_index, lvl, st.tqm, st.qty, st.execs⟩ :=
                  hesI2 hcI
                have : lvl.order_indices = [] := by
                  have he := hempty
                  rw [hse] at he
                  simpa [PriceLevel.isEmptyLevel] using he
                exact hBne this
          · rw [if_neg hempty]
            have hsne : s.lvl.order_indices ≠ [] := by
              intro hc
              apply hempty
              simp [PriceLevel.isEmptyLevel, hc]
            have hstlevels : (levelStay idx st s).levels =
                st.levels.set idx (some s.lvl) := rfl
            have hstpool : (levelStay idx st s).pool = s.pool := rfl
            have hstid : (levelStay idx st s).id_index = s.id_index := rfl
            have hstexecs : (levelStay idx st s).execs = s.execs := rfl
            have hstbest : (levelStay idx st s).best = st.best := rfl
            have hsubALL : (handlesOf (st.levels.set idx (some s.lvl)) ++ O).Sublist
                (handlesOf st.levels ++ O) :=
              @handles_set_sublist _ _ _ hidx_lt hlvlEq (some s.lvl)
                (by simpa [handlesOfOpt, hrem1] using hrem2) O
            have hnewdec : handlesOf (st.levels.set idx (some s.lvl)) =
                A ++ (rem ++ C) := by
              rw [handlesOf_set st.levels idx (some s.lvl) hidx_lt]
              show A ++ handlesOfOpt (some s.lvl) ++ C = _
              rw [show handlesOfOpt (some s.lvl) = rem from hrem1,
                List.append_assoc]
            have hinv1 : LoopInv other (levelStay idx st s) := by
              refine ⟨⟨?_, ?_, ?_⟩, ?_, ?_, ?_, ?_, ?_⟩
              · rw [hstlevels]
                simp [hinv.side_ok.len]
              · rw [hstbest, hstlevels, hbest]
                refine (ffs_eq_some (Nat.zero_le idx) ?_ ?_).symm
                · rw [getD_set_self _ _ _ _ hidx_lt]
                  simp
                · intro m _ hm
                  rw [getD_set_ne _ _ _ (by omega)]
                  exact hmin m (Nat.zero_le m) hm
              · intro j lvlj hj
                rw [hstlevels] at hj
                by_cases hjne : j = idx
                · subst hjne
                  rw [getD_set_self _ _ _ _ hidx_lt] at hj
                  have hj' : lvlj = s.lvl := by
                    simpa using hj.symm
                  subst hj'
                  refine ⟨hsne, ?_, IFsum⟩
                  intro x hx
                  rw [hstpool, hslen]
                  rw [hrem1] at hx
                  exact hLok.bounds x (hrem2.subset hx)
                · rw [getD_set_ne _ _ _ (fun hc => hjne hc.symm)] at hj
                  have hLj := hinv.side_ok.level_ok j lvlj hj
                  refine ⟨hLj.ne, ?_, ?_⟩
                  · intro x hx
                    rw [hstpool, hslen]
                    exact hLj.bounds x hx
                  · rw [hstpool,
                      sumQ_congr (fun x hx => IFpoolFrame x (hjneB j hjne lvlj hj x hx))]
                    exact hLj.sumEq
              · rw [hstpool, hsfree]
                refine List.nodup_append.mpr ⟨hfr2, hinv.freeNodup, ?_⟩
                intro x hxf hxfree
                exact hinv.freeDisj x hxfree
                  (List.mem_append.mpr (Or.inl (hmemB_all x (hfr3 x hxf).1)))
              · intro x hx
                rw [hstpool, hsfree] at hx
                rw [hstpool, hslen]
                rcases List.mem_append.mp hx with hx | hx
                · exact hLok.bounds x (hfr3 x hx).1
                · exact hinv.freeLt x hx
              · intro x hx hmem
                rw [hstpool, hsfree] at hx
                rw [hstlevels, hnewdec] at hmem
                rcases List.mem_append.mp hx with hx | hx
                · obtain ⟨hxB, hxnotlvl⟩ := hfr3 x hx
                  rcases List.mem_append.mp hmem with hm2 | hm2
                  · rcases List.mem_append.mp hm2 with hm3 | hm3
                    · exact hBA x hxB hm3
                    · rcases List.mem_append.mp hm3 with hm4 | hm4
                      · exact hxnotlvl (by rw [hrem1]; exact hm4)
                      · exact hBC x hxB hm4
                  · exact hBO x hxB hm2
                · apply hinv.freeDisj x hx
                  apply hsubALL.subset
                  rw [hnewdec]
                  exact hmem
              · rw [hstlevels]
                exact hinv.allNodup.sublist hsubALL
              · intro j lvlj hj
                have hLj := hinv.other_ok j lvlj hj
                refine ⟨hLj.ne, ?_, ?_⟩
                · intro x hx
                  rw [hstpool, hslen]
                  exact hLj.bounds x hx
                · rw [hstpool,
                    sumQ_congr (fun x hx => IFpoolFrame x (hOnotB j lvlj hj x hx))]
                  exact hLj.sumEq
            have hcur1 : some idx = (levelStay idx st s).best := by
              rw [hstbest, hbest]
            have ihF := ih (some idx) (levelStay idx st s) hinv1 hcur1
            obtain ⟨Finv, FpoolLen, FidLen, FidFrame, FnoneKeep, ⟨fr2, hfr21⟩,
              ⟨es2, hes21, hes22⟩⟩ := ihF
            refine ⟨Finv, ?_, ?_, ?_, ?_, ?_, ?_⟩
            · rw [FpoolLen, hstpool, hslen]
            · rw [FidLen, hstid, IFidLen]
            · intro id
              rcases FidFrame id with h1 | h1
              · rw [h1, hstid]
                rcases IFidFrame id with h2 | h2
                · exact Or.inl h2
                · exact Or.inr h2
              · exact Or.inr h1
            · intro i hi
              have hine : i ≠ idx := by
                intro hc
                subst hc
                rw [hlvlEq] at hi
                exact absurd hi (by simp)
              apply FnoneKeep
              rw [hstlevels, getD_set_ne _ _ _ (fun hc => hine hc.symm)]
              exact hi
            · refine ⟨fr2 ++ fr, ?_⟩
              rw [hfr21, hstpool, hsfree, List.append_assoc]
            · refine ⟨esI ++ es2, ?_, ?_⟩
              · rw [hes21, hstexecs, hesI1, List.append_assoc]
              · intro hc
                obtain ⟨hcI, hc2⟩ := List.append_eq_nil.mp hc
                have hse : s = ⟨st.pool, st.id_index, lvl, st.tqm, st.qty, st.execs⟩ :=
                  hesI2 hcI
                have hsetid : st.levels.set idx (some lvl) = st.levels := by
                  have hss := set_getD_self st.levels idx none hidx_lt
                  rw [hlvlEq] at hss
                  exact hss
                have hstay : levelStay idx st s = st := by
                  show (⟨s.pool, s.id_index, st.levels.set idx (some s.lvl), st.best,
                    s.tqm, s.qty, s.execs⟩ : MatchState) = st
                  rw [hse]
                  show (⟨st.pool, st.id_index, st.levels.set idx (some lvl), st.best,
                    st.tqm, st.qty, st.execs⟩ : MatchState) = st
                  rw [hsetid]
                exact (hes22 hc2).trans hstay


/-! ### Unconditional frame facts of the matcher -/

theorem matchAtLevel_frames (price : Nat) : ∀ (rest : List Nat) (s : InnerState),
    (matchAtLevel price rest s).id_index.length = s.id_index.length ∧
    (∀ id, (matchAtLevel price rest s).id_index.getD id none =
        s.id_index.getD id none ∨
      (matchAtLevel price rest s).id_index.getD id none = none) ∧
    (∃ fr, (matchAtLevel price rest s).pool.free_indices =
      fr ++ s.pool.free_indices) ∧
    (matchAtLevel price rest s).pool.pool.length = s.pool.pool.length := by
  intro rest
  induction rest with
  | nil => intro s; exact ⟨rfl, fun id => Or.inl rfl, ⟨[], rfl⟩, rfl⟩
  | cons h rest ih =>
    intro s
    by_cases hq : s.qty = 0
    · rw [show matchAtLevel price (h :: rest) s = s by rw [matchAtLevel, if_pos hq]]
      exact ⟨rfl, fun id => Or.inl rfl, ⟨[], rfl⟩, rfl⟩
    · rw [show matchAtLevel price (h :: rest) s =
        matchAtLevel price rest (innerStep price h s) by rw [matchAtLevel, if_neg hq]]
      obtain ⟨ih1, ih2, ⟨fr, hfr⟩, ih4⟩ := ih (innerStep price h s)
      by_cases hc : (s.pool.get h).quantity - min (s.pool.get h).quantity s.qty = 0
      · rw [innerStep_eq_removed hc] at ih1 ih2 hfr ih4 ⊢
        refine ⟨?_, ?_, ?_, ?_⟩
        · rw [ih1, innerRemoved_id]
          simp
        · intro id
          rcases ih2 id with h1 | h1
          · rw [h1, innerRemoved_id]
            by_cases hido : (s.pool.get h).order_id = id
            · subst hido
              by_cases hlen : (s.pool.get h).order_id < s.id_index.length
              · exact Or.inr (getD_set_self _ _ _ _ hlen)
              · exact Or.inr (getD_of_le_length _ _ _ (by
                  simpa using Nat.le_of_not_lt hlen))
            · exact Or.inl (getD_set_ne _ _ _ hido)
          · exact Or.inr h1
        · refine ⟨fr ++ [h], ?_⟩
          rw [hfr, innerRemoved_free, List.append_assoc, List.singleton_append]
        · rw [ih4, innerRemoved_pool_pool]
          simp
      · rw [innerStep_eq_kept hc] at ih1 ih2 hfr ih4 ⊢
        refine ⟨?_, ?_, ?_, ?_⟩
        · rw [ih1, innerKept_id]
        · intro id
          rcases ih2 id with h1 | h1
          · rw [h1, innerKept_id]
            exact Or.inl rfl
          · exact Or.inr h1
        · refine ⟨fr, ?_⟩
          rw [hfr, innerKept_free]
        · rw [ih4, innerKept_pool_pool]
          simp

theorem matchLoop_frames (priceOf : Nat → Nat) (stopAt : Nat → Bool) :
    ∀ (fuel : Nat) (cur : Option Nat) (st : MatchState),
      (matchLoop priceOf stopAt fuel cur st).id_index.length = st.id_index.length ∧
      (∀ id, (matchLoop priceOf stopAt fuel cur st).id_index.getD id none =
          st.id_index.getD id none ∨
        (matchLoop priceOf stopAt fuel cur st).id_index.getD id none = none) ∧
      (∃ fr, (matchLoop priceOf stopAt fuel cur st).pool.free_indices =
        fr ++ st.pool.free_indices) ∧
      (matchLoop priceOf stopAt fuel cur st).pool.pool.length =
        st.pool.pool.length := by
  intro fuel
  induction fuel with
  | zero =>
    intro cur st
    rw [show matchLoop priceOf stopAt 0 cur st = st by rw [matchLoop]]
    exact ⟨rfl, fun id => Or.inl rfl, ⟨[], rfl⟩, rfl⟩
  | succ fuel ih =>
    intro cur st
    cases cur with
    | none =>
      rw [show matchLoop priceOf stopAt (fuel + 1) none st = st by rw [matchLoop]]
      exact ⟨rfl, fun id => Or.inl rfl, ⟨[], rfl⟩, rfl⟩
    | some idx =>
      by_cases hq : st.qty = 0
      · rw [show matchLoop priceOf stopAt (fuel + 1) (some idx) st = st by
          rw [matchLoop, if_pos hq]]
        exact ⟨rfl, fun id => Or.inl rfl, ⟨[], rfl⟩, rfl⟩
      · by_cases hstop : stopAt (priceOf idx) = true
        · rw [show matchLoop priceOf stopAt (fuel + 1) (some idx) st = st by
            rw [matchLoop, if_neg hq, if_pos hstop]]
          exact ⟨rfl, fun id => Or.inl rfl, ⟨[], rfl⟩, rfl⟩
        · cases hlvlEq : st.levels.getD idx none with
          | none =>
            rw [show matchLoop priceOf stopAt (fuel + 1) (some idx) st =
              matchLoop priceOf stopAt fuel (findFirstSome st.levels (idx + 1)) st by
              rw [matchLoop, if_neg hq, if_neg hstop]
              rw [show (match st.levels.getD idx none with
                | some lvl =>
                  let s := matchAtLevel (priceOf idx) lvl.order_indices
                    ⟨st.pool, st.id_index, lvl, st.tqm, st.qty, st.execs⟩
                  if s.lvl.isEmptyLevel then
                    let r := levelDone idx st s
                    matchLoop priceOf stopAt fuel r.2 r.1
                  else
                    matchLoop priceOf stopAt fuel (some idx) (levelStay idx st s)
                | none =>
                  matchLoop priceOf stopAt fuel (findFirstSome st.levels (idx + 1)) st) =
                matchLoop priceOf stopAt fuel (findFirstSome st.levels (idx + 1)) st
                by rw [hlvlEq]]]
            exact ih _ st
          | some lvl =>
            have hmain : matchLoop priceOf stopAt (fuel + 1) (some idx) st =
                (let s := matchAtLevel (priceOf idx) lvl.order_indices
                    ⟨st.pool, st.id_index, lvl, st.tqm, st.qty, st.execs⟩
                 if s.lvl.isEmptyLevel then
                   let r := levelDone idx st s
                   matchLoop priceOf stopAt fuel r.2 r.1
                 else
                   matchLoop priceOf stopAt fuel (some idx) (levelStay idx st s)) := by
              rw [matchLoop, if_neg hq, if_neg hstop]
              rw [show (match st.levels.getD idx none with
                | some lvl =>
                  let s := matchAtLevel (priceOf idx) lvl.order_indices
                    ⟨st.pool, st.id_index, lvl, st.tqm, st.qty, st.execs⟩
                  if s.lvl.isEmptyLevel then
                    let r := levelDone idx st s
                    matchLoop priceOf stopAt fuel r.2 r.1
                  else
                    matchLoop priceOf stopAt fuel (some idx) (levelStay idx st s)
                | none =>
                  matchLoop priceOf stopAt fuel (findFirstSome st.levels (idx + 1)) st) =
                (let s := matchAtLevel (priceOf idx) lvl.order_indices
                    ⟨st.pool, st.id_index, lvl, st.tqm, st.qty, st.execs⟩
                 if s.lvl.isEmptyLevel then
                   let r := levelDone idx st s
                   matchLoop priceOf stopAt fuel r.2 r.1
                 else
                   matchLoop priceOf stopAt fuel (some idx) (levelStay idx st s))
                by rw [hlvlEq]]
            rw [hmain]
            set s := matchAtLevel (priceOf idx) lvl.order_indices
              ⟨st.pool, st.id_index, lvl, st.tqm, st.qty, st.execs⟩ with hs
            obtain ⟨if1, if2, ⟨frI, hfrI⟩, if4⟩ := matchAtLevel_frames (priceOf idx)
              lvl.order_indices ⟨st.pool, st.id_index, lvl, st.tqm, st.qty, st.execs⟩
            by_cases hempty : s.lvl.isEmptyLevel = true
            · rw [if_pos hempty]
              obtain ⟨lf1, lf2, ⟨frL, hfrL⟩, lf4⟩ := ih (levelDone idx st s).2
                (levelDone idx st s).1
              refine ⟨?_, ?_, ?_, ?_⟩
              · rw [lf1]
                exact if1
              · intro id
                rcases lf2 id with h1 | h1
                · rw [h1]
                  exact if2 id
                · exact Or.inr h1
              · refine ⟨frL ++ frI, ?_⟩
                rw [hfrL]
                show frL ++ s.pool.free_indices = _
                rw [hfrI, List.append_assoc]
              · rw [lf4]
                exact if4
            · rw [if_neg hempty]
              obtain ⟨lf1, lf2, ⟨frL, hfrL⟩, lf4⟩ := ih (some idx) (levelStay idx st s)
              refine ⟨?_, ?_, ?_, ?_⟩
              · rw [lf1]
                exact if1
              · intro id
                rcases lf2 id with h1 | h1
                · rw [h1]
                  exact if2 id
                · exact Or.inr h1
              · refine ⟨frL ++ frI, ?_⟩
                rw [hfrL]
                show frL ++ s.pool.free_indices = _
                rw [hfrI, List.append_assoc]
              · rw [lf4]
                exact if4


/-! ### Book-level invariant helpers -/

theorem buyPriceToIdx_spec {b : Book} (hbase : b.base_price = 10000)
    (htick : b.tick_size = 1) {price pidx : Nat}
    (h : b.buyPriceToIdx price = some pidx) :
    price < 10000 ∧ pidx = 10000 - price ∧ 1 ≤ pidx ∧ pidx < PRICE_LEVELS := by
  unfold Book.buyPriceToIdx at h
  rw [hbase, htick] at h
  by_cases hp : 10000 ≤ price
  · rw [if_pos hp] at h
    exact absurd h (by simp)
  · rw [if_neg hp] at h
    simp only [Nat.div_one] at h
    by_cases hr : 10000 - price < PRICE_LEVELS
    · rw [if_pos hr] at h
      simp only [Option.some.injEq] at h
      subst h
      refine ⟨by omega, rfl, by omega, hr⟩
    · rw [if_neg hr] at h
      exact absurd h (by simp)

theorem sellPriceToIdx_spec {b : Book} (hbase : b.base_price = 10000)
    (htick : b.tick_size = 1) {price pidx : Nat}
    (h : b.sellPriceToIdx price = some pidx) :
    10000 ≤ price ∧ pidx = price - 10000 ∧ pidx < PRICE_LEVELS := by
  unfold Book.sellPriceToIdx at h
  rw [hbase, htick] at h
  by_cases hp : price < 10000
  · rw [if_pos hp] at h
    exact absurd h (by simp)
  · rw [if_neg hp] at h
    simp only [Nat.div_one] at h
    by_cases hr : price - 10000 < PRICE_LEVELS
    · rw [if_pos hr] at h
      simp only [Option.some.injEq] at h
      subst h
      exact ⟨by omega, rfl, hr⟩
    · rw [if_neg hr] at h
      exact absurd h (by simp)

theorem perm_insert (A old C O : List Nat) (i : Nat) :
    (A ++ ((old ++ [i]) ++ (C ++ O))).Perm (i :: (A ++ (old ++ (C ++ O)))) := by
  have h2 : (A ++ ((old ++ [i]) ++ (C ++ O))).Perm (A ++ ((i :: old) ++ (C ++ O))) :=
    ((List.perm_append_singleton i old).append_right (C ++ O)).append_left A
  have h3 : A ++ ((i :: old) ++ (C ++ O)) = A ++ (i :: (old ++ (C ++ O))) := by simp
  have h4 : (A ++ (i :: (old ++ (C ++ O)))).Perm (i :: (A ++ (old ++ (C ++ O)))) :=
    List.perm_middle
  exact h2.trans (h3 ▸ h4)

theorem inv_tqm {b : Book} (hinv : Inv b) (x : Nat) :
    Inv { b with total_quantity_matched := x } :=
  ⟨hinv.base, hinv.tick, hinv.bid, hinv.ask, hinv.buy0, hinv.freeNodup,
    hinv.freeLt, hinv.freeDisj, hinv.restNodup, hinv.idLen, hinv.poolLe⟩

theorem inv_processed {b : Book} (hinv : Inv b) (x : Nat) :
    Inv { b with total_orders_processed := x } :=
  ⟨hinv.base, hinv.tick, hinv.bid, hinv.ask, hinv.buy0, hinv.freeNodup,
    hinv.freeLt, hinv.freeDisj, hinv.restNodup, hinv.idLen, hinv.poolLe⟩

theorem growForId_inv {b : Book} (hinv : Inv b) (id : Nat) :
    Inv (b.growForId id) := by
  unfold Book.growForId
  by_cases h1 : b.order_id_to_index.length ≤ id
  · rw [if_pos h1]
    by_cases h2 : b.max_order_id < id
    · rw [if_pos h2]
      refine ⟨hinv.base, hinv.tick, hinv.bid, hinv.ask, hinv.buy0, hinv.freeNodup,
        hinv.freeLt, hinv.freeDisj, hinv.restNodup, ?_, ?_⟩
      · right
        show id < (b.order_id_to_index ++
          List.replicate (id + 1 - b.order_id_to_index.length) none).length
        simp only [List.length_append, List.length_replicate]
        omega
      · show b.order_pool.pool.length ≤ (b.order_id_to_index ++
          List.replicate (id + 1 - b.order_id_to_index.length) none).length
        simp only [List.length_append, List.length_replicate]
        have := hinv.poolLe
        omega
    · rw [if_neg h2]
      exact hinv
  · rw [if_neg h1]
    exact hinv

theorem bookNew_inv (symbol : String) (capacity : Nat) :
    Inv (Book.new symbol capacity) := by
  have hffs : findFirstSome (List.replicate PRICE_LEVELS (none : Option PriceLevel)) 0 =
      none := by
    apply ffs_eq_none
    intro m _
    by_cases hm : m < PRICE_LEVELS
    · simp [List.getD, List.getElem?_replicate, hm]
    · exact getD_of_le_length _ _ _ (by simpa using Nat.le_of_not_lt hm)
  have hgetD : ∀ (i : Nat),
      (List.replicate PRICE_LEVELS (none : Option PriceLevel)).getD i none = none := by
    intro i
    by_cases hi : i < PRICE_LEVELS
    · simp [List.getD, List.getElem?_replicate, hi]
    · exact getD_of_le_length _ _ _ (by simpa using Nat.le_of_not_lt hi)
  have hrest : restingAll (Book.new symbol capacity) = [] := by
    show handlesOf (List.replicate PRICE_LEVELS none) ++
      handlesOf (List.replicate PRICE_LEVELS none) = []
    have : handlesOf (List.replicate PRICE_LEVELS (none : Option PriceLevel)) = [] := by
      unfold handlesOf
      induction PRICE_LEVELS with
      | zero => simp
      | succ n ihn => simpa [List.replicate_succ, handlesOfOpt] using ihn
    rw [this]
    rfl
  refine ⟨rfl, rfl, ⟨by simp [Book.new], hffs.symm, ?_⟩, ⟨by simp [Book.new], hffs.symm, ?_⟩,
    hgetD 0, ?_, ?_, ?_, ?_, ?_, ?_⟩
  · intro i lvl hl
    have hl' : (List.replicate PRICE_LEVELS (none : Option PriceLevel)).getD i none =
      some lvl := hl
    rw [hgetD i] at hl'
    exact absurd hl' (by simp)
  · intro i lvl hl
    have hl' : (List.replicate PRICE_LEVELS (none : Option PriceLevel)).getD i none =
      some lvl := hl
    rw [hgetD i] at hl'
    exact absurd hl' (by simp)
  · exact List.nodup_range capacity
  · intro h hh
    show h < (List.replicate capacity dummyOrder).length
    simpa using List.mem_range.mp hh
  · intro h hh
    rw [hrest]
    simp
  · rw [hrest]
    exact List.nodup_nil
  · show (List.replicate capacity (none : Option Nat)).length = 0 ∨
      (0 : Nat) < (List.replicate capacity (none : Option Nat)).length
    simp only [List.length_replicate]
    omega
  · show (List.replicate capacity dummyOrder).length ≤
      (List.replicate capacity (none : Option Nat)).length
    simp


theorem loopInv_ask {b : Book} (hinv : Inv b) (tqm qty : Nat) :
    LoopInv b.buy_levels
      ⟨b.order_pool, b.order_id_to_index, b.sell_levels, b.best_ask_idx, tqm, qty, []⟩ := by
  refine ⟨hinv.ask, hinv.freeNodup, hinv.freeLt, ?_, ?_, hinv.bid.level_ok⟩
  · intro h hh hc
    apply hinv.freeDisj h hh
    show h ∈ handlesOf b.buy_levels ++ handlesOf b.sell_levels
    have hc' : h ∈ handlesOf b.sell_levels ++ handlesOf b.buy_levels := hc
    rcases List.mem_append.mp hc' with hx | hx
    · exact List.mem_append.mpr (Or.inr hx)
    · exact List.mem_append.mpr (Or.inl hx)
  · show (handlesOf b.sell_levels ++ handlesOf b.buy_levels).Nodup
    exact List.nodup_append_comm.mp hinv.restNodup

theorem loopInv_bid {b : Book} (hinv : Inv b) (tqm qty : Nat) :
    LoopInv b.sell_levels
      ⟨b.order_pool, b.order_id_to_index, b.buy_levels, b.best_bid_idx, tqm, qty, []⟩ := by
  refine ⟨hinv.bid, hinv.freeNodup, hinv.freeLt, ?_, ?_, hinv.ask.level_ok⟩
  · intro h hh hc
    exact hinv.freeDisj h hh hc
  · exact hinv.restNodup

theorem inv_reassemble_ask {b : Book} (hinv : Inv b) (st : MatchState)
    (hLI : LoopInv b.buy_levels st)
    (hidlen : st.id_index.length = b.order_id_to_index.length)
    (hplen : st.pool.pool.length = b.order_pool.pool.length)
    (hbuy0 : st.levels.getD 0 none = st.levels.getD 0 none) :
    Inv { b with
            order_pool := st.pool
            order_id_to_index := st.id_index
            sell_levels := st.levels
            best_ask_idx := st.best
            total_quantity_matched := st.tqm } := by
  refine ⟨hinv.base, hinv.tick, ⟨hinv.bid.len, hinv.bid.cache, hLI.other_ok⟩,
    hLI.side_ok, hinv.buy0, hLI.freeNodup, hLI.freeLt, ?_, ?_, ?_, ?_⟩
  · intro h hh hc
    apply hLI.freeDisj h hh
    have hc' : h ∈ handlesOf b.buy_levels ++ handlesOf st.levels := hc
    rcases List.mem_append.mp hc' with hx | hx
    · exact List.mem_append.mpr (Or.inr hx)
    · exact List.mem_append.mpr (Or.inl hx)
  · show (handlesOf b.buy_levels ++ handlesOf st.levels).Nodup
    exact List.nodup_append_comm.mp hLI.allNodup
  · show st.id_index.length = 0 ∨ b.max_order_id < st.id_index.length
    rw [hidlen]
    exact hinv.idLen
  · show st.pool.pool.length ≤ st.id_index.length
    rw [hidlen, hplen]
    exact hinv.poolLe

theorem inv_reassemble_bid {b : Book} (hinv : Inv b) (st : MatchState)
    (hLI : LoopInv b.sell_levels st)
    (hidlen : st.id_index.length = b.order_id_to_index.length)
    (hplen : st.pool.pool.length = b.order_pool.pool.length)
    (hbuy0 : st.levels.getD 0 none = none) :
    Inv { b with
            order_pool := st.pool
            order_id_to_index := st.id_index
            buy_levels := st.levels
            best_bid_idx := st.best
            total_quantity_matched := st.tqm } := by
  refine ⟨hinv.base, hinv.tick, hLI.side_ok, ⟨hinv.ask.len, hinv.ask.cache, hLI.other_ok⟩,
    hbuy0, hLI.freeNodup, hLI.freeLt, ?_, ?_, ?_, ?_⟩
  · intro h hh hc
    exact hLI.freeDisj h hh hc
  · exact hLI.allNodup
  · show st.id_index.length = 0 ∨ b.max_order_id < st.id_index.length
    rw [hidlen]
    exact hinv.idLen
  · show st.pool.pool.length ≤ st.id_index.length
    rw [hidlen, hplen]
    exact hinv.poolLe


theorem perm_insert3 (A old C : List Nat) (i : Nat) :
    (A ++ ((old ++ [i]) ++ C)).Perm (i :: (A ++ (old ++ C))) := by
  have h2 : (A ++ ((old ++ [i]) ++ C)).Perm (A ++ ((i :: old) ++ C)) :=
    ((List.perm_append_singleton i old).append_right C).append_left A
  have h3 : A ++ ((i :: old) ++ C) = A ++ (i :: (old ++ C)) := by simp
  have h4 : (A ++ (i :: (old ++ C))).Perm (i :: (A ++ (old ++ C))) :=
    List.perm_middle
  exact h2.trans (h3 ▸ h4)

theorem perm_of_eq {l1 l2 : List Nat} (h : l1 = l2) : l1.Perm l2 :=
  h ▸ List.Perm.refl _

theorem rest_core_buy {b : Book} (hinv : Inv b) (remaining : Order)
    (oid i pidx : Nat) (rest' : List Nat)
    (oldIdx : List Nat) (oldTotal newPrice : Nat)
    (hfree : b.order_pool.free_indices = i :: rest')
    (hp1 : 1 ≤ pidx) (hp1024 : pidx < PRICE_LEVELS)
    (hoidx : handlesOfOpt (b.buy_levels.getD pidx none) = oldIdx)
    (hsum0 : sumQ b.order_pool oldIdx = oldTotal)
    (hbounds0 : ∀ x ∈ oldIdx, x < b.order_pool.pool.length) :
    ∀ (bestX : Option Nat) (tq : Nat),
      bestX = findFirstSome (b.buy_levels.set pidx
        (some ⟨newPrice, oldTotal + remaining.quantity, oldIdx ++ [i]⟩)) 0 →
      Inv { b with
              order_pool := ⟨b.order_pool.pool.set i remaining, rest'⟩
              order_id_to_index := b.order_id_to_index.set oid (some i)
              buy_levels := b.buy_levels.set pidx
                (some ⟨newPrice, oldTotal + remaining.quantity, oldIdx ++ [i]⟩)
              best_bid_idx := bestX
              total_quantity_matched := tq } := by
  intro bestX tq hcache
  have hi_lt : i < b.order_pool.pool.length :=
    hinv.freeLt i (by rw [hfree]; simp)
  have hi_not : i ∉ restingAll b := hinv.freeDisj i (by rw [hfree]; simp)
  have hfnd : (i :: rest').Nodup := hfree ▸ hinv.freeNodup
  have hi_not_rest' : i ∉ rest' := (List.nodup_cons.mp hfnd).1
  have hrest_nd : rest'.Nodup := (List.nodup_cons.mp hfnd).2
  have hpidx_len : pidx < b.buy_levels.length := by
    rw [hinv.bid.len]
    exact hp1024
  have hget2i : (OrderPool.mk (b.order_pool.pool.set i remaining) rest').get i =
      remaining := by
    unfold OrderPool.get
    exact getD_set_self _ _ _ _ hi_lt
  have hget2rest : ∀ x ∈ restingAll b,
      (OrderPool.mk (b.order_pool.pool.set i remaining) rest').get x =
        b.order_pool.get x := by
    intro x hx
    unfold OrderPool.get
    refine getD_set_ne _ _ _ (fun hc => ?_)
    exact hi_not (hc ▸ hx)
  have hmem_rest_buy : ∀ (j x : Nat),
      x ∈ handlesOfOpt (b.buy_levels.getD j none) → x ∈ restingAll b := by
    intro j x hx
    exact List.mem_append.mpr (Or.inl (mem_handlesOf_slot hx))
  have hmem_rest_sell : ∀ (j x : Nat),
      x ∈ handlesOfOpt (b.sell_levels.getD j none) → x ∈ restingAll b := by
    intro j x hx
    exact List.mem_append.mpr (Or.inr (mem_handlesOf_slot hx))
  have hmemold : ∀ x ∈ oldIdx, x ∈ restingAll b := by
    intro x hx
    exact hmem_rest_buy pidx x (by rw [hoidx]; exact hx)
  have hnewdec : handlesOf (b.buy_levels.set pidx
      (some ⟨newPrice, oldTotal + remaining.quantity, oldIdx ++ [i]⟩)) =
      handlesOf (b.buy_levels.take pidx) ++ (oldIdx ++ [i]) ++
        handlesOf (b.buy_levels.drop (pidx + 1)) := by
    rw [handlesOf_set _ _ _ hpidx_len]
    rfl
  have holddec : handlesOf b.buy_levels =
      handlesOf (b.buy_levels.take pidx) ++ oldIdx ++
        handlesOf (b.buy_levels.drop (pidx + 1)) := by
    rw [← hoidx]
    exact handlesOf_decomp _ _ hpidx_len
  have hperm : (handlesOf (b.buy_levels.set pidx
      (some ⟨newPrice, oldTotal + remaining.quantity, oldIdx ++ [i]⟩)) ++
        handlesOf b.sell_levels).Perm (i :: restingAll b) := by
    rw [hnewdec]
    have h1 := (perm_insert3 (handlesOf (b.buy_levels.take pidx)) oldIdx
      (handlesOf (b.buy_levels.drop (pidx + 1))) i).append_right
      (handlesOf b.sell_levels)
    refine List.Perm.trans (perm_of_eq ?_) (h1.trans (perm_of_eq ?_))
    · simp [List.append_assoc]
    · rw [List.cons_append]
      show _ = i :: (handlesOf b.buy_levels ++ handlesOf b.sell_levels)
      rw [holddec]
      simp [List.append_assoc]
  have hsum2 : sumQ (OrderPool.mk (b.order_pool.pool.set i remaining) rest')
      (oldIdx ++ [i]) = oldTotal + remaining.quantity := by
    rw [sumQ_append, sumQ_congr (fun x hx => hget2rest x (hmemold x hx)), hsum0,
      sumQ_cons, sumQ_nil, hget2i]
    omega
  have hnewLvlInv : LevelInv (OrderPool.mk (b.order_pool.pool.set i remaining) rest')
      ⟨newPrice, oldTotal + remaining.quantity, oldIdx ++ [i]⟩ := by
    refine ⟨by simp, ?_, hsum2⟩
    intro x hx
    show x < (b.order_pool.pool.set i remaining).length
    rw [List.length_set]
    rcases List.mem_append.mp hx with hx | hx
    · exact hbounds0 x hx
    · have hxi : x = i := by simpa using hx
      subst hxi
      exact hi_lt
  refine ⟨hinv.base, hinv.tick, ⟨?_, hcache, ?_⟩,
    ⟨hinv.ask.len, hinv.ask.cache, ?_⟩, ?_, hrest_nd, ?_, ?_, ?_, ?_, ?_⟩
  · show (b.buy_levels.set pidx _).length = PRICE_LEVELS
    rw [List.length_set]
    exact hinv.bid.len
  · intro j lvlj hj
    by_cases hje : j = pidx
    · subst hje
      rw [getD_set_self _ _ _ _ hpidx_len] at hj
      have hlj : lvlj = ⟨newPrice, oldTotal + remaining.quantity, oldIdx ++ [i]⟩ := by
        simpa using hj.symm
      subst hlj
      exact hnewLvlInv
    · rw [getD_set_ne _ _ _ (fun hc => hje hc.symm)] at hj
      have hLj := hinv.bid.level_ok j lvlj hj
      refine ⟨hLj.ne, ?_, ?_⟩
      · intro x hx
        show x < (b.order_pool.pool.set i remaining).length
        rw [List.length_set]
        exact hLj.bounds x hx
      · rw [sumQ_congr (fun x hx => hget2rest x
          (hmem_rest_buy j x (by rw [hj]; exact hx)))]
        exact hLj.sumEq
  · intro j lvlj hj
    have hLj := hinv.ask.level_ok j lvlj hj
    refine ⟨hLj.ne, ?_, ?_⟩
    · intro x hx
      show x < (b.order_pool.pool.set i remaining).length
      rw [List.length_set]
      exact hLj.bounds x hx
    · rw [sumQ_congr (fun x hx => hget2rest x
        (hmem_rest_sell j x (by rw [hj]; exact hx)))]
      exact hLj.sumEq
  · show (b.buy_levels.set pidx _).getD 0 none = none
    rw [getD_set_ne _ _ _ (by omega)]
    exact hinv.buy0
  · intro x hx
    show x < (b.order_pool.pool.set i remaining).length
    rw [List.length_set]
    exact hinv.freeLt x (by rw [hfree]; simp [hx])
  · intro x hx hmem
    have hmem' : x ∈ i :: restingAll b := hperm.subset hmem
    rcases List.mem_cons.mp hmem' with hc | hc
    · exact hi_not_rest' (hc ▸ hx)
    · exact hinv.freeDisj x (by rw [hfree]; simp [hx]) hc
  · show (handlesOf (b.buy_levels.set pidx _) ++ handlesOf b.sell_levels).Nodup
    rw [hperm.nodup_iff]
    exact List.nodup_cons.mpr ⟨hi_not, hinv.restNodup⟩
  · show (b.order_id_to_index.set oid (some i)).length = 0 ∨
      b.max_order_id < (b.order_id_to_index.set oid (some i)).length
    rw [List.length_set]
    exact hinv.idLen
  · show (b.order_pool.pool.set i remaining).length ≤
      (b.order_id_to_index.set oid (some i)).length
    rw [List.length_set, List.length_set]
    exact hinv.poolLe

theorem ite_book (c : Prop) [Decidable c] (f : Book → Book) (B1 B2 : Book)
    (h1 : c → Inv (f B1)) (h2 : ¬ c → Inv (f B2)) :
    Inv (f (if c then B1 else B2)) := by
  by_cases hc : c
  · rw [if_pos hc]
    exact h1 hc
  · rw [if_neg hc]
    exact h2 hc

theorem restAt_inv_buy {b : Book} (hinv : Inv b) {price : Nat} (remaining : Order)
    (oid : Nat) {i pidx : Nat} {rest' : List Nat} (execs : List Execution)
    (hfree : b.order_pool.free_indices = i :: rest')
    (hpidx : b.buyPriceToIdx price = some pidx) :
    Inv (Book.restAt
      { b with
          order_pool := ⟨b.order_pool.pool.set i remaining, rest'⟩
          order_id_to_index := b.order_id_to_index.set oid (some i) }
      Side.Buy pidx i remaining execs).1 := by
  obtain ⟨-, -, hp1, hp1024⟩ := buyPriceToIdx_spec hinv.base hinv.tick hpidx
  obtain ⟨sym, pool, idmap, mid, bls, sls, bp, ts, bbi, bai, top, tqm⟩ := b
  have hbl : bls.length = PRICE_LEVELS := hinv.bid.len
  have hcache0 : bbi = findFirstSome bls 0 := hinv.bid.cache
  have hlevel0 : ∀ j lvl, bls.getD j none = some lvl → LevelInv pool lvl :=
    hinv.bid.level_ok
  have hpidx_len : pidx < bls.length := by
    rw [hbl]
    exact hp1024
  have hoccNL : ∀ NL : PriceLevel,
      ((bls.set pidx (some NL)).getD pidx none).isSome := by
    intro NL
    rw [getD_set_self _ _ _ _ hpidx_len]
    rfl
  have hcA : ∀ NL : PriceLevel, bbi = none →
      (some pidx : Option Nat) = findFirstSome (bls.set pidx (some NL)) 0 := by
    intro NL hbb
    have hall := ffs_none (hcache0.symm.trans hbb)
    refine (ffs_eq_some (Nat.zero_le pidx) (hoccNL NL) ?_).symm
    intro m _ hm
    rw [getD_set_ne _ _ _ (by omega)]
    exact hall m (Nat.zero_le m)
  have hcB : ∀ (NL : PriceLevel) (cur : Nat), bbi = some cur → pidx < cur →
      (some pidx : Option Nat) = findFirstSome (bls.set pidx (some NL)) 0 := by
    intro NL cur hbb hlt
    obtain ⟨-, hcur_len, hcur_occ, hcur_min⟩ := ffs_some (hcache0.symm.trans hbb)
    refine (ffs_eq_some (Nat.zero_le pidx) (hoccNL NL) ?_).symm
    intro m _ hm
    rw [getD_set_ne _ _ _ (by omega)]
    exact hcur_min m (Nat.zero_le m) (by omega)
  have hcC : ∀ (NL : PriceLevel) (cur : Nat), bbi = some cur → ¬ pidx < cur →
      (some cur : Option Nat) = findFirstSome (bls.set pidx (some NL)) 0 := by
    intro NL cur hbb hge
    obtain ⟨-, hcur_len, hcur_occ, hcur_min⟩ := ffs_some (hcache0.symm.trans hbb)
    by_cases hec : cur = pidx
    · subst hec
      refine (ffs_eq_some (Nat.zero_le cur) (hoccNL NL) ?_).symm
      intro m _ hm
      rw [getD_set_ne _ _ _ (by omega)]
      exact hcur_min m (Nat.zero_le m) hm
    · refine (ffs_eq_some (Nat.zero_le cur) ?_ ?_).symm
      · rw [getD_set_ne _ _ _ (fun hc => hec hc.symm)]
        exact hcur_occ
      · intro m _ hm
        rw [getD_set_ne _ _ _ (by omega)]
        exact hcur_min m (Nat.zero_le m) hm
  have hoidx : handlesOfOpt (bls.getD pidx none) = ((bls.getD pidx none).getD (PriceLevel.new remaining.price)).order_indices := by
    cases bls.getD pidx none with
    | none => rfl
    | some lvlOld => rfl
  have hsum0 : sumQ pool ((bls.getD pidx none).getD (PriceLevel.new remaining.price)).order_indices = ((bls.getD pidx none).getD (PriceLevel.new remaining.price)).total_quantity := by
    cases hslot : bls.getD pidx none with
    | none => rfl
    | some lvlOld => exact (hlevel0 pidx lvlOld hslot).sumEq
  have hbounds0 : ∀ x ∈ ((bls.getD pidx none).getD (PriceLevel.new remaining.price)).order_indices, x < pool.pool.length := by
    cases hslot : bls.getD pidx none with
    | none =>
      intro x hx
      exact absurd hx (List.not_mem_nil x)
    | some lvlOld => exact (hlevel0 pidx lvlOld hslot).bounds
  cases bbi with
  | none =>
    exact rest_core_buy hinv remaining oid i pidx rest'
      ((bls.getD pidx none).getD (PriceLevel.new remaining.price)).order_indices ((bls.getD pidx none).getD (PriceLevel.new remaining.price)).total_quantity ((bls.getD pidx none).getD (PriceLevel.new remaining.price)).price
      hfree hp1 hp1024 hoidx hsum0 hbounds0 (some pidx)
      (tqm + sumExecQty execs) (hcA _ rfl)
  | some cur =>
    exact ite_book (pidx < cur)
      (fun bm => { bm with total_quantity_matched :=
        bm.total_quantity_matched + sumExecQty execs })
      ⟨sym, ⟨pool.pool.set i remaining, rest'⟩, idmap.set oid (some i), mid,
        bls.set pidx (some ⟨((bls.getD pidx none).getD (PriceLevel.new remaining.price)).price,
          ((bls.getD pidx none).getD (PriceLevel.new remaining.price)).total_quantity + remaining.quantity,
          ((bls.getD pidx none).getD (PriceLevel.new remaining.price)).order_indices ++ [i]⟩),
        sls, bp, ts, some pidx, bai, top, tqm⟩
      ⟨sym, ⟨pool.pool.set i remaining, rest'⟩, idmap.set oid (some i), mid,
        bls.set pidx (some ⟨((bls.getD pidx none).getD (PriceLevel.new remaining.price)).price,
          ((bls.getD pidx none).getD (PriceLevel.new remaining.price)).total_quantity + remaining.quantity,
          ((bls.getD pidx none).getD (PriceLevel.new remaining.price)).order_indices ++ [i]⟩),
        sls, bp, ts, some cur, bai, top, tqm⟩
      (fun hlt => rest_core_buy hinv remaining oid i pidx rest'
        ((bls.getD pidx none).getD (PriceLevel.new remaining.price)).order_indices ((bls.getD pidx none).getD (PriceLevel.new remaining.price)).total_quantity ((bls.getD pidx none).getD (PriceLevel.new remaining.price)).price
        hfree hp1 hp1024 hoidx hsum0 hbounds0 (some pidx)
        (tqm + sumExecQty execs) (hcB _ cur rfl hlt))
      (fun hge => rest_core_buy hinv remaining oid i pidx rest'
        ((bls.getD pidx none).getD (PriceLevel.new remaining.price)).order_indices ((bls.getD pidx none).getD (PriceLevel.new remaining.price)).total_quantity ((bls.getD pidx none).getD (PriceLevel.new remaining.price)).price
        hfree hp1 hp1024 hoidx hsum0 hbounds0 (some cur)
        (tqm + sumExecQty execs) (hcC _ cur rfl hge))

theorem rest_core_sell {b : Book} (hinv : Inv b) (remaining : Order)
    (oid i pidx : Nat) (rest' : List Nat)
    (oldIdx : List Nat) (oldTotal newPrice : Nat)
    (hfree : b.order_pool.free_indices = i :: rest')
    (hp1024 : pidx < PRICE_LEVELS)
    (hoidx : handlesOfOpt (b.sell_levels.getD pidx none) = oldIdx)
    (hsum0 : sumQ b.order_pool oldIdx = oldTotal)
    (hbounds0 : ∀ x ∈ oldIdx, x < b.order_pool.pool.length) :
    ∀ (bestX : Option Nat) (tq : Nat),
      bestX = findFirstSome (b.sell_levels.set pidx
        (some ⟨newPrice, oldTotal + remaining.quantity, oldIdx ++ [i]⟩)) 0 →
      Inv { b with
              order_pool := ⟨b.order_pool.pool.set i remaining, rest'⟩
              order_id_to_index := b.order_id_to_index.set oid (some i)
              sell_levels := b.sell_levels.set pidx
                (some ⟨newPrice, oldTotal + remaining.quantity, oldIdx ++ [i]⟩)
              best_ask_idx := bestX
              total_quantity_matched := tq } := by
  intro bestX tq hcache
  have hi_lt : i < b.order_pool.pool.length :=
    hinv.freeLt i (by rw [hfree]; simp)
  have hi_not : i ∉ restingAll b := hinv.freeDisj i (by rw [hfree]; simp)
  have hfnd : (i :: rest').Nodup := hfree ▸ hinv.freeNodup
  have hi_not_rest' : i ∉ rest' := (List.nodup_cons.mp hfnd).1
  have hrest_nd : rest'.Nodup := (List.nodup_cons.mp hfnd).2
  have hpidx_len : pidx < b.sell_levels.length := by
    rw [hinv.ask.len]
    exact hp1024
  have hget2i : (OrderPool.mk (b.order_pool.pool.set i remaining) rest').get i =
      remaining := by
    unfold OrderPool.get
    exact getD_set_self _ _ _ _ hi_lt
  have hget2rest : ∀ x ∈ restingAll b,
      (OrderPool.mk (b.order_pool.pool.set i remaining) rest').get x =
        b.order_pool.get x := by
    intro x hx
    unfold OrderPool.get
    refine getD_set_ne _ _ _ (fun hc => ?_)
    exact hi_not (hc ▸ hx)
  have hmem_rest_buy : ∀ (j x : Nat),
      x ∈ handlesOfOpt (b.buy_levels.getD j none) → x ∈ restingAll b := by
    intro j x hx
    exact List.mem_append.mpr (Or.inl (mem_handlesOf_slot hx))
  have hmem_rest_sell : ∀ (j x : Nat),
      x ∈ handlesOfOpt (b.sell_levels.getD j none) → x ∈ restingAll b := by
    intro j x hx
    exact List.mem_append.mpr (Or.inr (mem_handlesOf_slot hx))
  have hmemold : ∀ x ∈ oldIdx, x ∈ restingAll b := by
    intro x hx
    exact hmem_rest_sell pidx x (by rw [hoidx]; exact hx)
  have hnewdec : handlesOf (b.sell_levels.set pidx
      (some ⟨newPrice, oldTotal + remaining.quantity, oldIdx ++ [i]⟩)) =
      handlesOf (b.sell_levels.take pidx) ++ (oldIdx ++ [i]) ++
        handlesOf (b.sell_levels.drop (pidx + 1)) := by
    rw [handlesOf_set _ _ _ hpidx_len]
    rfl
  have holddec : handlesOf b.sell_levels =
      handlesOf (b.sell_levels.take pidx) ++ oldIdx ++
        handlesOf (b.sell_levels.drop (pidx + 1)) := by
    rw [← hoidx]
    exact handlesOf_decomp _ _ hpidx_len
  have hperm : (handlesOf b.buy_levels ++ handlesOf (b.sell_levels.set pidx
      (some ⟨newPrice, oldTotal + remaining.quantity, oldIdx ++ [i]⟩))).Perm
      (i :: restingAll b) := by
    rw [hnewdec]
    have h1 := perm_insert3
      (handlesOf b.buy_levels ++ handlesOf (b.sell_levels.take pidx)) oldIdx
      (handlesOf (b.sell_levels.drop (pidx + 1))) i
    refine List.Perm.trans (perm_of_eq ?_) (h1.trans (perm_of_eq ?_))
    · simp [List.append_assoc]
    · show _ = i :: (handlesOf b.buy_levels ++ handlesOf b.sell_levels)
      rw [holddec]
      simp [List.append_assoc]
  have hsum2 : sumQ (OrderPool.mk (b.order_pool.pool.set i remaining) rest')
      (oldIdx ++ [i]) = oldTotal + remaining.quantity := by
    rw [sumQ_append, sumQ_congr (fun x hx => hget2rest x (hmemold x hx)), hsum0,
      sumQ_cons, sumQ_nil, hget2i]
    omega
  have hnewLvlInv : LevelInv (OrderPool.mk (b.order_pool.pool.set i remaining) rest')
      ⟨newPrice, oldTotal + remaining.quantity, oldIdx ++ [i]⟩ := by
    refine ⟨by simp, ?_, hsum2⟩
    intro x hx
    show x < (b.order_pool.pool.set i remaining).length
    rw [List.length_set]
    rcases List.mem_append.mp hx with hx | hx
    · exact hbounds0 x hx
    · have hxi : x = i := by simpa using hx
      subst hxi
      exact hi_lt
  refine ⟨hinv.base, hinv.tick, ⟨hinv.bid.len, hinv.bid.cache, ?_⟩,
    ⟨?_, hcache, ?_⟩, hinv.buy0, hrest_nd, ?_, ?_, ?_, ?_, ?_⟩
  · intro j lvlj hj
    have hLj := hinv.bid.level_ok j lvlj hj
    refine ⟨hLj.ne, ?_, ?_⟩
    · intro x hx
      show x < (b.order_pool.pool.set i remaining).length
      rw [List.length_set]
      exact hLj.bounds x hx
    · rw [sumQ_congr (fun x hx => hget2rest x
        (hmem_rest_buy j x (by rw [hj]; exact hx)))]
      exact hLj.sumEq
  · show (b.sell_levels.set pidx _).length = PRICE_LEVELS
    rw [List.length_set]
    exact hinv.ask.len
  · intro j lvlj hj
    by_cases hje : j = pidx
    · subst hje
      rw [getD_set_self _ _ _ _ hpidx_len] at hj
      have hlj : lvlj = ⟨newPrice, oldTotal + remaining.quantity, oldIdx ++ [i]⟩ := by
        simpa using hj.symm
      subst hlj
      exact hnewLvlInv
    · rw [getD_set_ne _ _ _ (fun hc => hje hc.symm)] at hj
      have hLj := hinv.ask.level_ok j lvlj hj
      refine ⟨hLj.ne, ?_, ?_⟩
      · intro x hx
        show x < (b.order_pool.pool.set i remaining).length
        rw [List.length_set]
        exact hLj.bounds x hx
      · rw [sumQ_congr (fun x hx => hget2rest x
          (hmem_rest_sell j x (by rw [hj]; exact hx)))]
        exact hLj.sumEq
  · intro x hx
    show x < (b.order_pool.pool.set i remaining).length
    rw [List.length_set]
    exact hinv.freeLt x (by rw [hfree]; simp [hx])
  · intro x hx hmem
    have hmem' : x ∈ i :: restingAll b := hperm.subset hmem
    rcases List.mem_cons.mp hmem' with hc | hc
    · exact hi_not_rest' (hc ▸ hx)
    · exact hinv.freeDisj x (by rw [hfree]; simp [hx]) hc
  · show (handlesOf b.buy_levels ++ handlesOf (b.sell_levels.set pidx _)).Nodup
    rw [hperm.nodup_iff]
    exact List.nodup_cons.mpr ⟨hi_not, hinv.restNodup⟩
  · show (b.order_id_to_index.set oid (some i)).length = 0 ∨
      b.max_order_id < (b.order_id_to_index.set oid (some i)).length
    rw [List.length_set]
    exact hinv.idLen
  · show (b.order_pool.pool.set i remaining).length ≤
      (b.order_id_to_index.set oid (some i)).length
    rw [List.length_set, List.length_set]
    exact hinv.poolLe

theorem restAt_inv_sell {b : Book} (hinv : Inv b) {price : Nat} (remaining : Order)
    (oid : Nat) {i pidx : Nat} {rest' : List Nat} (execs : List Execution)
    (hfree : b.order_pool.free_indices = i :: rest')
    (hpidx : b.sellPriceToIdx price = some pidx) :
    Inv (Book.restAt
      { b with
          order_pool := ⟨b.order_pool.pool.set i remaining, rest'⟩
          order_id_to_index := b.order_id_to_index.set oid (some i) }
      Side.Sell pidx i remaining execs).1 := by
  obtain ⟨-, -, hp1024⟩ := sellPriceToIdx_spec hinv.base hinv.tick hpidx
  obtain ⟨sym, pool, idmap, mid, bls, sls, bp, ts, bbi, bai, top, tqm⟩ := b
  have hal : sls.length = PRICE_LEVELS := hinv.ask.len
  have hcache0 : bai = findFirstSome sls 0 := hinv.ask.cache
  have hlevel0 : ∀ j lvl, sls.getD j none = some lvl → LevelInv pool lvl :=
    hinv.ask.level_ok
  have hpidx_len : pidx < sls.length := by
    rw [hal]
    exact hp1024
  have hoccNL : ∀ NL : PriceLevel,
      ((sls.set pidx (some NL)).getD pidx none).isSome := by
    intro NL
    rw [getD_set_self _ _ _ _ hpidx_len]
    rfl
  have hcA : ∀ NL : PriceLevel, bai = none →
      (some pidx : Option Nat) = findFirstSome (sls.set pidx (some NL)) 0 := by
    intro NL hbb
    have hall := ffs_none (hcache0.symm.trans hbb)
    refine (ffs_eq_some (Nat.zero_le pidx) (hoccNL NL) ?_).symm
    intro m _ hm
    rw [getD_set_ne _ _ _ (by omega)]
    exact hall m (Nat.zero_le m)
  have hcB : ∀ (NL : PriceLevel) (cur : Nat), bai = some cur → pidx < cur →
      (some pidx : Option Nat) = findFirstSome (sls.set pidx (some NL)) 0 := by
    intro NL cur hbb hlt
    obtain ⟨-, hcur_len, hcur_occ, hcur_min⟩ := ffs_some (hcache0.symm.trans hbb)
    refine (ffs_eq_some (Nat.zero_le pidx) (hoccNL NL) ?_).symm
    intro m _ hm
    rw [getD_set_ne _ _ _ (by omega)]
    exact hcur_min m (Nat.zero_le m) (by omega)
  have hcC : ∀ (NL : PriceLevel) (cur : Nat), bai = some cur → ¬ pidx < cur →
      (some cur : Option Nat) = findFirstSome (sls.set pidx (some NL)) 0 := by
    intro NL cur hbb hge
    obtain ⟨-, hcur_len, hcur_occ, hcur_min⟩ := ffs_some (hcache0.symm.trans hbb)
    by_cases hec : cur = pidx
    · subst hec
      refine (ffs_eq_some (Nat.zero_le cur) (hoccNL NL) ?_).symm
      intro m _ hm
      rw [getD_set_ne _ _ _ (by omega)]
      exact hcur_min m (Nat.zero_le m) hm
    · refine (ffs_eq_some (Nat.zero_le cur) ?_ ?_).symm
      · rw [getD_set_ne _ _ _ (fun hc => hec hc.symm)]
        exact hcur_occ
      · intro m _ hm
        rw [getD_set_ne _ _ _ (by omega)]
        exact hcur_min m (Nat.zero_le m) hm
  have hoidx : handlesOfOpt (sls.getD pidx none) = ((sls.getD pidx none).getD (PriceLevel.new remaining.price)).order_indices := by
    cases sls.getD pidx none with
    | none => rfl
    | some lvlOld => rfl
  have hsum0 : sumQ pool ((sls.getD pidx none).getD (PriceLevel.new remaining.price)).order_indices = ((sls.getD pidx none).getD (PriceLevel.new remaining.price)).total_quantity := by
    cases hslot : sls.getD pidx none with
    | none => rfl
    | some lvlOld => exact (hlevel0 pidx lvlOld hslot).sumEq
  have hbounds0 : ∀ x ∈ ((sls.getD pidx none).getD (PriceLevel.new remaining.price)).order_indices, x < pool.pool.length := by
    cases hslot : sls.getD pidx none with
    | none =>
      intro x hx
      exact absurd hx (List.not_mem_nil x)
    | some lvlOld => exact (hlevel0 pidx lvlOld hslot).bounds
  cases bai with
  | none =>
    exact rest_core_sell hinv remaining oid i pidx rest'
      ((sls.getD pidx none).getD (PriceLevel.new remaining.price)).order_indices ((sls.getD pidx none).getD (PriceLevel.new remaining.price)).total_quantity ((sls.getD pidx none).getD (PriceLevel.new remaining.price)).price
      hfree hp1024 hoidx hsum0 hbounds0 (some pidx)
      (tqm + sumExecQty execs) (hcA _ rfl)
  | some cur =>
    exact ite_book (pidx < cur)
      (fun bm => { bm with total_quantity_matched :=
        bm.total_quantity_matched + sumExecQty execs })
      ⟨sym, ⟨pool.pool.set i remaining, rest'⟩, idmap.set oid (some i), mid,
        bls, sls.set pidx (some ⟨((sls.getD pidx none).getD (PriceLevel.new remaining.price)).price,
          ((sls.getD pidx none).getD (PriceLevel.new remaining.price)).total_quantity + remaining.quantity,
          ((sls.getD pidx none).getD (PriceLevel.new remaining.price)).order_indices ++ [i]⟩),
        bp, ts, bbi, some pidx, top, tqm⟩
      ⟨sym, ⟨pool.pool.set i remaining, rest'⟩, idmap.set oid (some i), mid,
        bls, sls.set pidx (some ⟨((sls.getD pidx none).getD (PriceLevel.new remaining.price)).price,
          ((sls.getD pidx none).getD (PriceLevel.new remaining.price)).total_quantity + remaining.quantity,
          ((sls.getD pidx none).getD (PriceLevel.new remaining.price)).order_indices ++ [i]⟩),
        bp, ts, bbi, some cur, top, tqm⟩
      (fun hlt => rest_core_sell hinv remaining oid i pidx rest'
        ((sls.getD pidx none).getD (PriceLevel.new remaining.price)).order_indices ((sls.getD pidx none).getD (PriceLevel.new remaining.price)).total_quantity ((sls.getD pidx none).getD (PriceLevel.new remaining.price)).price
        hfree hp1024 hoidx hsum0 hbounds0 (some pidx)
        (tqm + sumExecQty execs) (hcB _ cur rfl hlt))
      (fun hge => rest_core_sell hinv remaining oid i pidx rest'
        ((sls.getD pidx none).getD (PriceLevel.new remaining.price)).order_indices ((sls.getD pidx none).getD (PriceLevel.new remaining.price)).total_quantity ((sls.getD pidx none).getD (PriceLevel.new remaining.price)).price
        hfree hp1024 hoidx hsum0 hbounds0 (some cur)
        (tqm + sumExecQty execs) (hcC _ cur rfl hge))

theorem matchLimitOrder_inv {b : Book} (hinv : Inv b) (o : Order) :
    Inv (b.matchLimitOrder o).1 := by
  rw [Book.matchLimitOrder]
  split
  · have hLF := matchLoop_facts b.sellIdxToPrice (fun p => o.price < p)
      b.buy_levels FUEL b.best_ask_idx
      ⟨b.order_pool, b.order_id_to_index, b.sell_levels, b.best_ask_idx,
        b.total_quantity_matched, o.quantity, []⟩
      (loopInv_ask hinv _ _) rfl
    exact inv_reassemble_ask hinv _ hLF.inv hLF.idLen hLF.poolLen rfl
  · have hLF := matchLoop_facts b.buyIdxToPrice (fun p => p < o.price)
      b.sell_levels FUEL b.best_bid_idx
      ⟨b.order_pool, b.order_id_to_index, b.buy_levels, b.best_bid_idx,
        b.total_quantity_matched, o.quantity, []⟩
      (loopInv_bid hinv _ _) rfl
    exact inv_reassemble_bid hinv _ hLF.inv hLF.idLen hLF.poolLen
      (hLF.noneKeep 0 hinv.buy0)

theorem matchMarketOrder_inv {b : Book} (hinv : Inv b) (o : Order) :
    Inv (b.matchMarketOrder o).1 := by
  rw [Book.matchMarketOrder]
  split
  · have hLF := matchLoop_facts b.sellIdxToPrice (fun _ => false)
      b.buy_levels FUEL b.best_ask_idx
      ⟨b.order_pool, b.order_id_to_index, b.sell_levels, b.best_ask_idx,
        b.total_quantity_matched, o.quantity, []⟩
      (loopInv_ask hinv _ _) rfl
    exact inv_reassemble_ask hinv _ hLF.inv hLF.idLen hLF.poolLen rfl
  · have hLF := matchLoop_facts b.buyIdxToPrice (fun _ => false)
      b.sell_levels FUEL b.best_bid_idx
      ⟨b.order_pool, b.order_id_to_index, b.buy_levels, b.best_bid_idx,
        b.total_quantity_matched, o.quantity, []⟩
      (loopInv_bid hinv _ _) rfl
    exact inv_reassemble_bid hinv _ hLF.inv hLF.idLen hLF.poolLen
      (hLF.noneKeep 0 hinv.buy0)

theorem addOrder_inv {b0 : Book} (hinv : Inv b0) (o : Order) :
    Inv (b0.addOrder o).1 := by
  have hb1 : Inv { b0.growForId o.order_id with
      total_orders_processed := (b0.growForId o.order_id).total_orders_processed + 1 } :=
    inv_processed (growForId_inv hinv o.order_id) _
  have hstepB : ∀ (X : Book) (rem : Order) (ex : List Execution), Inv X →
      Inv (if 0 < rem.quantity then
        match X.buyPriceToIdx o.price with
        | none => (X, Except.error OBError.priceOutOfRange)
        | some pidx =>
          match X.order_pool.allocate rem with
          | none => (X, Except.error OBError.poolFull)
          | some (i, pool1) =>
            ({ X with
                order_pool := pool1
                order_id_to_index := X.order_id_to_index.set o.order_id (some i) }
              ).restAt Side.Buy pidx i rem ex
      else
        ({ X with total_quantity_matched :=
            X.total_quantity_matched + sumExecQty ex }, Except.ok ex)).1 := by
    intro X rem ex hX
    split
    · split
      · exact hX
      · rename_i pidx hpx
        split
        · exact hX
        · rename_i i pool1 halloc
          cases hfr : X.order_pool.free_indices with
          | nil =>
            have hno : X.order_pool.allocate rem = none := by
              unfold OrderPool.allocate
              rw [hfr]
            rw [hno] at halloc
            exact absurd halloc (by simp)
          | cons j rest' =>
            have hyes : X.order_pool.allocate rem =
                some (j, ⟨X.order_pool.pool.set j rem, rest'⟩) := by
              unfold OrderPool.allocate
              rw [hfr]
            rw [hyes] at halloc
            simp only [Option.some.injEq, Prod.mk.injEq] at halloc
            obtain ⟨hj, hp⟩ := halloc
            subst hj
            subst hp
            exact restAt_inv_buy hX rem o.order_id ex hfr hpx
    · exact inv_tqm hX _
  have hstepS : ∀ (X : Book) (rem : Order) (ex : List Execution), Inv X →
      Inv (if 0 < rem.quantity then
        match X.sellPriceToIdx o.price with
        | none => (X, Except.error OBError.priceOutOfRange)
        | some pidx =>
          match X.order_pool.allocate rem with
          | none => (X, Except.error OBError.poolFull)
          | some (i, pool1) =>
            ({ X with
                order_pool := pool1
                order_id_to_index := X.order_id_to_index.set o.order_id (some i) }
              ).restAt Side.Sell pidx i rem ex
      else
        ({ X with total_quantity_matched :=
            X.total_quantity_matched + sumExecQty ex }, Except.ok ex)).1 := by
    intro X rem ex hX
    split
    · split
      · exact hX
      · rename_i pidx hpx
        split
        · exact hX
        · rename_i i pool1 halloc
          cases hfr : X.order_pool.free_indices with
          | nil =>
            have hno : X.order_pool.allocate rem = none := by
              unfold OrderPool.allocate
              rw [hfr]
            rw [hno] at halloc
            exact absurd halloc (by simp)
          | cons j rest' =>
            have hyes : X.order_pool.allocate rem =
                some (j, ⟨X.order_pool.pool.set j rem, rest'⟩) := by
              unfold OrderPool.allocate
              rw [hfr]
            rw [hyes] at halloc
            simp only [Option.some.injEq, Prod.mk.injEq] at halloc
            obtain ⟨hj, hp⟩ := halloc
            subst hj
            subst hp
            exact restAt_inv_sell hX rem o.order_id ex hfr hpx
    · exact inv_tqm hX _
  rw [Book.addOrder]
  split
  · exact growForId_inv hinv o.order_id
  · split
    · exact matchMarketOrder_inv hb1 o
    · split
      · rename_i hside
        simp only []
        rw [hside]
        refine hstepB _ _ _ ?_
        split
        · split
          · exact matchLimitOrder_inv hb1 o
          · exact hb1
        · exact hb1
      · rename_i hside
        simp only []
        rw [hside]
        refine hstepS _ _ _ ?_
        split
        · split
          · exact matchLimitOrder_inv hb1 o
          · exact hb1
        · exact hb1

theorem ffs_set_some {levels : List (Option PriceLevel)} {cur pidx : Nat}
    (NL : PriceLevel) (hffs : findFirstSome levels 0 = some cur)
    (hocc_p : (levels.getD pidx none).isSome) :
    findFirstSome (levels.set pidx (some NL)) 0 = some cur := by
  obtain ⟨-, hlen, hocc, hmin⟩ := ffs_some hffs
  have hcp : cur ≤ pidx := by
    by_contra hc
    rw [hmin pidx (Nat.zero_le _) (by omega)] at hocc_p
    exact absurd hocc_p (by simp)
  refine ffs_eq_some (Nat.zero_le _) ?_ ?_
  · by_cases he : cur = pidx
    · subst he
      rw [getD_set_self _ _ _ _ (by omega)]
      rfl
    · rw [getD_set_ne _ _ _ (fun hc => he hc.symm)]
      exact hocc
  · intro m _ hm
    rw [getD_set_ne _ _ _ (by omega)]
    exact hmin m (Nat.zero_le m) hm

theorem ffs_set_none {levels : List (Option PriceLevel)} {cur pidx : Nat}
    (hffs : findFirstSome levels 0 = some cur) (hne : cur ≠ pidx)
    (hocc_p : (levels.getD pidx none).isSome) :
    findFirstSome (levels.set pidx none) 0 = some cur := by
  obtain ⟨-, hlen, hocc, hmin⟩ := ffs_some hffs
  have hcp : cur ≤ pidx := by
    by_contra hc
    rw [hmin pidx (Nat.zero_le _) (by omega)] at hocc_p
    exact absurd hocc_p (by simp)
  refine ffs_eq_some (Nat.zero_le _) ?_ ?_
  · rw [getD_set_ne _ _ _ (fun hc => hne hc.symm)]
    exact hocc
  · intro m _ hm
    rw [getD_set_ne _ _ _ (by omega)]
    exact hmin m (Nat.zero_le m) hm

theorem perm_remove_resting {old rem : List Nat} {h : Nat}
    (hp : (h :: rem).Perm old) (A tail : List Nat) :
    (A ++ (old ++ tail)).Perm (h :: (A ++ (rem ++ tail))) := by
  have h1 : (A ++ (old ++ tail)).Perm (A ++ ((h :: rem) ++ tail)) :=
    (hp.symm.append_right tail).append_left A
  have h3 : (A ++ (h :: (rem ++ tail))).Perm (h :: (A ++ (rem ++ tail))) :=
    List.perm_middle
  exact h1.trans h3

theorem levelInv_pool_congr {p1 p2 : OrderPool} {lvl : PriceLevel}
    (hL : LevelInv p1 lvl) (hpool : p1.pool = p2.pool) : LevelInv p2 lvl := by
  refine ⟨hL.ne, ?_, ?_⟩
  · intro x hx
    rw [← hpool]
    exact hL.bounds x hx
  · have e : sumQ p2 lvl.order_indices = sumQ p1 lvl.order_indices :=
      sumQ_congr (fun x _ => by unfold OrderPool.get; rw [hpool])
    rw [e]
    exact hL.sumEq

theorem sideInv_pool_congr {p1 p2 : OrderPool}
    {levels : List (Option PriceLevel)} {best : Option Nat}
    (hS : SideInv p1 levels best) (hpool : p1.pool = p2.pool) :
    SideInv p2 levels best :=
  ⟨hS.len, hS.cache, fun i lvl hl => levelInv_pool_congr (hS.level_ok i lvl hl) hpool⟩

theorem cancel_coreB_buy {b : Book} (hinv : Inv b) (oid h pidx : Nat)
    (hp1 : 1 ≤ pidx) (lvl : PriceLevel) (pos : Nat)
    (hslot : b.buy_levels.getD pidx none = some lvl)
    (hposlt : pos < lvl.order_indices.length)
    (hposval : lvl.order_indices.getD pos 0 = h)
    (hremne : swapRemoveAt lvl.order_indices pos ≠ []) :
    Inv { b with
            buy_levels := b.buy_levels.set pidx (some ⟨lvl.price, lvl.total_quantity - (b.order_pool.get h).quantity,
      swapRemoveAt lvl.order_indices pos⟩)
            best_bid_idx := b.best_bid_idx
            order_pool := b.order_pool.deallocate h
            order_id_to_index := b.order_id_to_index.set oid none } := by
  have hL := hinv.bid.level_ok pidx lvl hslot
  have hperm := swapRemoveAt_cons_perm pos lvl.order_indices h hposlt hposval
  have hmemh : h ∈ lvl.order_indices := hperm.subset (List.mem_cons_self _ _)
  have hpidx_len : pidx < b.buy_levels.length := getD_lt_length hslot (by simp)
  have hresth : h ∈ restingAll b :=
    List.mem_append.mpr (Or.inl (mem_handlesOf_slot
      (show h ∈ handlesOfOpt (b.buy_levels.getD pidx none) by
        rw [hslot]; exact hmemh)))
  have hnotfree : h ∉ b.order_pool.free_indices := fun hc =>
    hinv.freeDisj h hc hresth
  have hsumrem : sumQ b.order_pool (swapRemoveAt lvl.order_indices pos) =
      lvl.total_quantity - (b.order_pool.get h).quantity := by
    have e1 := sumQ_perm b.order_pool hperm
    rw [sumQ_cons, hL.sumEq] at e1
    omega
  have hboundsRem : ∀ x ∈ swapRemoveAt lvl.order_indices pos, x < b.order_pool.pool.length :=
    fun x hx => hL.bounds x (hperm.subset (List.mem_cons_of_mem _ hx))
  have hnewdec : handlesOf (b.buy_levels.set pidx (some ⟨lvl.price, lvl.total_quantity - (b.order_pool.get h).quantity,
      swapRemoveAt lvl.order_indices pos⟩)) =
      handlesOf (b.buy_levels.take pidx) ++ (swapRemoveAt lvl.order_indices pos) ++
        handlesOf (b.buy_levels.drop (pidx + 1)) := by
    rw [handlesOf_set _ _ _ hpidx_len]
    rfl
  have holddec : handlesOf b.buy_levels = handlesOf (b.buy_levels.take pidx) ++
      lvl.order_indices ++ handlesOf (b.buy_levels.drop (pidx + 1)) := by
    have hdec := handlesOf_decomp b.buy_levels pidx hpidx_len
    rw [hslot] at hdec
    exact hdec
  have hP : (restingAll b).Perm
      (h :: (handlesOf (b.buy_levels.set pidx (some ⟨lvl.price, lvl.total_quantity - (b.order_pool.get h).quantity,
      swapRemoveAt lvl.order_indices pos⟩)) ++
        handlesOf b.sell_levels)) := by
    have hmid := perm_remove_resting hperm (handlesOf (b.buy_levels.take pidx))
      (handlesOf (b.buy_levels.drop (pidx + 1)) ++ handlesOf b.sell_levels)
    refine List.Perm.trans (perm_of_eq ?_) (hmid.trans (perm_of_eq ?_))
    · show handlesOf b.buy_levels ++ handlesOf b.sell_levels = _
      rw [holddec]
      simp [List.append_assoc]
    · rw [hnewdec]
      simp [List.append_assoc]
  have hPn : (h :: (handlesOf (b.buy_levels.set pidx (some ⟨lvl.price, lvl.total_quantity - (b.order_pool.get h).quantity,
      swapRemoveAt lvl.order_indices pos⟩)) ++
      handlesOf b.sell_levels)).Nodup := hP.nodup_iff.mp hinv.restNodup
  have hnotafter := (List.nodup_cons.mp hPn).1
  have haftnd := (List.nodup_cons.mp hPn).2
  have hcache2 : b.best_bid_idx =
      findFirstSome (b.buy_levels.set pidx (some ⟨lvl.price, lvl.total_quantity - (b.order_pool.get h).quantity,
      swapRemoveAt lvl.order_indices pos⟩)) 0 := by
    cases hbb : b.best_bid_idx with
    | none =>
      have hall := ffs_none (hinv.bid.cache.symm.trans hbb)
      rw [hall pidx (Nat.zero_le _)] at hslot
      exact absurd hslot (by simp)
    | some cur =>
      exact (ffs_set_some _ (hinv.bid.cache.symm.trans hbb)
        (by rw [hslot]; rfl)).symm
  refine ⟨hinv.base, hinv.tick, ⟨?_, hcache2, ?_⟩, sideInv_pool_congr hinv.ask rfl,
    ?_, ?_, ?_, ?_, haftnd, ?_, ?_⟩
  · show (b.buy_levels.set pidx _).length = PRICE_LEVELS
    rw [List.length_set]
    exact hinv.bid.len
  · intro j lvlj hj
    by_cases hje : j = pidx
    · subst hje
      rw [getD_set_self _ _ _ _ hpidx_len] at hj
      have hlj : lvlj = ⟨lvl.price, lvl.total_quantity - (b.order_pool.get h).quantity,
      swapRemoveAt lvl.order_indices pos⟩ := by
        simpa using hj.symm
      subst hlj
      exact ⟨hremne, hboundsRem, hsumrem⟩
    · rw [getD_set_ne _ _ _ (fun hc => hje hc.symm)] at hj
      exact levelInv_pool_congr (hinv.bid.level_ok j lvlj hj) rfl
  · show (b.buy_levels.set pidx _).getD 0 none = none
    rw [getD_set_ne _ _ _ (by omega)]
    exact hinv.buy0
  · exact List.nodup_cons.mpr ⟨hnotfree, hinv.freeNodup⟩
  · intro x hx
    rcases List.mem_cons.mp hx with hc | hc
    · subst hc
      exact hL.bounds x hmemh
    · exact hinv.freeLt x hc
  · intro x hx hcon
    rcases List.mem_cons.mp hx with hc | hc
    · exact hnotafter (hc ▸ hcon)
    · exact hinv.freeDisj x hc (hP.symm.subset (List.mem_cons_of_mem _ hcon))
  · show (b.order_id_to_index.set oid none).length = 0 ∨
      b.max_order_id < (b.order_id_to_index.set oid none).length
    rw [List.length_set]
    exact hinv.idLen
  · show b.order_pool.pool.length ≤ (b.order_id_to_index.set oid none).length
    rw [List.length_set]
    exact hinv.poolLe

theorem cancel_coreA_buy {b : Book} (hinv : Inv b) (oid h pidx : Nat)
    (hp1 : 1 ≤ pidx) (lvl : PriceLevel) (pos : Nat)
    (hslot : b.buy_levels.getD pidx none = some lvl)
    (hposlt : pos < lvl.order_indices.length)
    (hposval : lvl.order_indices.getD pos 0 = h)
    (hremnil : swapRemoveAt lvl.order_indices pos = []) :
    Inv { b with
            buy_levels := b.buy_levels.set pidx none
            best_bid_idx := if b.best_bid_idx = some pidx then
              findFirstSome (b.buy_levels.set pidx none) 0 else b.best_bid_idx
            order_pool := b.order_pool.deallocate h
            order_id_to_index := b.order_id_to_index.set oid none } := by
  have hL := hinv.bid.level_ok pidx lvl hslot
  have hperm := swapRemoveAt_cons_perm pos lvl.order_indices h hposlt hposval
  rw [hremnil] at hperm
  have hmemh : h ∈ lvl.order_indices := hperm.subset (List.mem_cons_self _ _)
  have hpidx_len : pidx < b.buy_levels.length := getD_lt_length hslot (by simp)
  have hresth : h ∈ restingAll b :=
    List.mem_append.mpr (Or.inl (mem_handlesOf_slot
      (show h ∈ handlesOfOpt (b.buy_levels.getD pidx none) by
        rw [hslot]; exact hmemh)))
  have hnotfree : h ∉ b.order_pool.free_indices := fun hc =>
    hinv.freeDisj h hc hresth
  have hnewdec : handlesOf (b.buy_levels.set pidx none) =
      handlesOf (b.buy_levels.take pidx) ++ ([] : List Nat) ++
        handlesOf (b.buy_levels.drop (pidx + 1)) := by
    rw [handlesOf_set _ _ _ hpidx_len]
    rfl
  have holddec : handlesOf b.buy_levels = handlesOf (b.buy_levels.take pidx) ++
      lvl.order_indices ++ handlesOf (b.buy_levels.drop (pidx + 1)) := by
    have hdec := handlesOf_decomp b.buy_levels pidx hpidx_len
    rw [hslot] at hdec
    exact hdec
  have hP : (restingAll b).Perm
      (h :: (handlesOf (b.buy_levels.set pidx none) ++ handlesOf b.sell_levels)) := by
    have hmid := perm_remove_resting hperm (handlesOf (b.buy_levels.take pidx))
      (handlesOf (b.buy_levels.drop (pidx + 1)) ++ handlesOf b.sell_levels)
    refine List.Perm.trans (perm_of_eq ?_) (hmid.trans (perm_of_eq ?_))
    · show handlesOf b.buy_levels ++ handlesOf b.sell_levels = _
      rw [holddec]
      simp [List.append_assoc]
    · rw [hnewdec]
      simp [List.append_assoc]
  have hPn : (h :: (handlesOf (b.buy_levels.set pidx none) ++
      handlesOf b.sell_levels)).Nodup := hP.nodup_iff.mp hinv.restNodup
  have hnotafter := (List.nodup_cons.mp hPn).1
  have haftnd := (List.nodup_cons.mp hPn).2
  have hcache2 : (if b.best_bid_idx = some pidx then
      findFirstSome (b.buy_levels.set pidx none) 0 else b.best_bid_idx) =
      findFirstSome (b.buy_levels.set pidx none) 0 := by
    by_cases hbp : b.best_bid_idx = some pidx
    · rw [if_pos hbp]
    · rw [if_neg hbp]
      cases hbb : b.best_bid_idx with
      | none =>
        have hall := ffs_none (hinv.bid.cache.symm.trans hbb)
        rw [hall pidx (Nat.zero_le _)] at hslot
        exact absurd hslot (by simp)
      | some cur =>
        refine (ffs_set_none (hinv.bid.cache.symm.trans hbb) ?_
          (by rw [hslot]; rfl)).symm
        intro hc
        exact hbp (hbb.trans (by rw [hc]))
  refine ⟨hinv.base, hinv.tick, ⟨?_, hcache2, ?_⟩, sideInv_pool_congr hinv.ask rfl,
    ?_, ?_, ?_, ?_, haftnd, ?_, ?_⟩
  · show (b.buy_levels.set pidx _).length = PRICE_LEVELS
    rw [List.length_set]
    exact hinv.bid.len
  · intro j lvlj hj
    by_cases hje : j = pidx
    · subst hje
      rw [getD_set_self _ _ _ _ hpidx_len] at hj
      exact absurd hj (by simp)
    · rw [getD_set_ne _ _ _ (fun hc => hje hc.symm)] at hj
      exact levelInv_pool_congr (hinv.bid.level_ok j lvlj hj) rfl
  · show (b.buy_levels.set pidx _).getD 0 none = none
    rw [getD_set_ne _ _ _ (by omega)]
    exact hinv.buy0
  · exact List.nodup_cons.mpr ⟨hnotfree, hinv.freeNodup⟩
  · intro x hx
    rcases List.mem_cons.mp hx with hc | hc
    · subst hc
      exact hL.bounds x hmemh
    · exact hinv.freeLt x hc
  · intro x hx hcon
    rcases List.mem_cons.mp hx with hc | hc
    · exact hnotafter (hc ▸ hcon)
    · exact hinv.freeDisj x hc (hP.symm.subset (List.mem_cons_of_mem _ hcon))
  · show (b.order_id_to_index.set oid none).length = 0 ∨
      b.max_order_id < (b.order_id_to_index.set oid none).length
    rw [List.length_set]
    exact hinv.idLen
  · show b.order_pool.pool.length ≤ (b.order_id_to_index.set oid none).length
    rw [List.length_set]
    exact hinv.poolLe

theorem cancel_coreB_sell {b : Book} (hinv : Inv b) (oid h pidx : Nat)
    (lvl : PriceLevel) (pos : Nat)
    (hslot : b.sell_levels.getD pidx none = some lvl)
    (hposlt : pos < lvl.order_indices.length)
    (hposval : lvl.order_indices.getD pos 0 = h)
    (hremne : swapRemoveAt lvl.order_indices pos ≠ []) :
    Inv { b with
            sell_levels := b.sell_levels.set pidx (some ⟨lvl.price, lvl.total_quantity - (b.order_pool.get h).quantity,
      swapRemoveAt lvl.order_indices pos⟩)
            best_ask_idx := b.best_ask_idx
            order_pool := b.order_pool.deallocate h
            order_id_to_index := b.order_id_to_index.set oid none } := by
  have hL := hinv.ask.level_ok pidx lvl hslot
  have hperm := swapRemoveAt_cons_perm pos lvl.order_indices h hposlt hposval
  have hmemh : h ∈ lvl.order_indices := hperm.subset (List.mem_cons_self _ _)
  have hpidx_len : pidx < b.sell_levels.length := getD_lt_length hslot (by simp)
  have hresth : h ∈ restingAll b :=
    List.mem_append.mpr (Or.inr (mem_handlesOf_slot
      (show h ∈ handlesOfOpt (b.sell_levels.getD pidx none) by
        rw [hslot]; exact hmemh)))
  have hnotfree : h ∉ b.order_pool.free_indices := fun hc =>
    hinv.freeDisj h hc hresth
  have hsumrem : sumQ b.order_pool (swapRemoveAt lvl.order_indices pos) =
      lvl.total_quantity - (b.order_pool.get h).quantity := by
    have e1 := sumQ_perm b.order_pool hperm
    rw [sumQ_cons, hL.sumEq] at e1
    omega
  have hboundsRem : ∀ x ∈ swapRemoveAt lvl.order_indices pos, x < b.order_pool.pool.length :=
    fun x hx => hL.bounds x (hperm.subset (List.mem_cons_of_mem _ hx))
  have hnewdec : handlesOf (b.sell_levels.set pidx (some ⟨lvl.price, lvl.total_quantity - (b.order_pool.get h).quantity,
      swapRemoveAt lvl.order_indices pos⟩)) =
      handlesOf (b.sell_levels.take pidx) ++ (swapRemoveAt lvl.order_indices pos) ++
        handlesOf (b.sell_levels.drop (pidx + 1)) := by
    rw [handlesOf_set _ _ _ hpidx_len]
    rfl
  have holddec : handlesOf b.sell_levels = handlesOf (b.sell_levels.take pidx) ++
      lvl.order_indices ++ handlesOf (b.sell_levels.drop (pidx + 1)) := by
    have hdec := handlesOf_decomp b.sell_levels pidx hpidx_len
    rw [hslot] at hdec
    exact hdec
  have hP : (restingAll b).Perm
      (h :: (handlesOf b.buy_levels ++
        handlesOf (b.sell_levels.set pidx (some ⟨lvl.price, lvl.total_quantity - (b.order_pool.get h).quantity,
      swapRemoveAt lvl.order_indices pos⟩)))) := by
    have hmid := perm_remove_resting hperm
      (handlesOf b.buy_levels ++ handlesOf (b.sell_levels.take pidx))
      (handlesOf (b.sell_levels.drop (pidx + 1)))
    refine List.Perm.trans (perm_of_eq ?_) (hmid.trans (perm_of_eq ?_))
    · show handlesOf b.buy_levels ++ handlesOf b.sell_levels = _
      rw [holddec]
      simp [List.append_assoc]
    · rw [hnewdec]
      simp [List.append_assoc]
  have hPn : (h :: (handlesOf b.buy_levels ++
      handlesOf (b.sell_levels.set pidx (some ⟨lvl.price, lvl.total_quantity - (b.order_pool.get h).quantity,
      swapRemoveAt lvl.order_indices pos⟩)))).Nodup :=
    hP.nodup_iff.mp hinv.restNodup
  have hnotafter := (List.nodup_cons.mp hPn).1
  have haftnd := (List.nodup_cons.mp hPn).2
  have hcache2 : b.best_ask_idx =
      findFirstSome (b.sell_levels.set pidx (some ⟨lvl.price, lvl.total_quantity - (b.order_pool.get h).quantity,
      swapRemoveAt lvl.order_indices pos⟩)) 0 := by
    cases hbb : b.best_ask_idx with
    | none =>
      have hall := ffs_none (hinv.ask.cache.symm.trans hbb)
      rw [hall pidx (Nat.zero_le _)] at hslot
      exact absurd hslot (by simp)
    | some cur =>
      exact (ffs_set_some _ (hinv.ask.cache.symm.trans hbb)
        (by rw [hslot]; rfl)).symm
  refine ⟨hinv.base, hinv.tick, sideInv_pool_congr hinv.bid rfl, ⟨?_, hcache2, ?_⟩,
    hinv.buy0, ?_, ?_, ?_, haftnd, ?_, ?_⟩
  · show (b.sell_levels.set pidx _).length = PRICE_LEVELS
    rw [List.length_set]
    exact hinv.ask.len
  · intro j lvlj hj
    by_cases hje : j = pidx
    · subst hje
      rw [getD_set_self _ _ _ _ hpidx_len] at hj
      have hlj : lvlj = ⟨lvl.price, lvl.total_quantity - (b.order_pool.get h).quantity,
      swapRemoveAt lvl.order_indices pos⟩ := by
        simpa using hj.symm
      subst hlj
      exact ⟨hremne, hboundsRem, hsumrem⟩
    · rw [getD_set_ne _ _ _ (fun hc => hje hc.symm)] at hj
      exact levelInv_pool_congr (hinv.ask.level_ok j lvlj hj) rfl
  · exact List.nodup_cons.mpr ⟨hnotfree, hinv.freeNodup⟩
  · intro x hx
    rcases List.mem_cons.mp hx with hc | hc
    · subst hc
      exact hL.bounds x hmemh
    · exact hinv.freeLt x hc
  · intro x hx hcon
    rcases List.mem_cons.mp hx with hc | hc
    · exact hnotafter (hc ▸ hcon)
    · exact hinv.freeDisj x hc (hP.symm.subset (List.mem_cons_of_mem _ hcon))
  · show (b.order_id_to_index.set oid none).length = 0 ∨
      b.max_order_id < (b.order_id_to_index.set oid none).length
    rw [List.length_set]
    exact hinv.idLen
  · show b.order_pool.pool.length ≤ (b.order_id_to_index.set oid none).length
    rw [List.length_set]
    exact hinv.poolLe

theorem cancel_coreA_sell {b : Book} (hinv : Inv b) (oid h pidx : Nat)
    (lvl : PriceLevel) (pos : Nat)
    (hslot : b.sell_levels.getD pidx none = some lvl)
    (hposlt : pos < lvl.order_indices.length)
    (hposval : lvl.order_indices.getD pos 0 = h)
    (hremnil : swapRemoveAt lvl.order_indices pos = []) :
    Inv { b with
            sell_levels := b.sell_levels.set pidx none
            best_ask_idx := if b.best_ask_idx = some pidx then
              findFirstSome (b.sell_levels.set pidx none) 0 else b.best_ask_idx
            order_pool := b.order_pool.deallocate h
            order_id_to_index := b.order_id_to_index.set oid none } := by
  have hL := hinv.ask.level_ok pidx lvl hslot
  have hperm := swapRemoveAt_cons_perm pos lvl.order_indices h hposlt hposval
  rw [hremnil] at hperm
  have hmemh : h ∈ lvl.order_indices := hperm.subset (List.mem_cons_self _ _)
  have hpidx_len : pidx < b.sell_levels.length := getD_lt_length hslot (by simp)
  have hresth : h ∈ restingAll b :=
    List.mem_append.mpr (Or.inr (mem_handlesOf_slot
      (show h ∈ handlesOfOpt (b.sell_levels.getD pidx none) by
        rw [hslot]; exact hmemh)))
  have hnotfree : h ∉ b.order_pool.free_indices := fun hc =>
    hinv.freeDisj h hc hresth
  have hnewdec : handlesOf (b.sell_levels.set pidx none) =
      handlesOf (b.sell_levels.take pidx) ++ ([] : List Nat) ++
        handlesOf (b.sell_levels.drop (pidx + 1)) := by
    rw [handlesOf_set _ _ _ hpidx_len]
    rfl
  have holddec : handlesOf b.sell_levels = handlesOf (b.sell_levels.take pidx) ++
      lvl.order_indices ++ handlesOf (b.sell_levels.drop (pidx + 1)) := by
    have hdec := handlesOf_decomp b.sell_levels pidx hpidx_len
    rw [hslot] at hdec
    exact hdec
  have hP : (restingAll b).Perm
      (h :: (handlesOf b.buy_levels ++ handlesOf (b.sell_levels.set pidx none))) := by
    have hmid := perm_remove_resting hperm
      (handlesOf b.buy_levels ++ handlesOf (b.sell_levels.take pidx))
      (handlesOf (b.sell_levels.drop (pidx + 1)))
    refine List.Perm.trans (perm_of_eq ?_) (hmid.trans (perm_of_eq ?_))
    · show handlesOf b.buy_levels ++ handlesOf b.sell_levels = _
      rw [holddec]
      simp [List.append_assoc]
    · rw [hnewdec]
      simp [List.append_assoc]
  have hPn : (h :: (handlesOf b.buy_levels ++
      handlesOf (b.sell_levels.set pidx none))).Nodup :=
    hP.nodup_iff.mp hinv.restNodup
  have hnotafter := (List.nodup_cons.mp hPn).1
  have haftnd := (List.nodup_cons.mp hPn).2
  have hcache2 : (if b.best_ask_idx = some pidx then
      findFirstSome (b.sell_levels.set pidx none) 0 else b.best_ask_idx) =
      findFirstSome (b.sell_levels.set pidx none) 0 := by
    by_cases hbp : b.best_ask_idx = some pidx
    · rw [if_pos hbp]
    · rw [if_neg hbp]
      cases hbb : b.best_ask_idx with
      | none =>
        have hall := ffs_none (hinv.ask.cache.symm.trans hbb)
        rw [hall pidx (Nat.zero_le _)] at hslot
        exact absurd hslot (by simp)
      | some cur =>
        refine (ffs_set_none (hinv.ask.cache.symm.trans hbb) ?_
          (by rw [hslot]; rfl)).symm
        intro hc
        exact hbp (hbb.trans (by rw [hc]))
  refine ⟨hinv.base, hinv.tick, sideInv_pool_congr hinv.bid rfl, ⟨?_, hcache2, ?_⟩,
    hinv.buy0, ?_, ?_, ?_, haftnd, ?_, ?_⟩
  · show (b.sell_levels.set pidx _).length = PRICE_LEVELS
    rw [List.length_set]
    exact hinv.ask.len
  · intro j lvlj hj
    by_cases hje : j = pidx
    · subst hje
      rw [getD_set_self _ _ _ _ hpidx_len] at hj
      exact absurd hj (by simp)
    · rw [getD_set_ne _ _ _ (fun hc => hje hc.symm)] at hj
      exact levelInv_pool_congr (hinv.ask.level_ok j lvlj hj) rfl
  · exact List.nodup_cons.mpr ⟨hnotfree, hinv.freeNodup⟩
  · intro x hx
    rcases List.mem_cons.mp hx with hc | hc
    · subst hc
      exact hL.bounds x hmemh
    · exact hinv.freeLt x hc
  · intro x hx hcon
    rcases List.mem_cons.mp hx with hc | hc
    · exact hnotafter (hc ▸ hcon)
    · exact hinv.freeDisj x hc (hP.symm.subset (List.mem_cons_of_mem _ hcon))
  · show (b.order_id_to_index.set oid none).length = 0 ∨
      b.max_order_id < (b.order_id_to_index.set oid none).length
    rw [List.length_set]
    exact hinv.idLen
  · show b.order_pool.pool.length ≤ (b.order_id_to_index.set oid none).length
    rw [List.length_set]
    exact hinv.poolLe

theorem cancelOrder_inv {b : Book} (hinv : Inv b) (oid : Nat) :
    Inv (b.cancelOrder oid).1 := by
  rw [Book.cancelOrder]
  split
  · exact hinv
  · split
    · exact hinv
    · rename_i h hmap
      simp only []
      split
      · split
        · exact hinv
        · rename_i pidx hpidx
          obtain ⟨-, -, hp1, -⟩ := buyPriceToIdx_spec hinv.base hinv.tick hpidx
          split
          · exact hinv
          · rename_i levels1 best1 hcfl
            rw [cancelFromLevels] at hcfl
            split at hcfl
            · exact absurd hcfl (by simp)
            · rename_i lvl hslot
              simp only [] at hcfl
              cases hfind : lvl.order_indices.findIdx? (fun x => x = h) with
              | none =>
                have hro : lvl.removeOrder h (b.order_pool.get h).quantity =
                    (lvl, false) := by
                  rw [PriceLevel.removeOrder, hfind]
                rw [hro] at hcfl
                simp at hcfl
              | some pos =>
                obtain ⟨hposlt, hposval⟩ := findIdxQ_some0 hfind
                have hro : lvl.removeOrder h (b.order_pool.get h).quantity =
                    (⟨lvl.price,
                      lvl.total_quantity - (b.order_pool.get h).quantity,
                      swapRemoveAt lvl.order_indices pos⟩, true) := by
                  rw [PriceLevel.removeOrder, hfind]
                rw [hro] at hcfl
                rw [if_pos rfl] at hcfl
                split at hcfl
                · rename_i hempty
                  have hremnil : swapRemoveAt lvl.order_indices pos = [] := by
                    simpa [PriceLevel.isEmptyLevel, List.isEmpty_iff] using hempty
                  simp only [Except.ok.injEq, Prod.mk.injEq] at hcfl
                  obtain ⟨hl1, hb1⟩ := hcfl
                  subst hl1
                  subst hb1
                  exact cancel_coreA_buy hinv oid h pidx hp1 lvl pos hslot
                    hposlt hposval hremnil
                · rename_i hnempty
                  have hremne : swapRemoveAt lvl.order_indices pos ≠ [] := fun hc =>
                    hnempty (by simp [PriceLevel.isEmptyLevel, hc])
                  simp only [Except.ok.injEq, Prod.mk.injEq] at hcfl
                  obtain ⟨hl1, hb1⟩ := hcfl
                  subst hl1
                  subst hb1
                  exact cancel_coreB_buy hinv oid h pidx hp1 lvl pos hslot
                    hposlt hposval hremne
      · split
        · exact hinv
        · rename_i pidx hpidx
          split
          · exact hinv
          · rename_i levels1 best1 hcfl
            rw [cancelFromLevels] at hcfl
            split at hcfl
            · exact absurd hcfl (by simp)
            · rename_i lvl hslot
              simp only [] at hcfl
              cases hfind : lvl.order_indices.findIdx? (fun x => x = h) with
              | none =>
                have hro : lvl.removeOrder h (b.order_pool.get h).quantity =
                    (lvl, false) := by
                  rw [PriceLevel.removeOrder, hfind]
                rw [hro] at hcfl
                simp at hcfl
              | some pos =>
                obtain ⟨hposlt, hposval⟩ := findIdxQ_some0 hfind
                have hro : lvl.removeOrder h (b.order_pool.get h).quantity =
                    (⟨lvl.price,
                      lvl.total_quantity - (b.order_pool.get h).quantity,
                      swapRemoveAt lvl.order_indices pos⟩, true) := by
                  rw [PriceLevel.removeOrder, hfind]
                rw [hro] at hcfl
                rw [if_pos rfl] at hcfl
                split at hcfl
                · rename_i hempty
                  have hremnil : swapRemoveAt lvl.order_indices pos = [] := by
                    simpa [PriceLevel.isEmptyLevel, List.isEmpty_iff] using hempty
                  simp only [Except.ok.injEq, Prod.mk.injEq] at hcfl
                  obtain ⟨hl1, hb1⟩ := hcfl
                  subst hl1
                  subst hb1
                  exact cancel_coreA_sell hinv oid h pidx lvl pos hslot
                    hposlt hposval hremnil
                · rename_i hnempty
                  have hremne : swapRemoveAt lvl.order_indices pos ≠ [] := fun hc =>
                    hnempty (by simp [PriceLevel.isEmptyLevel, hc])
                  simp only [Except.ok.injEq, Prod.mk.injEq] at hcfl
                  obtain ⟨hl1, hb1⟩ := hcfl
                  subst hl1
                  subst hb1
                  exact cancel_coreB_sell hinv oid h pidx lvl pos hslot
                    hposlt hposval hremne

theorem reachable_inv {b : Book} (hr : Reachable b) : Inv b := by
  induction hr with
  | init symbol capacity => exact bookNew_inv symbol capacity
  | add o hb ih => exact addOrder_inv ih o
  | cancel id hb ih => exact cancelOrder_inv ih id

theorem isMinOccupied_of_cache {levels : List (Option PriceLevel)}
    {best : Option Nat} (hc : best = findFirstSome levels 0) :
    IsMinOccupied best levels := by
  cases best with
  | none =>
    intro j hj
    exact ffs_none hc.symm j (Nat.zero_le j)
  | some i =>
    obtain ⟨-, hlen, hocc, hmin⟩ := ffs_some hc.symm
    exact ⟨hocc, fun j hj => hmin j (Nat.zero_le j) hj⟩

/-- C4: in every reachable book state the cached best-bid index is the minimum
occupied index of the buy level array (or absent when none is occupied), and
symmetrically for the cached best-ask index on the sell side. -/
theorem best_caches_are_min_occupied {b : Book} (hr : Reachable b) :
    IsMinOccupied b.best_bid_idx b.buy_levels ∧
      IsMinOccupied b.best_ask_idx b.sell_levels :=
  ⟨isMinOccupied_of_cache (reachable_inv hr).bid.cache,
    isMinOccupied_of_cache (reachable_inv hr).ask.cache⟩

theorem best_caches_are_min_occupied_witness :
    IsMinOccupied bookTwoBids.best_bid_idx bookTwoBids.buy_levels ∧
      IsMinOccupied bookTwoBids.best_ask_idx bookTwoBids.sell_levels :=
  best_caches_are_min_occupied
    (Reachable.add (mkOrder 2 9920 10 Side.Buy OrderType.Limit)
      (Reachable.add (mkOrder 1 9900 10 Side.Buy OrderType.Limit)
        (Reachable.init "PTP" 16)))

theorem all_levelSum {p : OrderPool} {levels : List (Option PriceLevel)}
    (hok : ∀ i lvl, levels.getD i none = some lvl → LevelInv p lvl) :
    levels.all (levelSumOkB p) = true := by
  rw [List.all_eq_true]
  intro x hx
  obtain ⟨j, hj, hjx⟩ := List.mem_iff_getElem.mp hx
  cases x with
  | none => rfl
  | some lvl =>
    have hg : levels.getD j none = some lvl := by
      simp [List.getD, List.getElem?_eq_getElem hj, hjx]
    have hL := hok j lvl hg
    show (sumQ p lvl.order_indices == lvl.total_quantity) = true
    simp [hL.sumEq]

/-- C5: in every reachable book state, every occupied price level on either
side stores a `total_quantity` equal to the sum of the pool quantities of the
orders in its FIFO (spec I2). -/
theorem level_quantity_sums_consistent {b : Book} (hr : Reachable b) :
    levelsSumConsistent b = true := by
  have hinv := reachable_inv hr
  unfold levelsSumConsistent
  rw [all_levelSum hinv.bid.level_ok, all_levelSum hinv.ask.level_ok]
  rfl

theorem level_quantity_sums_consistent_witness :
    levelsSumConsistent bookTwoBids = true :=
  level_quantity_sums_consistent
    (Reachable.add (mkOrder 2 9920 10 Side.Buy OrderType.Limit)
      (Reachable.add (mkOrder 1 9900 10 Side.Buy OrderType.Limit)
        (Reachable.init "PTP" 16)))

/-- C6: after every sequence of admits and cancels the book is uncrossed:
`is_crossed` returns `false` (when both bests exist the best bid price is
strictly below the best ask price, since resting bids live strictly below
`base_price` and resting asks at or above it). -/
theorem book_never_crossed {b : Book} (hr : Reachable b) :
    b.isCrossed = false := by
  have hinv := reachable_inv hr
  unfold Book.isCrossed Book.bestBid Book.bestAsk
  cases hbb : b.best_bid_idx with
  | none => rfl
  | some bi =>
    cases hba : b.best_ask_idx with
    | none => rfl
    | some ai =>
      have hbi1 : 1 ≤ bi := by
        obtain ⟨-, hlen, hocc, hmin⟩ := ffs_some (hinv.bid.cache.symm.trans hbb)
        by_contra hc
        have hbi0 : bi = 0 := by omega
        rw [hbi0, hinv.buy0] at hocc
        exact absurd hocc (by simp)
      show decide (b.sellIdxToPrice ai ≤ b.buyIdxToPrice bi) = false
      rw [decide_eq_false_iff_not]
      unfold Book.sellIdxToPrice Book.buyIdxToPrice
      rw [hinv.base, hinv.tick]
      simp only [Nat.mul_one]
      omega

theorem book_never_crossed_witness :
    (((bookTwoBids.addOrder
      (mkOrder 3 10050 5 Side.Sell OrderType.Limit)).1).isCrossed) = false :=
  book_never_crossed
    (Reachable.add (mkOrder 3 10050 5 Side.Sell OrderType.Limit)
      (Reachable.add (mkOrder 2 9920 10 Side.Buy OrderType.Limit)
        (Reachable.add (mkOrder 1 9900 10 Side.Buy OrderType.Limit)
          (Reachable.init "PTP" 16))))

theorem restAt_snd (b : Book) (side : Side) (pidx i : Nat) (remaining : Order)
    (execs : List Execution) :
    (b.restAt side pidx i remaining execs).2 = Except.ok execs := by
  cases side <;> rfl

theorem addOrder_never_levelFull (b0 : Book) (o : Order) :
    (b0.addOrder o).2 ≠ Except.error OBError.levelFull := by
  rw [Book.addOrder]
  split
  · simp
  · split
    · simp
    · split
      · rename_i hside
        simp only []
        rw [hside]
        split
        · split
          · simp
          · split
            · simp
            · simp [restAt_snd]
        · simp
      · rename_i hside
        simp only []
        rw [hside]
        split
        · split
          · simp
          · split
            · simp
            · simp [restAt_snd]
        · simp

/-- C10: `PriceLevel::add_order` unconditionally pushes the handle and returns
`true`, so the `LevelFull` error branch of `add_order` is dead code: no admit
call ever returns the `LevelFull` error. -/
theorem levelFull_unreachable :
    (∀ (lvl : PriceLevel) (i q : Nat), (lvl.addOrder i q).2 = true) ∧
      ∀ (b0 : Book) (o : Order),
        (b0.addOrder o).2 ≠ Except.error OBError.levelFull :=
  ⟨fun _ _ _ => rfl, addOrder_never_levelFull⟩

theorem growForId_eq (b : Book) (id : Nat) :
    ∃ im mx, b.growForId id = { b with order_id_to_index := im, max_order_id := mx } := by
  unfold Book.growForId
  split
  · split
    · exact ⟨_, _, rfl⟩
    · exact ⟨b.order_id_to_index, b.max_order_id, rfl⟩
  · exact ⟨b.order_id_to_index, b.max_order_id, rfl⟩

theorem matchLoop_none (priceOf : Nat → Nat) (stopAt : Nat → Bool) (fuel : Nat)
    (cur : Option Nat) (st : MatchState) (hc : cur = none) :
    matchLoop priceOf stopAt fuel cur st = st := by
  subst hc
  cases fuel with
  | zero => rw [matchLoop]
  | succ n => rw [matchLoop]

/-- C9 (amended): after a successful market-order admit the id index holds no
mapping for the order's id (the residual never rests); a market order admitted
against an empty opposite side returns an empty execution list and leaves the
book unchanged except for the id-index growth prologue and the
`total_orders_processed` counter, which the call does increment. -/
theorem market_never_rests {b : Book} (o : Order)
    (ht : o.order_type = OrderType.Market)
    (hdup : (b.growForId o.order_id).order_id_to_index.getD o.order_id none = none) :
    (b.addOrder o).1.order_id_to_index.getD o.order_id none = none ∧
    ((match o.side with
        | Side.Buy => b.best_ask_idx
        | Side.Sell => b.best_bid_idx) = none →
      b.addOrder o =
        ({ b.growForId o.order_id with
            total_orders_processed :=
              (b.growForId o.order_id).total_orders_processed + 1 },
          Except.ok [])) := by
  constructor
  · rw [Book.addOrder, if_neg (by rw [hdup]; simp), if_pos ht, Book.matchMarketOrder]
    split
    · obtain ⟨-, hidf, -, -⟩ := matchLoop_frames (b.growForId o.order_id).sellIdxToPrice
        (fun _ => false) FUEL (b.growForId o.order_id).best_ask_idx
        ⟨(b.growForId o.order_id).order_pool,
          (b.growForId o.order_id).order_id_to_index,
          (b.growForId o.order_id).sell_levels,
          (b.growForId o.order_id).best_ask_idx,
          (b.growForId o.order_id).total_quantity_matched, o.quantity, []⟩
      rcases hidf o.order_id with h1 | h1
      · exact h1.trans hdup
      · exact h1
    · obtain ⟨-, hidf, -, -⟩ := matchLoop_frames (b.growForId o.order_id).buyIdxToPrice
        (fun _ => false) FUEL (b.growForId o.order_id).best_bid_idx
        ⟨(b.growForId o.order_id).order_pool,
          (b.growForId o.order_id).order_id_to_index,
          (b.growForId o.order_id).buy_levels,
          (b.growForId o.order_id).best_bid_idx,
          (b.growForId o.order_id).total_quantity_matched, o.quantity, []⟩
      rcases hidf o.order_id with h1 | h1
      · exact h1.trans hdup
      · exact h1
  · intro hempty
    cases hs : o.side with
    | Buy =>
      rw [hs] at hempty
      have hba1 : (b.growForId o.order_id).best_ask_idx = none := by
        obtain ⟨im, mx, hg⟩ := growForId_eq b o.order_id
        rw [hg]
        exact hempty
      rw [Book.addOrder, if_neg (by rw [hdup]; simp), if_pos ht,
        Book.matchMarketOrder, hs]
      simp only []
      rw [matchLoop_none _ _ _ _ _ hba1]
    | Sell =>
      rw [hs] at hempty
      have hbb1 : (b.growForId o.order_id).best_bid_idx = none := by
        obtain ⟨im, mx, hg⟩ := growForId_eq b o.order_id
        rw [hg]
        exact hempty
      rw [Book.addOrder, if_neg (by rw [hdup]; simp), if_pos ht,
        Book.matchMarketOrder, hs]
      simp only []
      rw [matchLoop_none _ _ _ _ _ hbb1]

theorem market_never_rests_witness :
    (((Book.new "W" 4).addOrder
        (mkOrder 1 10000 3 Side.Buy OrderType.Market)).1.order_id_to_index.getD
      1 none = none) ∧
    ((match (mkOrder 1 10000 3 Side.Buy OrderType.Market).side with
        | Side.Buy => (Book.new "W" 4).best_ask_idx
        | Side.Sell => (Book.new "W" 4).best_bid_idx) = none →
      (Book.new "W" 4).addOrder (mkOrder 1 10000 3 Side.Buy OrderType.Market) =
        ({ (Book.new "W" 4).growForId 1 with
            total_orders_processed :=
              ((Book.new "W" 4).growForId 1).total_orders_processed + 1 },
          Except.ok [])) :=
  market_never_rests (mkOrder 1 10000 3 Side.Buy OrderType.Market) rfl (by decide)

theorem buyPriceToIdx_none_of_ge {B : Book} {price : Nat}
    (hge : B.base_price ≤ price) : B.buyPriceToIdx price = none := by
  unfold Book.buyPriceToIdx
  rw [if_pos hge]

/-- C3 (amended): a buy limit at the base price 10000 whose quantity cannot be
fully matched is rejected with `PriceOutOfRange` whenever no ask rests exactly
at the base offset, and a sell limit at the base price with a fresh id and a
free pool slot is admitted (the buy window is `price < base_price`, the sell
window `price >= base_price`); when an ask rests at the base price itself, a
buy at the base price can instead fully fill and succeed. -/
theorem base_price_boundary {b : Book} (hr : Reachable b) (o : Order)
    (hp : o.price = 10000) (ht : o.order_type = OrderType.Limit)
    (hdup : (b.growForId o.order_id).order_id_to_index.getD o.order_id none = none) :
    (o.side = Side.Buy → 0 < o.quantity → b.best_ask_idx ≠ some 0 →
      (b.addOrder o).2 = Except.error OBError.priceOutOfRange) ∧
    (o.side = Side.Sell → b.order_pool.free_indices ≠ [] →
      (b.addOrder o).2 = Except.ok []) := by
  have hinv := reachable_inv hr
  obtain ⟨im, mx, hg⟩ := growForId_eq b o.order_id
  have hdup2 : ({ b with order_id_to_index := im, max_order_id := mx } :
      Book).order_id_to_index.getD o.order_id none = none := by
    rw [← hg]
    exact hdup
  have hbge : b.base_price ≤ o.price := by
    rw [hp, hinv.base]
  constructor
  · intro hside hq hna
    have hfinB0 : ∀ (X : Book) (rem : Order) (ex : List Execution),
        X.buyPriceToIdx o.price = none →
        (match X.buyPriceToIdx o.price with
          | none => (X, Except.error OBError.priceOutOfRange)
          | some pidx =>
            match X.order_pool.allocate rem with
            | none => (X, Except.error OBError.poolFull)
            | some (i, pool1) =>
              ({ X with
                  order_pool := pool1
                  order_id_to_index := X.order_id_to_index.set o.order_id (some i) }
                ).restAt Side.Buy pidx i rem ex).2 =
        Except.error OBError.priceOutOfRange := by
      intro X rem ex hbp
      rw [hbp]
    have hfinB : ∀ (X : Book) (rem : Order) (ex : List Execution),
        X.buyPriceToIdx o.price = none → 0 < rem.quantity →
        (if 0 < rem.quantity then
          match X.buyPriceToIdx o.price with
          | none => (X, Except.error OBError.priceOutOfRange)
          | some pidx =>
            match X.order_pool.allocate rem with
            | none => (X, Except.error OBError.poolFull)
            | some (i, pool1) =>
              ({ X with
                  order_pool := pool1
                  order_id_to_index := X.order_id_to_index.set o.order_id (some i) }
                ).restAt Side.Buy pidx i rem ex
        else
          ({ X with total_quantity_matched :=
              X.total_quantity_matched + sumExecQty ex }, Except.ok ex)).2 =
        Except.error OBError.priceOutOfRange := by
      intro X rem ex hbp hrem
      rw [if_pos hrem, hbp]
    rw [Book.addOrder, hg, if_neg (by rw [hdup2]; simp),
      if_neg (by rw [ht]; simp), hside]
    simp only []
    cases hba : b.best_ask_idx with
    | none =>
      simp only []
      exact hfinB _ _ _ (buyPriceToIdx_none_of_ge hbge) hq
    | some ai =>
      simp only []
      have hai : ai ≠ 0 := fun h0 => hna (hba.trans (by rw [h0]))
      split
      · rename_i hcross
        have hcross2 : b.sellIdxToPrice ai ≤ o.price := hcross
        unfold Book.sellIdxToPrice at hcross2
        rw [hinv.base, hinv.tick, hp] at hcross2
        omega
      · exact hfinB0 _ _ _ (buyPriceToIdx_none_of_ge hbge)
  · intro hside hfree
    have hsp : b.sellPriceToIdx o.price = some 0 := by
      unfold Book.sellPriceToIdx
      rw [hp, hinv.base, hinv.tick]
      rfl
    have hfinS : ∀ (X : Book) (rem : Order) (ex : List Execution),
        X.sellPriceToIdx o.price = some 0 →
        X.order_pool.free_indices = b.order_pool.free_indices →
        ex = [] →
        (if 0 < rem.quantity then
          match X.sellPriceToIdx o.price with
          | none => (X, Except.error OBError.priceOutOfRange)
          | some pidx =>
            match X.order_pool.allocate rem with
            | none => (X, Except.error OBError.poolFull)
            | some (i, pool1) =>
              ({ X with
                  order_pool := pool1
                  order_id_to_index := X.order_id_to_index.set o.order_id (some i) }
                ).restAt Side.Sell pidx i rem ex
        else
          ({ X with total_quantity_matched :=
              X.total_quantity_matched + sumExecQty ex }, Except.ok ex)).2 =
        Except.ok [] := by
      intro X rem ex hsp2 hfr hex
      subst hex
      split
      · rw [hsp2]
        cases hb : b.order_pool.free_indices with
        | nil => exact absurd hb hfree
        | cons i r =>
          have halloc : X.order_pool.allocate rem =
              some (i, ⟨X.order_pool.pool.set i rem, r⟩) := by
            unfold OrderPool.allocate
            rw [hfr, hb]
          rw [halloc]
          simp only []
          rw [restAt_snd]
      · rfl
    rw [Book.addOrder, hg, if_neg (by rw [hdup2]; simp),
      if_neg (by rw [ht]; simp), hside]
    simp only []
    cases hbb : b.best_bid_idx with
    | none =>
      simp only []
      exact hfinS _ _ _ hsp rfl rfl
    | some bi =>
      simp only []
      have hbi1 : 1 ≤ bi := by
        obtain ⟨-, hlen, hocc, hmin⟩ := ffs_some (hinv.bid.cache.symm.trans hbb)
        by_contra hc
        have hbi0 : bi = 0 := by omega
        rw [hbi0, hinv.buy0] at hocc
        exact absurd hocc (by simp)
      split
      · rename_i hcross
        have hcross2 : o.price ≤ b.buyIdxToPrice bi := hcross
        unfold Book.buyIdxToPrice at hcross2
        rw [hinv.base, hinv.tick, hp] at hcross2
        omega
      · exact hfinS _ _ _ hsp rfl rfl

theorem base_price_boundary_witness :
    (((mkOrder 1 10000 5 Side.Buy OrderType.Limit).side = Side.Buy →
      0 < (mkOrder 1 10000 5 Side.Buy OrderType.Limit).quantity →
      (Book.new "W" 8).best_ask_idx ≠ some 0 →
      ((Book.new "W" 8).addOrder (mkOrder 1 10000 5 Side.Buy OrderType.Limit)).2 =
        Except.error OBError.priceOutOfRange) ∧
    ((mkOrder 1 10000 5 Side.Buy OrderType.Limit).side = Side.Sell →
      (Book.new "W" 8).order_pool.free_indices ≠ [] →
      ((Book.new "W" 8).addOrder (mkOrder 1 10000 5 Side.Buy OrderType.Limit)).2 =
        Except.ok [])) :=
  base_price_boundary (Reachable.init "W" 8)
    (mkOrder 1 10000 5 Side.Buy OrderType.Limit) rfl rfl (by decide)

theorem swapRemoveAt_append_last (xs : List Nat) (t : Nat) :
    swapRemoveAt (xs ++ [t]) xs.length = xs := by
  unfold swapRemoveAt
  have hlast : (xs ++ [t]).getLastD 0 = t := by
    rw [List.getLastD_eq_getLast?, List.getLast?_append]
    rfl
  have hset : (xs ++ [t]).set xs.length t = xs ++ [t] := by
    have hv : (xs ++ [t]).getD xs.length 0 = t := by
      rw [List.getD, List.get?_eq_getElem?, List.getElem?_append_right le_rfl]
      simp
    nth_rewrite 2 [← hv]
    exact set_getD_self _ _ _ (by
      rw [List.length_append, List.length_cons, List.length_nil]
      omega)
  rw [hlast, hset, List.dropLast_concat]

theorem marketDepth_fields {b1 b2 : Book}
    (h1 : b1.buy_levels = b2.buy_levels) (h2 : b1.sell_levels = b2.sell_levels)
    (h3 : b1.base_price = b2.base_price) (h4 : b1.tick_size = b2.tick_size)
    (k : Nat) : b1.marketDepth k = b2.marketDepth k := by
  have hb : b1.buyIdxToPrice = b2.buyIdxToPrice := by
    funext idx
    unfold Book.buyIdxToPrice
    rw [h3, h4]
  have hs : b1.sellIdxToPrice = b2.sellIdxToPrice := by
    funext idx
    unfold Book.sellIdxToPrice
    rw [h3, h4]
  unfold Book.marketDepth
  rw [h1, h2, hb, hs]

theorem bestBid_fields {b1 b2 : Book} (h : b1.best_bid_idx = b2.best_bid_idx)
    (h3 : b1.base_price = b2.base_price) (h4 : b1.tick_size = b2.tick_size) :
    b1.bestBid = b2.bestBid := by
  have hb : b1.buyIdxToPrice = b2.buyIdxToPrice := by
    funext idx
    unfold Book.buyIdxToPrice
    rw [h3, h4]
  unfold Book.bestBid
  rw [h, hb]

theorem bestAsk_fields {b1 b2 : Book} (h : b1.best_ask_idx = b2.best_ask_idx)
    (h3 : b1.base_price = b2.base_price) (h4 : b1.tick_size = b2.tick_size) :
    b1.bestAsk = b2.bestAsk := by
  have hs : b1.sellIdxToPrice = b2.sellIdxToPrice := by
    funext idx
    unfold Book.sellIdxToPrice
    rw [h3, h4]
  unfold Book.bestAsk
  rw [h, hs]

theorem cancel_nomap {b : Book} {oid : Nat}
    (hmap : b.order_id_to_index.getD oid none = none) :
    (b.cancelOrder oid).1 = b := by
  rw [Book.cancelOrder]
  split
  · rfl
  · split
    · rfl
    · rename_i h heq
      rw [hmap] at heq
      exact absurd heq (by simp)

theorem matchLimitOrder_noop {b : Book} (hinv : Inv b) (o : Order)
    (hes : (b.matchLimitOrder o).2.2 = []) :
    (b.matchLimitOrder o).1 = b ∧ (b.matchLimitOrder o).2.1 = o := by
  rw [Book.matchLimitOrder] at hes ⊢
  cases hs : o.side with
  | Buy =>
    rw [hs] at hes
    simp only [] at hes ⊢
    have hLF := matchLoop_facts b.sellIdxToPrice (fun p => o.price < p)
      b.buy_levels FUEL b.best_ask_idx
      ⟨b.order_pool, b.order_id_to_index, b.sell_levels, b.best_ask_idx,
        b.total_quantity_matched, o.quantity, []⟩
      (loopInv_ask hinv _ _) rfl
    obtain ⟨es, hes1, hes2⟩ := hLF.execsApp
    rw [List.nil_append] at hes1
    have hesnil : es = [] := by
      rw [← hes1]
      exact hes
    have hst := hes2 hesnil
    refine ⟨?_, ?_⟩
    · rw [hst]
    · rw [hst, ← hs]
  | Sell =>
    rw [hs] at hes
    simp only [] at hes ⊢
    have hLF := matchLoop_facts b.buyIdxToPrice (fun p => p < o.price)
      b.sell_levels FUEL b.best_bid_idx
      ⟨b.order_pool, b.order_id_to_index, b.buy_levels, b.best_bid_idx,
        b.total_quantity_matched, o.quantity, []⟩
      (loopInv_bid hinv _ _) rfl
    obtain ⟨es, hes1, hes2⟩ := hLF.execsApp
    rw [List.nil_append] at hes1
    have hesnil : es = [] := by
      rw [← hes1]
      exact hes
    have hst := hes2 hesnil
    refine ⟨?_, ?_⟩
    · rw [hst]
    · rw [hst, ← hs]

theorem matchMarketOrder_noop {b : Book} (hinv : Inv b) (o : Order)
    (hes : (b.matchMarketOrder o).2 = []) :
    (b.matchMarketOrder o).1 = b := by
  rw [Book.matchMarketOrder] at hes ⊢
  cases hs : o.side with
  | Buy =>
    rw [hs] at hes
    simp only [] at hes ⊢
    have hLF := matchLoop_facts b.sellIdxToPrice (fun _ => false)
      b.buy_levels FUEL b.best_ask_idx
      ⟨b.order_pool, b.order_id_to_index, b.sell_levels, b.best_ask_idx,
        b.total_quantity_matched, o.quantity, []⟩
      (loopInv_ask hinv _ _) rfl
    obtain ⟨es, hes1, hes2⟩ := hLF.execsApp
    rw [List.nil_append] at hes1
    have hesnil : es = [] := by
      rw [← hes1]
      exact hes
    rw [hes2 hesnil]
  | Sell =>
    rw [hs] at hes
    simp only [] at hes ⊢
    have hLF := matchLoop_facts b.buyIdxToPrice (fun _ => false)
      b.sell_levels FUEL b.best_bid_idx
      ⟨b.order_pool, b.order_id_to_index, b.buy_levels, b.best_bid_idx,
        b.total_quantity_matched, o.quantity, []⟩
      (loopInv_bid hinv _ _) rfl
    obtain ⟨es, hes1, hes2⟩ := hLF.execsApp
    rw [List.nil_append] at hes1
    have hesnil : es = [] := by
      rw [← hes1]
      exact hes
    rw [hes2 hesnil]

theorem rest_cancel_core_buy {b : Book} (hinv : Inv b) (o : Order)
    (oid i pidx : Nat) (rest' : List Nat) (bestA : Option Nat) (tq : Nat)
    (hfree : b.order_pool.free_indices = i :: rest')
    (hpidx : b.buyPriceToIdx o.price = some pidx)
    (hoid_lt : oid < b.order_id_to_index.length)
    (hoside : o.side = Side.Buy)
    (hbestA : bestA = (match b.best_bid_idx with
      | none => some pidx
      | some cur => if pidx < cur then some pidx else some cur)) :
    (Book.cancelOrder
      { b with
          order_pool := ⟨b.order_pool.pool.set i o, rest'⟩
          order_id_to_index := b.order_id_to_index.set oid (some i)
          buy_levels := b.buy_levels.set pidx
            (some ⟨((b.buy_levels.getD pidx none).getD (PriceLevel.new o.price)).price, ((b.buy_levels.getD pidx none).getD (PriceLevel.new o.price)).total_quantity + o.quantity,
              ((b.buy_levels.getD pidx none).getD (PriceLevel.new o.price)).order_indices ++ [i]⟩)
          best_bid_idx := bestA
          total_quantity_matched := tq } oid).1.buy_levels = b.buy_levels ∧
    (Book.cancelOrder
      { b with
          order_pool := ⟨b.order_pool.pool.set i o, rest'⟩
          order_id_to_index := b.order_id_to_index.set oid (some i)
          buy_levels := b.buy_levels.set pidx
            (some ⟨((b.buy_levels.getD pidx none).getD (PriceLevel.new o.price)).price, ((b.buy_levels.getD pidx none).getD (PriceLevel.new o.price)).total_quantity + o.quantity,
              ((b.buy_levels.getD pidx none).getD (PriceLevel.new o.price)).order_indices ++ [i]⟩)
          best_bid_idx := bestA
          total_quantity_matched := tq } oid).1.best_bid_idx = b.best_bid_idx ∧
    (Book.cancelOrder
      { b with
          order_pool := ⟨b.order_pool.pool.set i o, rest'⟩
          order_id_to_index := b.order_id_to_index.set oid (some i)
          buy_levels := b.buy_levels.set pidx
            (some ⟨((b.buy_levels.getD pidx none).getD (PriceLevel.new o.price)).price, ((b.buy_levels.getD pidx none).getD (PriceLevel.new o.price)).total_quantity + o.quantity,
              ((b.buy_levels.getD pidx none).getD (PriceLevel.new o.price)).order_indices ++ [i]⟩)
          best_bid_idx := bestA
          total_quantity_matched := tq } oid).1.sell_levels = b.sell_levels ∧
    (Book.cancelOrder
      { b with
          order_pool := ⟨b.order_pool.pool.set i o, rest'⟩
          order_id_to_index := b.order_id_to_index.set oid (some i)
          buy_levels := b.buy_levels.set pidx
            (some ⟨((b.buy_levels.getD pidx none).getD (PriceLevel.new o.price)).price, ((b.buy_levels.getD pidx none).getD (PriceLevel.new o.price)).total_quantity + o.quantity,
              ((b.buy_levels.getD pidx none).getD (PriceLevel.new o.price)).order_indices ++ [i]⟩)
          best_bid_idx := bestA
          total_quantity_matched := tq } oid).1.best_ask_idx = b.best_ask_idx ∧
    (Book.cancelOrder
      { b with
          order_pool := ⟨b.order_pool.pool.set i o, rest'⟩
          order_id_to_index := b.order_id_to_index.set oid (some i)
          buy_levels := b.buy_levels.set pidx
            (some ⟨((b.buy_levels.getD pidx none).getD (PriceLevel.new o.price)).price, ((b.buy_levels.getD pidx none).getD (PriceLevel.new o.price)).total_quantity + o.quantity,
              ((b.buy_levels.getD pidx none).getD (PriceLevel.new o.price)).order_indices ++ [i]⟩)
          best_bid_idx := bestA
          total_quantity_matched := tq } oid).1.base_price = b.base_price ∧
    (Book.cancelOrder
      { b with
          order_pool := ⟨b.order_pool.pool.set i o, rest'⟩
          order_id_to_index := b.order_id_to_index.set oid (some i)
          buy_levels := b.buy_levels.set pidx
            (some ⟨((b.buy_levels.getD pidx none).getD (PriceLevel.new o.price)).price, ((b.buy_levels.getD pidx none).getD (PriceLevel.new o.price)).total_quantity + o.quantity,
              ((b.buy_levels.getD pidx none).getD (PriceLevel.new o.price)).order_indices ++ [i]⟩)
          best_bid_idx := bestA
          total_quantity_matched := tq } oid).1.tick_size = b.tick_size := by
  obtain ⟨-, -, hp1, hp1024⟩ := buyPriceToIdx_spec hinv.base hinv.tick hpidx
  obtain ⟨sym, pool, idmap, mid, bls, sls, bp, ts, bbi, bai, top, tqm⟩ := b
  have hbl : bls.length = PRICE_LEVELS := hinv.bid.len
  have hcache0 : bbi = findFirstSome bls 0 := hinv.bid.cache
  have hlevel0 : ∀ j lvl, bls.getD j none = some lvl → LevelInv pool lvl :=
    hinv.bid.level_ok
  have hfl : ∀ x ∈ pool.free_indices, x < pool.pool.length := hinv.freeLt
  have hfd : ∀ x ∈ pool.free_indices, x ∉ handlesOf bls ++ handlesOf sls :=
    hinv.freeDisj
  have hpidx_len : pidx < bls.length := by
    rw [hbl]
    exact hp1024
  have hi_lt : i < pool.pool.length := hfl i (by rw [hfree]; simp)
  have hoid2 : oid < idmap.length := hoid_lt
  have hlenA : ¬ ((idmap.set oid (some i)).length ≤ oid) := by
    rw [List.length_set]
    omega
  have hmapA : (idmap.set oid (some i)).getD oid none = some i :=
    getD_set_self _ _ _ _ hoid2
  have hged : (OrderPool.mk (pool.pool.set i o) rest').get i = o := by
    unfold OrderPool.get
    exact getD_set_self _ _ _ _ hi_lt
  cases hslot : bls.getD pidx none with
  | some lvl =>
    have hLl := hlevel0 pidx lvl hslot
    have hi_not : i ∉ ((some lvl : Option PriceLevel).getD (PriceLevel.new o.price)).order_indices := fun hx =>
      hfd i (by rw [hfree]; simp)
        (List.mem_append.mpr (Or.inl (mem_handlesOf_slot
          (show i ∈ handlesOfOpt (bls.getD pidx none) by
            rw [hslot]; exact hx))))
    have hLne : ((some lvl : Option PriceLevel).getD (PriceLevel.new o.price)).order_indices ≠ [] := hLl.ne
    have hbb_cur : ∃ cur, bbi = some cur ∧ ¬ pidx < cur := by
      cases hbbi : bbi with
      | none =>
        have hall := ffs_none (hcache0.symm.trans hbbi)
        rw [hall pidx (Nat.zero_le _)] at hslot
        exact absurd hslot (by simp)
      | some cur =>
        obtain ⟨-, hcl, hco, hcm⟩ := ffs_some (hcache0.symm.trans hbbi)
        refine ⟨cur, rfl, fun hlt => ?_⟩
        rw [hcm pidx (Nat.zero_le _) hlt] at hslot
        exact absurd hslot (by simp)
    obtain ⟨cur, hbbi, hnlt⟩ := hbb_cur
    have hbestA2 : bestA = bbi := by
      rw [hbestA, hbbi]
      simp only []
      rw [if_neg hnlt]
    have hcflval : cancelFromLevels
        (bls.set pidx (some ⟨((some lvl : Option PriceLevel).getD (PriceLevel.new o.price)).price,
          ((some lvl : Option PriceLevel).getD (PriceLevel.new o.price)).total_quantity + o.quantity, ((some lvl : Option PriceLevel).getD (PriceLevel.new o.price)).order_indices ++ [i]⟩))
        bestA pidx i o.quantity = Except.ok (bls, bestA) := by
      rw [cancelFromLevels]
      rw [getD_set_self _ _ _ _ hpidx_len]
      simp only []
      have hro : PriceLevel.removeOrder ⟨((some lvl : Option PriceLevel).getD (PriceLevel.new o.price)).price,
          ((some lvl : Option PriceLevel).getD (PriceLevel.new o.price)).total_quantity + o.quantity, ((some lvl : Option PriceLevel).getD (PriceLevel.new o.price)).order_indices ++ [i]⟩
          i o.quantity =
          (⟨((some lvl : Option PriceLevel).getD (PriceLevel.new o.price)).price, ((some lvl : Option PriceLevel).getD (PriceLevel.new o.price)).total_quantity + o.quantity - o.quantity,
            swapRemoveAt (((some lvl : Option PriceLevel).getD (PriceLevel.new o.price)).order_indices ++ [i])
              ((some lvl : Option PriceLevel).getD (PriceLevel.new o.price)).order_indices.length⟩, true) := by
        rw [PriceLevel.removeOrder]
        rw [findIdxQ_append_last _ _ hi_not]
      rw [hro, if_pos rfl, swapRemoveAt_append_last]
      rw [if_neg (show ¬ ((⟨((some lvl : Option PriceLevel).getD (PriceLevel.new o.price)).price,
          ((some lvl : Option PriceLevel).getD (PriceLevel.new o.price)).total_quantity + o.quantity - o.quantity,
          ((some lvl : Option PriceLevel).getD (PriceLevel.new o.price)).order_indices⟩ : PriceLevel).isEmptyLevel = true) from
        fun hc => hLne (by
          simpa [PriceLevel.isEmptyLevel, List.isEmpty_iff] using hc))]
      rw [List.set_set]
      have harith : ((some lvl : Option PriceLevel).getD (PriceLevel.new o.price)).total_quantity + o.quantity - o.quantity =
          ((some lvl : Option PriceLevel).getD (PriceLevel.new o.price)).total_quantity := by omega
      rw [harith]
      rw [show (⟨((some lvl : Option PriceLevel).getD (PriceLevel.new o.price)).price, ((some lvl : Option PriceLevel).getD (PriceLevel.new o.price)).total_quantity,
        ((some lvl : Option PriceLevel).getD (PriceLevel.new o.price)).order_indices⟩ : PriceLevel) = lvl from rfl]
      rw [show bls.set pidx (some lvl) = bls from by
        rw [← hslot]
        exact set_getD_self _ _ _ hpidx_len]
    rw [Book.cancelOrder]
    simp only []
    rw [if_neg hlenA, hmapA]
    simp only []
    rw [hged, hoside]
    simp only []
    split
    · rename_i hq0
      have hq0' : Book.buyPriceToIdx
          (Book.mk sym pool idmap mid bls sls bp ts bbi bai top tqm)
          o.price = none := hq0
      exact absurd (hpidx.symm.trans hq0') (by simp)
    · rename_i pidx' hq
      have hq' : Book.buyPriceToIdx
          (Book.mk sym pool idmap mid bls sls bp ts bbi bai top tqm)
          o.price = some pidx' := hq
      have hpp : pidx = pidx' := by
        have := hpidx.symm.trans hq'
        simpa using this
      subst hpp
      split
      · rename_i e hcfl
        rw [hcflval] at hcfl
        exact absurd hcfl (by simp)
      · rename_i levels1 best1 hcfl
        rw [hcflval] at hcfl
        simp only [Except.ok.injEq, Prod.mk.injEq] at hcfl
        obtain ⟨hl1, hb1⟩ := hcfl
        subst hl1
        subst hb1
        exact ⟨rfl, hbestA2, rfl, rfl, rfl, rfl⟩
  | none =>
    have hi_not : i ∉ ((none : Option PriceLevel).getD (PriceLevel.new o.price)).order_indices := List.not_mem_nil i
    have hbest2 : (if bestA = some pidx then findFirstSome bls 0 else bestA) =
        bbi := by
      by_cases hbp : bestA = some pidx
      · rw [if_pos hbp]
        exact hcache0.symm
      · rw [if_neg hbp]
        cases hbbi : bbi with
        | none =>
          rw [hbestA, hbbi] at hbp
          exact absurd rfl hbp
        | some cur =>
          by_cases hlt : pidx < cur
          · rw [hbestA, hbbi] at hbp
            exact absurd (by simp only []; rw [if_pos hlt]) hbp
          · rw [hbestA, hbbi]
            simp only []
            rw [if_neg hlt]
    have hcflval : cancelFromLevels
        (bls.set pidx (some ⟨((none : Option PriceLevel).getD (PriceLevel.new o.price)).price,
          ((none : Option PriceLevel).getD (PriceLevel.new o.price)).total_quantity + o.quantity, ((none : Option PriceLevel).getD (PriceLevel.new o.price)).order_indices ++ [i]⟩))
        bestA pidx i o.quantity =
        Except.ok (bls,
          if bestA = some pidx then findFirstSome bls 0 else bestA) := by
      rw [cancelFromLevels]
      rw [getD_set_self _ _ _ _ hpidx_len]
      simp only []
      have hro : PriceLevel.removeOrder ⟨((none : Option PriceLevel).getD (PriceLevel.new o.price)).price,
          ((none : Option PriceLevel).getD (PriceLevel.new o.price)).total_quantity + o.quantity, ((none : Option PriceLevel).getD (PriceLevel.new o.price)).order_indices ++ [i]⟩
          i o.quantity =
          (⟨((none : Option PriceLevel).getD (PriceLevel.new o.price)).price, ((none : Option PriceLevel).getD (PriceLevel.new o.price)).total_quantity + o.quantity - o.quantity,
            swapRemoveAt (((none : Option PriceLevel).getD (PriceLevel.new o.price)).order_indices ++ [i])
              ((none : Option PriceLevel).getD (PriceLevel.new o.price)).order_indices.length⟩, true) := by
        rw [PriceLevel.removeOrder]
        rw [findIdxQ_append_last _ _ hi_not]
      rw [hro, if_pos rfl, swapRemoveAt_append_last]
      rw [if_pos (show ((⟨((none : Option PriceLevel).getD (PriceLevel.new o.price)).price,
          ((none : Option PriceLevel).getD (PriceLevel.new o.price)).total_quantity + o.quantity - o.quantity,
          ((none : Option PriceLevel).getD (PriceLevel.new o.price)).order_indices⟩ : PriceLevel).isEmptyLevel = true) from rfl)]
      rw [List.set_set]
      rw [show bls.set pidx none = bls from by
        rw [← hslot]
        exact set_getD_self _ _ _ hpidx_len]
    rw [Book.cancelOrder]
    simp only []
    rw [if_neg hlenA, hmapA]
    simp only []
    rw [hged, hoside]
    simp only []
    split
    · rename_i hq0
      have hq0' : Book.buyPriceToIdx
          (Book.mk sym pool idmap mid bls sls bp ts bbi bai top tqm)
          o.price = none := hq0
      exact absurd (hpidx.symm.trans hq0') (by simp)
    · rename_i pidx' hq
      have hq' : Book.buyPriceToIdx
          (Book.mk sym pool idmap mid bls sls bp ts bbi bai top tqm)
          o.price = some pidx' := hq
      have hpp : pidx = pidx' := by
        have := hpidx.symm.trans hq'
        simpa using this
      subst hpp
      split
      · rename_i e hcfl
        rw [hcflval] at hcfl
        exact absurd hcfl (by simp)
      · rename_i levels1 best1 hcfl
        rw [hcflval] at hcfl
        simp only [Except.ok.injEq, Prod.mk.injEq] at hcfl
        obtain ⟨hl1, hb1⟩ := hcfl
        subst hl1
        subst hb1
        exact ⟨rfl, hbest2, rfl, rfl, rfl, rfl⟩

theorem rest_cancel_core_sell {b : Book} (hinv : Inv b) (o : Order)
    (oid i pidx : Nat) (rest' : List Nat) (bestA : Option Nat) (tq : Nat)
    (hfree : b.order_pool.free_indices = i :: rest')
    (hpidx : b.sellPriceToIdx o.price = some pidx)
    (hoid_lt : oid < b.order_id_to_index.length)
    (hoside : o.side = Side.Sell)
    (hbestA : bestA = (match b.best_ask_idx with
      | none => some pidx
      | some cur => if pidx < cur then some pidx else some cur)) :
    (Book.cancelOrder
      { b with
          order_pool := ⟨b.order_pool.pool.set i o, rest'⟩
          order_id_to_index := b.order_id_to_index.set oid (some i)
          sell_levels := b.sell_levels.set pidx
            (some ⟨((b.sell_levels.getD pidx none).getD (PriceLevel.new o.price)).price, ((b.sell_levels.getD pidx none).getD (PriceLevel.new o.price)).total_quantity + o.quantity,
              ((b.sell_levels.getD pidx none).getD (PriceLevel.new o.price)).order_indices ++ [i]⟩)
          best_ask_idx := bestA
          total_quantity_matched := tq } oid).1.buy_levels = b.buy_levels ∧
    (Book.cancelOrder
      { b with
          order_pool := ⟨b.order_pool.pool.set i o, rest'⟩
          order_id_to_index := b.order_id_to_index.set oid (some i)
          sell_levels := b.sell_levels.set pidx
            (some ⟨((b.sell_levels.getD pidx none).getD (PriceLevel.new o.price)).price, ((b.sell_levels.getD pidx none).getD (PriceLevel.new o.price)).total_quantity + o.quantity,
              ((b.sell_levels.getD pidx none).getD (PriceLevel.new o.price)).order_indices ++ [i]⟩)
          best_ask_idx := bestA
          total_quantity_matched := tq } oid).1.best_bid_idx = b.best_bid_idx ∧
    (Book.cancelOrder
      { b with
          order_pool := ⟨b.order_pool.pool.set i o, rest'⟩
          order_id_to_index := b.order_id_to_index.set oid (some i)
          sell_levels := b.sell_levels.set pidx
            (some ⟨((b.sell_levels.getD pidx none).getD (PriceLevel.new o.price)).price, ((b.sell_levels.getD pidx none).getD (PriceLevel.new o.price)).total_quantity + o.quantity,
              ((b.sell_levels.getD pidx none).getD (PriceLevel.new o.price)).order_indices ++ [i]⟩)
          best_ask_idx := bestA
          total_quantity_matched := tq } oid).1.sell_levels = b.sell_levels ∧
    (Book.cancelOrder
      { b with
          order_pool := ⟨b.order_pool.pool.set i o, rest'⟩
          order_id_to_index := b.order_id_to_index.set oid (some i)
          sell_levels := b.sell_levels.set pidx
            (some ⟨((b.sell_levels.getD pidx none).getD (PriceLevel.new o.price)).price, ((b.sell_levels.getD pidx none).getD (PriceLevel.new o.price)).total_quantity + o.quantity,
              ((b.sell_levels.getD pidx none).getD (PriceLevel.new o.price)).order_indices ++ [i]⟩)
          best_ask_idx := bestA
          total_quantity_matched := tq } oid).1.best_ask_idx = b.best_ask_idx ∧
    (Book.cancelOrder
      { b with
          order_pool := ⟨b.order_pool.pool.set i o, rest'⟩
          order_id_to_index := b.order_id_to_index.set oid (some i)
          sell_levels := b.sell_levels.set pidx
            (some ⟨((b.sell_levels.getD pidx none).getD (PriceLevel.new o.price)).price, ((b.sell_levels.getD pidx none).getD (PriceLevel.new o.price)).total_quantity + o.quantity,
              ((b.sell_levels.getD pidx none).getD (PriceLevel.new o.price)).order_indices ++ [i]⟩)
          best_ask_idx := bestA
          total_quantity_matched := tq } oid).1.base_price = b.base_price ∧
    (Book.cancelOrder
      { b with
          order_pool := ⟨b.order_pool.pool.set i o, rest'⟩
          order_id_to_index := b.order_id_to_index.set oid (some i)
          sell_levels := b.sell_levels.set pidx
            (some ⟨((b.sell_levels.getD pidx none).getD (PriceLevel.new o.price)).price, ((b.sell_levels.getD pidx none).getD (PriceLevel.new o.price)).total_quantity + o.quantity,
              ((b.sell_levels.getD pidx none).getD (PriceLevel.new o.price)).order_indices ++ [i]⟩)
          best_ask_idx := bestA
          total_quantity_matched := tq } oid).1.tick_size = b.tick_size := by
  obtain ⟨-, -, hp1024⟩ := sellPriceToIdx_spec hinv.base hinv.tick hpidx
  obtain ⟨sym, pool, idmap, mid, bls, sls, bp, ts, bbi, bai, top, tqm⟩ := b
  have hal : sls.length = PRICE_LEVELS := hinv.ask.len
  have hcache0 : bai = findFirstSome sls 0 := hinv.ask.cache
  have hlevel0 : ∀ j lvl, sls.getD j none = some lvl → LevelInv pool lvl :=
    hinv.ask.level_ok
  have hfl : ∀ x ∈ pool.free_indices, x < pool.pool.length := hinv.freeLt
  have hfd : ∀ x ∈ pool.free_indices, x ∉ handlesOf bls ++ handlesOf sls :=
    hinv.freeDisj
  have hpidx_len : pidx < sls.length := by
    rw [hal]
    exact hp1024
  have hi_lt : i < pool.pool.length := hfl i (by rw [hfree]; simp)
  have hoid2 : oid < idmap.length := hoid_lt
  have hlenA : ¬ ((idmap.set oid (some i)).length ≤ oid) := by
    rw [List.length_set]
    omega
  have hmapA : (idmap.set oid (some i)).getD oid none = some i :=
    getD_set_self _ _ _ _ hoid2
  have hged : (OrderPool.mk (pool.pool.set i o) rest').get i = o := by
    unfold OrderPool.get
    exact getD_set_self _ _ _ _ hi_lt
  cases hslot : sls.getD pidx none with
  | some lvl =>
    have hLl := hlevel0 pidx lvl hslot
    have hi_not : i ∉ ((some lvl : Option PriceLevel).getD (PriceLevel.new o.price)).order_indices := fun hx =>
      hfd i (by rw [hfree]; simp)
        (List.mem_append.mpr (Or.inr (mem_handlesOf_slot
          (show i ∈ handlesOfOpt (sls.getD pidx none) by
            rw [hslot]; exact hx))))
    have hLne : ((some lvl : Option PriceLevel).getD (PriceLevel.new o.price)).order_indices ≠ [] := hLl.ne
    have hbb_cur : ∃ cur, bai = some cur ∧ ¬ pidx < cur := by
      cases hbbi : bai with
      | none =>
        have hall := ffs_none (hcache0.symm.trans hbbi)
        rw [hall pidx (Nat.zero_le _)] at hslot
        exact absurd hslot (by simp)
      | some cur =>
        obtain ⟨-, hcl, hco, hcm⟩ := ffs_some (hcache0.symm.trans hbbi)
        refine ⟨cur, rfl, fun hlt => ?_⟩
        rw [hcm pidx (Nat.zero_le _) hlt] at hslot
        exact absurd hslot (by simp)
    obtain ⟨cur, hbbi, hnlt⟩ := hbb_cur
    have hbestA2 : bestA = bai := by
      rw [hbestA, hbbi]
      simp only []
      rw [if_neg hnlt]
    have hcflval : cancelFromLevels
        (sls.set pidx (some ⟨((some lvl : Option PriceLevel).getD (PriceLevel.new o.price)).price,
          ((some lvl : Option PriceLevel).getD (PriceLevel.new o.price)).total_quantity + o.quantity, ((some lvl : Option PriceLevel).getD (PriceLevel.new o.price)).order_indices ++ [i]⟩))
        bestA pidx i o.quantity = Except.ok (sls, bestA) := by
      rw [cancelFromLevels]
      rw [getD_set_self _ _ _ _ hpidx_len]
      simp only []
      have hro : PriceLevel.removeOrder ⟨((some lvl : Option PriceLevel).getD (PriceLevel.new o.price)).price,
          ((some lvl : Option PriceLevel).getD (PriceLevel.new o.price)).total_quantity + o.quantity, ((some lvl : Option PriceLevel).getD (PriceLevel.new o.price)).order_indices ++ [i]⟩
          i o.quantity =
          (⟨((some lvl : Option PriceLevel).getD (PriceLevel.new o.price)).price, ((some lvl : Option PriceLevel).getD (PriceLevel.new o.price)).total_quantity + o.quantity - o.quantity,
            swapRemoveAt (((some lvl : Option PriceLevel).getD (PriceLevel.new o.price)).order_indices ++ [i])
              ((some lvl : Option PriceLevel).getD (PriceLevel.new o.price)).order_indices.length⟩, true) := by
        rw [PriceLevel.removeOrder]
        rw [findIdxQ_append_last _ _ hi_not]
      rw [hro, if_pos rfl, swapRemoveAt_append_last]
      rw [if_neg (show ¬ ((⟨((some lvl : Option PriceLevel).getD (PriceLevel.new o.price)).price,
          ((some lvl : Option PriceLevel).getD (PriceLevel.new o.price)).total_quantity + o.quantity - o.quantity,
          ((some lvl : Option PriceLevel).getD (PriceLevel.new o.price)).order_indices⟩ : PriceLevel).isEmptyLevel = true) from
        fun hc => hLne (by
          simpa [PriceLevel.isEmptyLevel, List.isEmpty_iff] using hc))]
      rw [List.set_set]
      have harith : ((some lvl : Option PriceLevel).getD (PriceLevel.new o.price)).total_quantity + o.quantity - o.quantity =
          ((some lvl : Option PriceLevel).getD (PriceLevel.new o.price)).total_quantity := by omega
      rw [harith]
      rw [show (⟨((some lvl : Option PriceLevel).getD (PriceLevel.new o.price)).price, ((some lvl : Option PriceLevel).getD (PriceLevel.new o.price)).total_quantity,
        ((some lvl : Option PriceLevel).getD (PriceLevel.new o.price)).order_indices⟩ : PriceLevel) = lvl from rfl]
      rw [show sls.set pidx (some lvl) = sls from by
        rw [← hslot]
        exact set_getD_self _ _ _ hpidx_len]
    rw [Book.cancelOrder]
    simp only []
    rw [if_neg hlenA, hmapA]
    simp only []
    rw [hged, hoside]
    simp only []
    split
    · rename_i hq0
      have hq0' : Book.sellPriceToIdx
          (Book.mk sym pool idmap mid bls sls bp ts bbi bai top tqm)
          o.price = none := hq0
      exact absurd (hpidx.symm.trans hq0') (by simp)
    · rename_i pidx' hq
      have hq' : Book.sellPriceToIdx
          (Book.mk sym pool idmap mid bls sls bp ts bbi bai top tqm)
          o.price = some pidx' := hq
      have hpp : pidx = pidx' := by
        have := hpidx.symm.trans hq'
        simpa using this
      subst hpp
      split
      · rename_i e hcfl
        rw [hcflval] at hcfl
        exact absurd hcfl (by simp)
      · rename_i levels1 best1 hcfl
        rw [hcflval] at hcfl
        simp only [Except.ok.injEq, Prod.mk.injEq] at hcfl
        obtain ⟨hl1, hb1⟩ := hcfl
        subst hl1
        subst hb1
        exact ⟨rfl, rfl, rfl, hbestA2, rfl, rfl⟩
  | none =>
    have hi_not : i ∉ ((none : Option PriceLevel).getD (PriceLevel.new o.price)).order_indices := List.not_mem_nil i
    have hbest2 : (if bestA = some pidx then findFirstSome sls 0 else bestA) =
        bai := by
      by_cases hbp : bestA = some pidx
      · rw [if_pos hbp]
        exact hcache0.symm
      · rw [if_neg hbp]
        cases hbbi : bai with
        | none =>
          rw [hbestA, hbbi] at hbp
          exact absurd rfl hbp
        | some cur =>
          by_cases hlt : pidx < cur
          · rw [hbestA, hbbi] at hbp
            exact absurd (by simp only []; rw [if_pos hlt]) hbp
          · rw [hbestA, hbbi]
            simp only []
            rw [if_neg hlt]
    have hcflval : cancelFromLevels
        (sls.set pidx (some ⟨((none : Option PriceLevel).getD (PriceLevel.new o.price)).price,
          ((none : Option PriceLevel).getD (PriceLevel.new o.price)).total_quantity + o.quantity, ((none : Option PriceLevel).getD (PriceLevel.new o.price)).order_indices ++ [i]⟩))
        bestA pidx i o.quantity =
        Except.ok (sls,
          if bestA = some pidx then findFirstSome sls 0 else bestA) := by
      rw [cancelFromLevels]
      rw [getD_set_self _ _ _ _ hpidx_len]
      simp only []
      have hro : PriceLevel.removeOrder ⟨((none : Option PriceLevel).getD (PriceLevel.new o.price)).price,
          ((none : Option PriceLevel).getD (PriceLevel.new o.price)).total_quantity + o.quantity, ((none : Option PriceLevel).getD (PriceLevel.new o.price)).order_indices ++ [i]⟩
          i o.quantity =
          (⟨((none : Option PriceLevel).getD (PriceLevel.new o.price)).price, ((none : Option PriceLevel).getD (PriceLevel.new o.price)).total_quantity + o.quantity - o.quantity,
            swapRemoveAt (((none : Option PriceLevel).getD (PriceLevel.new o.price)).order_indices ++ [i])
              ((none : Option PriceLevel).getD (PriceLevel.new o.price)).order_indices.length⟩, true) := by
        rw [PriceLevel.removeOrder]
        rw [findIdxQ_append_last _ _ hi_not]
      rw [hro, if_pos rfl, swapRemoveAt_append_last]
      rw [if_pos (show ((⟨((none : Option PriceLevel).getD (PriceLevel.new o.price)).price,
          ((none : Option PriceLevel).getD (PriceLevel.new o.price)).total_quantity + o.quantity - o.quantity,
          ((none : Option PriceLevel).getD (PriceLevel.new o.price)).order_indices⟩ : PriceLevel).isEmptyLevel = true) from rfl)]
      rw [List.set_set]
      rw [show sls.set pidx none = sls from by
        rw [← hslot]
        exact set_getD_self _ _ _ hpidx_len]
    rw [Book.cancelOrder]
    simp only []
    rw [if_neg hlenA, hmapA]
    simp only []
    rw [hged, hoside]
    simp only []
    split
    · rename_i hq0
      have hq0' : Book.sellPriceToIdx
          (Book.mk sym pool idmap mid bls sls bp ts bbi bai top tqm)
          o.price = none := hq0
      exact absurd (hpidx.symm.trans hq0') (by simp)
    · rename_i pidx' hq
      have hq' : Book.sellPriceToIdx
          (Book.mk sym pool idmap mid bls sls bp ts bbi bai top tqm)
          o.price = some pidx' := hq
      have hpp : pidx = pidx' := by
        have := hpidx.symm.trans hq'
        simpa using this
      subst hpp
      split
      · rename_i e hcfl
        rw [hcflval] at hcfl
        exact absurd hcfl (by simp)
      · rename_i levels1 best1 hcfl
        rw [hcflval] at hcfl
        simp only [Except.ok.injEq, Prod.mk.injEq] at hcfl
        obtain ⟨hl1, hb1⟩ := hcfl
        subst hl1
        subst hb1
        exact ⟨rfl, rfl, rfl, hbest2, rfl, rfl⟩

theorem growForId_covers {b : Book} (hinv : Inv b) (id : Nat)
    (hne : b.order_pool.free_indices ≠ []) :
    id < (b.growForId id).order_id_to_index.length := by
  have hlen0 : 0 < b.order_id_to_index.length := by
    cases hf : b.order_pool.free_indices with
    | nil => exact absurd hf hne
    | cons x r =>
      have hx := hinv.freeLt x (by rw [hf]; simp)
      have hpl := hinv.poolLe
      omega
  have hml : b.max_order_id < b.order_id_to_index.length := by
    rcases hinv.idLen with h | h
    · omega
    · exact h
  unfold Book.growForId
  split
  · split
    · rename_i hle hlt
      show id < (b.order_id_to_index ++
        List.replicate (id + 1 - b.order_id_to_index.length) none).length
      simp only [List.length_append, List.length_replicate]
      omega
    · rename_i hle hnlt
      omega
  · rename_i hnle
    omega

theorem restAt_books_buy (X : Book) (pidx i : Nat) (rem : Order)
    (ex : List Execution) :
    (X.restAt Side.Buy pidx i rem ex).1 =
      { X with
          buy_levels := X.buy_levels.set pidx
            (some ⟨((X.buy_levels.getD pidx none).getD (PriceLevel.new rem.price)).price,
              ((X.buy_levels.getD pidx none).getD (PriceLevel.new rem.price)).total_quantity + rem.quantity,
              ((X.buy_levels.getD pidx none).getD (PriceLevel.new rem.price)).order_indices ++ [i]⟩)
          best_bid_idx := (match X.best_bid_idx with
            | none => some pidx
            | some cur => if pidx < cur then some pidx else some cur)
          total_quantity_matched := X.total_quantity_matched + sumExecQty ex } := by
  obtain ⟨sym, pool, idmap, mid, bls, sls, bp, ts, bbi, bai, top, tqm⟩ := X
  cases bbi with
  | none => rfl
  | some cur =>
    rw [Book.restAt]
    simp only [PriceLevel.addOrder]
    rw [if_pos trivial]
    simp only []
    by_cases hlt : pidx < cur
    · simp only [if_pos hlt]
    · simp only [if_neg hlt]

theorem restAt_books_sell (X : Book) (pidx i : Nat) (rem : Order)
    (ex : List Execution) :
    (X.restAt Side.Sell pidx i rem ex).1 =
      { X with
          sell_levels := X.sell_levels.set pidx
            (some ⟨((X.sell_levels.getD pidx none).getD (PriceLevel.new rem.price)).price,
              ((X.sell_levels.getD pidx none).getD (PriceLevel.new rem.price)).total_quantity + rem.quantity,
              ((X.sell_levels.getD pidx none).getD (PriceLevel.new rem.price)).order_indices ++ [i]⟩)
          best_ask_idx := (match X.best_ask_idx with
            | none => some pidx
            | some cur => if pidx < cur then some pidx else some cur)
          total_quantity_matched := X.total_quantity_matched + sumExecQty ex } := by
  obtain ⟨sym, pool, idmap, mid, bls, sls, bp, ts, bbi, bai, top, tqm⟩ := X
  cases bai with
  | none => rfl
  | some cur =>
    rw [Book.restAt]
    simp only [PriceLevel.addOrder]
    rw [if_pos trivial]
    simp only []
    by_cases hlt : pidx < cur
    · simp only [if_pos hlt]
    · simp only [if_neg hlt]

theorem addOrder_tail_market {b B1 : Book} (hb : Inv B1) (o : Order)
    (hf1 : B1.buy_levels = b.buy_levels) (hf2 : B1.best_bid_idx = b.best_bid_idx)
    (hf3 : B1.sell_levels = b.sell_levels) (hf4 : B1.best_ask_idx = b.best_ask_idx)
    (hf5 : B1.base_price = b.base_price) (hf6 : B1.tick_size = b.tick_size)
    (hmap : B1.order_id_to_index.getD o.order_id none = none)
    (hok : (B1.matchMarketOrder o).2 = []) :
    (Book.cancelOrder (B1.matchMarketOrder o).1 o.order_id).1.buy_levels = b.buy_levels ∧
    (Book.cancelOrder (B1.matchMarketOrder o).1 o.order_id).1.best_bid_idx = b.best_bid_idx ∧
    (Book.cancelOrder (B1.matchMarketOrder o).1 o.order_id).1.sell_levels = b.sell_levels ∧
    (Book.cancelOrder (B1.matchMarketOrder o).1 o.order_id).1.best_ask_idx = b.best_ask_idx ∧
    (Book.cancelOrder (B1.matchMarketOrder o).1 o.order_id).1.base_price = b.base_price ∧
    (Book.cancelOrder (B1.matchMarketOrder o).1 o.order_id).1.tick_size = b.tick_size := by
  rw [matchMarketOrder_noop hb o hok]
  rw [cancel_nomap hmap]
  exact ⟨hf1, hf2, hf3, hf4, hf5, hf6⟩

theorem addOrder_tail_buy {b B1 : Book} (hb : Inv B1) (o : Order)
    (hf1 : B1.buy_levels = b.buy_levels) (hf2 : B1.best_bid_idx = b.best_bid_idx)
    (hf3 : B1.sell_levels = b.sell_levels) (hf4 : B1.best_ask_idx = b.best_ask_idx)
    (hf5 : B1.base_price = b.base_price) (hf6 : B1.tick_size = b.tick_size)
    (hmap : B1.order_id_to_index.getD o.order_id none = none)
    (hcov : B1.order_pool.free_indices ≠ [] → o.order_id < B1.order_id_to_index.length)
    (hside : o.side = Side.Buy)
    (X : Book) (rem : Order) (ex : List Execution)
    (hXr : ex = [] → X = B1 ∧ rem = o) :
    (if 0 < rem.quantity then
      match X.buyPriceToIdx o.price with
      | none => (X, Except.error OBError.priceOutOfRange)
      | some pidx =>
        match X.order_pool.allocate rem with
        | none => (X, Except.error OBError.poolFull)
        | some (i, pool1) =>
          ({ X with
              order_pool := pool1
              order_id_to_index := X.order_id_to_index.set o.order_id (some i) }
            ).restAt Side.Buy pidx i rem ex
    else
      ({ X with total_quantity_matched :=
          X.total_quantity_matched + sumExecQty ex }, Except.ok ex)).2 = Except.ok [] →
    ((Book.cancelOrder (if 0 < rem.quantity then
      match X.buyPriceToIdx o.price with
      | none => (X, Except.error OBError.priceOutOfRange)
      | some pidx =>
        match X.order_pool.allocate rem with
        | none => (X, Except.error OBError.poolFull)
        | some (i, pool1) =>
          ({ X with
              order_pool := pool1
              order_id_to_index := X.order_id_to_index.set o.order_id (some i) }
            ).restAt Side.Buy pidx i rem ex
    else
      ({ X with total_quantity_matched :=
          X.total_quantity_matched + sumExecQty ex }, Except.ok ex)).1 o.order_id).1.buy_levels = b.buy_levels ∧
    (Book.cancelOrder (if 0 < rem.quantity then
      match X.buyPriceToIdx o.price with
      | none => (X, Except.error OBError.priceOutOfRange)
      | some pidx =>
        match X.order_pool.allocate rem with
        | none => (X, Except.error OBError.poolFull)
        | some (i, pool1) =>
          ({ X with
              order_pool := pool1
              order_id_to_index := X.order_id_to_index.set o.order_id (some i) }
            ).restAt Side.Buy pidx i rem ex
    else
      ({ X with total_quantity_matched :=
          X.total_quantity_matched + sumExecQty ex }, Except.ok ex)).1 o.order_id).1.best_bid_idx = b.best_bid_idx ∧
    (Book.cancelOrder (if 0 < rem.quantity then
      match X.buyPriceToIdx o.price with
      | none => (X, Except.error OBError.priceOutOfRange)
      | some pidx =>
        match X.order_pool.allocate rem with
        | none => (X, Except.error OBError.poolFull)
        | some (i, pool1) =>
          ({ X with
              order_pool := pool1
              order_id_to_index := X.order_id_to_index.set o.order_id (some i) }
            ).restAt Side.Buy pidx i rem ex
    else
      ({ X with total_quantity_matched :=
          X.total_quantity_matched + sumExecQty ex }, Except.ok ex)).1 o.order_id).1.sell_levels = b.sell_levels ∧
    (Book.cancelOrder (if 0 < rem.quantity then
      match X.buyPriceToIdx o.price with
      | none => (X, Except.error OBError.priceOutOfRange)
      | some pidx =>
        match X.order_pool.allocate rem with
        | none => (X, Except.error OBError.poolFull)
        | some (i, pool1) =>
          ({ X with
              order_pool := pool1
              order_id_to_index := X.order_id_to_index.set o.order_id (some i) }
            ).restAt Side.Buy pidx i rem ex
    else
      ({ X with total_quantity_matched :=
          X.total_quantity_matched + sumExecQty ex }, Except.ok ex)).1 o.order_id).1.best_ask_idx = b.best_ask_idx ∧
    (Book.cancelOrder (if 0 < rem.quantity then
      match X.buyPriceToIdx o.price with
      | none => (X, Except.error OBError.priceOutOfRange)
      | some pidx =>
        match X.order_pool.allocate rem with
        | none => (X, Except.error OBError.poolFull)
        | some (i, pool1) =>
          ({ X with
              order_pool := pool1
              order_id_to_index := X.order_id_to_index.set o.order_id (some i) }
            ).restAt Side.Buy pidx i rem ex
    else
      ({ X with total_quantity_matched :=
          X.total_quantity_matched + sumExecQty ex }, Except.ok ex)).1 o.order_id).1.base_price = b.base_price ∧
    (Book.cancelOrder (if 0 < rem.quantity then
      match X.buyPriceToIdx o.price with
      | none => (X, Except.error OBError.priceOutOfRange)
      | some pidx =>
        match X.order_pool.allocate rem with
        | none => (X, Except.error OBError.poolFull)
        | some (i, pool1) =>
          ({ X with
              order_pool := pool1
              order_id_to_index := X.order_id_to_index.set o.order_id (some i) }
            ).restAt Side.Buy pidx i rem ex
    else
      ({ X with total_quantity_matched :=
          X.total_quantity_matched + sumExecQty ex }, Except.ok ex)).1 o.order_id).1.tick_size = b.tick_size) := by
  split
  · split
    · intro hok
      exact absurd hok (by simp)
    · rename_i pidx hpx
      split
      · intro hok
        exact absurd hok (by simp)
      · rename_i i pool1 halloc
        cases hfr : X.order_pool.free_indices with
        | nil =>
          have hno : X.order_pool.allocate rem = none := by
            unfold OrderPool.allocate
            rw [hfr]
          rw [hno] at halloc
          exact absurd halloc (by simp)
        | cons j rest' =>
          have hyes : X.order_pool.allocate rem =
              some (j, ⟨X.order_pool.pool.set j rem, rest'⟩) := by
            unfold OrderPool.allocate
            rw [hfr]
          rw [hyes] at halloc
          simp only [Option.some.injEq, Prod.mk.injEq] at halloc
          obtain ⟨hj, hp⟩ := halloc
          subst hj
          subst hp
          intro hok
          rw [restAt_snd] at hok
          have hex : ex = [] := by simpa using hok
          obtain ⟨hX, hrem⟩ := hXr hex
          have hX2 : B1 = X := hX.symm
          have hr2 : o = rem := hrem.symm
          subst hX2
          subst hr2
          subst hex
          rw [restAt_books_buy]
          rw [← hf1, ← hf2, ← hf3, ← hf4, ← hf5, ← hf6]
          exact rest_cancel_core_buy hb o o.order_id _ _ _ _ _ hfr hpx
            (hcov (by rw [hfr]; simp)) hside rfl
  · intro hok
    have hex : ex = [] := by simpa using hok
    obtain ⟨hX, hrem⟩ := hXr hex
    have hX2 : B1 = X := hX.symm
    subst hX2
    subst hex
    simp only []
    rw [cancel_nomap (show ({ B1 with total_quantity_matched :=
      B1.total_quantity_matched + sumExecQty [] } : Book).order_id_to_index.getD
      o.order_id none = none from hmap)]
    exact ⟨hf1, hf2, hf3, hf4, hf5, hf6⟩

theorem addOrder_tail_sell {b B1 : Book} (hb : Inv B1) (o : Order)
    (hf1 : B1.buy_levels = b.buy_levels) (hf2 : B1.best_bid_idx = b.best_bid_idx)
    (hf3 : B1.sell_levels = b.sell_levels) (hf4 : B1.best_ask_idx = b.best_ask_idx)
    (hf5 : B1.base_price = b.base_price) (hf6 : B1.tick_size = b.tick_size)
    (hmap : B1.order_id_to_index.getD o.order_id none = none)
    (hcov : B1.order_pool.free_indices ≠ [] → o.order_id < B1.order_id_to_index.length)
    (hside : o.side = Side.Sell)
    (X : Book) (rem : Order) (ex : List Execution)
    (hXr : ex = [] → X = B1 ∧ rem = o) :
    (if 0 < rem.quantity then
      match X.sellPriceToIdx o.price with
      | none => (X, Except.error OBError.priceOutOfRange)
      | some pidx =>
        match X.order_pool.allocate rem with
        | none => (X, Except.error OBError.poolFull)
        | some (i, pool1) =>
          ({ X with
              order_pool := pool1
              order_id_to_index := X.order_id_to_index.set o.order_id (some i) }
            ).restAt Side.Sell pidx i rem ex
    else
      ({ X with total_quantity_matched :=
          X.total_quantity_matched + sumExecQty ex }, Except.ok ex)).2 = Except.ok [] →
    ((Book.cancelOrder (if 0 < rem.quantity then
      match X.sellPriceToIdx o.price with
      | none => (X, Except.error OBError.priceOutOfRange)
      | some pidx =>
        match X.order_pool.allocate rem with
        | none => (X, Except.error OBError.poolFull)
        | some (i, pool1) =>
          ({ X with
              order_pool := pool1
              order_id_to_index := X.order_id_to_index.set o.order_id (some i) }
            ).restAt Side.Sell pidx i rem ex
    else
      ({ X with total_quantity_matched :=
          X.total_quantity_matched + sumExecQty ex }, Except.ok ex)).1 o.order_id).1.buy_levels = b.buy_levels ∧
    (Book.cancelOrder (if 0 < rem.quantity then
      match X.sellPriceToIdx o.price with
      | none => (X, Except.error OBError.priceOutOfRange)
      | some pidx =>
        match X.order_pool.allocate rem with
        | none => (X, Except.error OBError.poolFull)
        | some (i, pool1) =>
          ({ X with
              order_pool := pool1
              order_id_to_index := X.order_id_to_index.set o.order_id (some i) }
            ).restAt Side.Sell pidx i rem ex
    else
      ({ X with total_quantity_matched :=
          X.total_quantity_matched + sumExecQty ex }, Except.ok ex)).1 o.order_id).1.best_bid_idx = b.best_bid_idx ∧
    (Book.cancelOrder (if 0 < rem.quantity then
      match X.sellPriceToIdx o.price with
      | none => (X, Except.error OBError.priceOutOfRange)
      | some pidx =>
        match X.order_pool.allocate rem with
        | none => (X, Except.error OBError.poolFull)
        | some (i, pool1) =>
          ({ X with
              order_pool := pool1
              order_id_to_index := X.order_id_to_index.set o.order_id (some i) }
            ).restAt Side.Sell pidx i rem ex
    else
      ({ X with total_quantity_matched :=
          X.total_quantity_matched + sumExecQty ex }, Except.ok ex)).1 o.order_id).1.sell_levels = b.sell_levels ∧
    (Book.cancelOrder (if 0 < rem.quantity then
      match X.sellPriceToIdx o.price with
      | none => (X, Except.error OBError.priceOutOfRange)
      | some pidx =>
        match X.order_pool.allocate rem with
        | none => (X, Except.error OBError.poolFull)
        | some (i, pool1) =>
          ({ X with
              order_pool := pool1
              order_id_to_index := X.order_id_to_index.set o.order_id (some i) }
            ).restAt Side.Sell pidx i rem ex
    else
      ({ X with total_quantity_matched :=
          X.total_quantity_matched + sumExecQty ex }, Except.ok ex)).1 o.order_id).1.best_ask_idx = b.best_ask_idx ∧
    (Book.cancelOrder (if 0 < rem.quantity then
      match X.sellPriceToIdx o.price with
      | none => (X, Except.error OBError.priceOutOfRange)
      | some pidx =>
        match X.order_pool.allocate rem with
        | none => (X, Except.error OBError.poolFull)
        | some (i, pool1) =>
          ({ X with
              order_pool := pool1
              order_id_to_index := X.order_id_to_index.set o.order_id (some i) }
            ).restAt Side.Sell pidx i rem ex
    else
      ({ X with total_quantity_matched :=
          X.total_quantity_matched + sumExecQty ex }, Except.ok ex)).1 o.order_id).1.base_price = b.base_price ∧
    (Book.cancelOrder (if 0 < rem.quantity then
      match X.sellPriceToIdx o.price with
      | none => (X, Except.error OBError.priceOutOfRange)
      | some pidx =>
        match X.order_pool.allocate rem with
        | none => (X, Except.error OBError.poolFull)
        | some (i, pool1) =>
          ({ X with
              order_pool := pool1
              order_id_to_index := X.order_id_to_index.set o.order_id (some i) }
            ).restAt Side.Sell pidx i rem ex
    else
      ({ X with total_quantity_matched :=
          X.total_quantity_matched + sumExecQty ex }, Except.ok ex)).1 o.order_id).1.tick_size = b.tick_size) := by
  split
  · split
    · intro hok
      exact absurd hok (by simp)
    · rename_i pidx hpx
      split
      · intro hok
        exact absurd hok (by simp)
      · rename_i i pool1 halloc
        cases hfr : X.order_pool.free_indices with
        | nil =>
          have hno : X.order_pool.allocate rem = none := by
            unfold OrderPool.allocate
            rw [hfr]
          rw [hno] at halloc
          exact absurd halloc (by simp)
        | cons j rest' =>
          have hyes : X.order_pool.allocate rem =
              some (j, ⟨X.order_pool.pool.set j rem, rest'⟩) := by
            unfold OrderPool.allocate
            rw [hfr]
          rw [hyes] at halloc
          simp only [Option.some.injEq, Prod.mk.injEq] at halloc
          obtain ⟨hj, hp⟩ := halloc
          subst hj
          subst hp
          intro hok
          rw [restAt_snd] at hok
          have hex : ex = [] := by simpa using hok
          obtain ⟨hX, hrem⟩ := hXr hex
          have hX2 : B1 = X := hX.symm
          have hr2 : o = rem := hrem.symm
          subst hX2
          subst hr2
          subst hex
          rw [restAt_books_sell]
          rw [← hf1, ← hf2, ← hf3, ← hf4, ← hf5, ← hf6]
          exact rest_cancel_core_sell hb o o.order_id _ _ _ _ _ hfr hpx
            (hcov (by rw [hfr]; simp)) hside rfl
  · intro hok
    have hex : ex = [] := by simpa using hok
    obtain ⟨hX, hrem⟩ := hXr hex
    have hX2 : B1 = X := hX.symm
    subst hX2
    subst hex
    simp only []
    rw [cancel_nomap (show ({ B1 with total_quantity_matched :=
      B1.total_quantity_matched + sumExecQty [] } : Book).order_id_to_index.getD
      o.order_id none = none from hmap)]
    exact ⟨hf1, hf2, hf3, hf4, hf5, hf6⟩

/-- C8: admit followed by cancel restores depth and bests.  For every
reachable book and every order whose admit succeeds returning no executions,
cancelling that order's id afterwards yields a book whose market depth (at
every depth limit) and best bid and best ask equal those of the book before
the admit. -/
theorem admit_cancel_restores {b : Book} (hr : Reachable b) (o : Order)
    (hok : (b.addOrder o).2 = Except.ok []) :
    (∀ k, ((b.addOrder o).1.cancelOrder o.order_id).1.marketDepth k =
        b.marketDepth k) ∧
      ((b.addOrder o).1.cancelOrder o.order_id).1.bestBid = b.bestBid ∧
      ((b.addOrder o).1.cancelOrder o.order_id).1.bestAsk = b.bestAsk := by
  have hinv := reachable_inv hr
  obtain ⟨im, mx, hg⟩ := growForId_eq b o.order_id
  have hb1 : Inv { b.growForId o.order_id with
      total_orders_processed := (b.growForId o.order_id).total_orders_processed + 1 } :=
    inv_processed (growForId_inv hinv o.order_id) _
  rw [hg] at hb1
  have hcov0 : b.order_pool.free_indices ≠ [] → o.order_id < im.length := by
    intro hne
    have h := growForId_covers hinv o.order_id hne
    rw [hg] at h
    exact h
  suffices hsix :
      ((b.addOrder o).1.cancelOrder o.order_id).1.buy_levels = b.buy_levels ∧
      ((b.addOrder o).1.cancelOrder o.order_id).1.best_bid_idx = b.best_bid_idx ∧
      ((b.addOrder o).1.cancelOrder o.order_id).1.sell_levels = b.sell_levels ∧
      ((b.addOrder o).1.cancelOrder o.order_id).1.best_ask_idx = b.best_ask_idx ∧
      ((b.addOrder o).1.cancelOrder o.order_id).1.base_price = b.base_price ∧
      ((b.addOrder o).1.cancelOrder o.order_id).1.tick_size = b.tick_size by
    obtain ⟨h1, h2, h3, h4, h5, h6⟩ := hsix
    exact ⟨fun k => marketDepth_fields h1 h3 h5 h6 k,
      bestBid_fields h2 h5 h6, bestAsk_fields h4 h5 h6⟩
  revert hok
  rw [Book.addOrder, hg]
  split
  · intro hok
    exact absurd hok (by simp)
  · rename_i hnd
    have hmap0 : im.getD o.order_id none = none := by
      have hnd2 : ¬ ((im.getD o.order_id none).isSome = true) := hnd
      cases hx : im.getD o.order_id none with
      | none => rfl
      | some v =>
        rw [hx] at hnd2
        exact absurd rfl hnd2
    split
    · intro hok
      simp only [] at hok ⊢
      simp only [Except.ok.injEq] at hok
      exact addOrder_tail_market hb1 o rfl rfl rfl rfl rfl rfl hmap0 hok
    · split
      · rename_i hside
        simp only []
        rw [hside]
        refine addOrder_tail_buy hb1 o rfl rfl rfl rfl rfl rfl hmap0 hcov0
          hside _ _ _ ?_
        split
        · split
          · exact fun hex => matchLimitOrder_noop hb1 o hex
          · exact fun _ => ⟨rfl, rfl⟩
        · exact fun _ => ⟨rfl, rfl⟩
      · rename_i hside
        simp only []
        rw [hside]
        refine addOrder_tail_sell hb1 o rfl rfl rfl rfl rfl rfl hmap0 hcov0
          hside _ _ _ ?_
        split
        · split
          · exact fun hex => matchLimitOrder_noop hb1 o hex
          · exact fun _ => ⟨rfl, rfl⟩
        · exact fun _ => ⟨rfl, rfl⟩

theorem admit_cancel_restores_witness :
    ((Book.new "W" 8).addOrder (mkOrder 1 9900 5 Side.Buy OrderType.Limit)).2 =
        Except.ok [] ∧
      ((∀ k, (((Book.new "W" 8).addOrder
                (mkOrder 1 9900 5 Side.Buy OrderType.Limit)).1.cancelOrder
              1).1.marketDepth k = (Book.new "W" 8).marketDepth k) ∧
        (((Book.new "W" 8).addOrder
              (mkOrder 1 9900 5 Side.Buy OrderType.Limit)).1.cancelOrder
            1).1.bestBid = (Book.new "W" 8).bestBid ∧
        (((Book.new "W" 8).addOrder
              (mkOrder 1 9900 5 Side.Buy OrderType.Limit)).1.cancelOrder
            1).1.bestAsk = (Book.new "W" 8).bestAsk) :=
  ⟨by decide, admit_cancel_restores (Reachable.init "W" 8)
    (mkOrder 1 9900 5 Side.Buy OrderType.Limit) (by decide)⟩

end OB
